import Mathlib

/-!
Verification of the minard-loader load pipeline (Rust) against its
natural-language specification.

The development shallowly embeds the sources under
`src/apps/minard/minard-loader/src/`:

* `db/ids.rs`        → `IdGenerator` and its operations.  The Rust atomics
  (`AtomicI64`, `fetch_add` with `SeqCst`) linearize every call, so each
  operation is modelled as one pure state transition on the counter record;
  a concurrent execution is any interleaving, i.e. any sequence of such
  transitions.  `i64` arithmetic wraps, modelled by `wrap64`.
* `loader/discovery.rs` → `ProjectDiscovery.discover`, `find_docs_json_files`.
* `db/schema.rs` + `db/insert.rs` → the table model `Db` and the
  insert-or-ignore batch operations with the schema's uniqueness constraints.
* `loader/pipeline.rs` → `LoadPipeline.load`.

External collaborators (the document parser, the spago.lock parser, the
type renderer, the VCS extractor — out of scope per spec §1/§6) are passed
in as oracle values.  `serde_json::Value` columns are opaque to the core
(spec §6) and are modelled by the opaque alias `Json`.
-/

/-- Signed 64-bit wrap-around, the semantics of `AtomicI64::fetch_add` and of
release-mode `i64` addition. -/
def wrap64 (n : Int) : Int := (n + 2 ^ 63) % 2 ^ 64 - 2 ^ 63

/-- Largest `i64` value. -/
def maxI64 : Int := 2 ^ 63 - 1

/-- Smallest `i64` value. -/
def minI64 : Int := -(2 ^ 63)

/-- Thread-safe ID generator for parallel processing (`db/ids.rs`).  Each
`AtomicI64` is one `Int` field; atomic operations are pure state
transitions. -/
structure IdGenerator where
  project_counter : Int
  snapshot_counter : Int
  package_counter : Int
  module_counter : Int
  declaration_counter : Int
  child_counter : Int
deriving Repr, DecidableEq

/-- `IdGenerator::new`: all six counters start at 0. -/
def IdGenerator.new : IdGenerator := ⟨0, 0, 0, 0, 0, 0⟩

/-- `impl Default for IdGenerator` delegates to `new`. -/
def IdGenerator.defaultValue : IdGenerator := IdGenerator.new

/-- `IdGenerator::init_from_db`: store each maximum persisted id into the
corresponding counter. -/
def IdGenerator.init_from_db (_g : IdGenerator)
    (max_project max_snapshot max_package max_module max_decl max_child : Int) :
    IdGenerator :=
  ⟨max_project, max_snapshot, max_package, max_module, max_decl, max_child⟩

/-- `next_project_id`: `fetch_add(1)` returns the old value, the function
returns old + 1; both the stored and the returned value wrap in `i64`. -/
def IdGenerator.next_project_id (g : IdGenerator) : Int × IdGenerator :=
  (wrap64 (g.project_counter + 1), { g with project_counter := wrap64 (g.project_counter + 1) })

/-- `next_snapshot_id` (`db/ids.rs`). -/
def IdGenerator.next_snapshot_id (g : IdGenerator) : Int × IdGenerator :=
  (wrap64 (g.snapshot_counter + 1), { g with snapshot_counter := wrap64 (g.snapshot_counter + 1) })

/-- `next_package_id` (`db/ids.rs`). -/
def IdGenerator.next_package_id (g : IdGenerator) : Int × IdGenerator :=
  (wrap64 (g.package_counter + 1), { g with package_counter := wrap64 (g.package_counter + 1) })

/-- `next_module_id` (`db/ids.rs`). -/
def IdGenerator.next_module_id (g : IdGenerator) : Int × IdGenerator :=
  (wrap64 (g.module_counter + 1), { g with module_counter := wrap64 (g.module_counter + 1) })

/-- `next_declaration_id` (`db/ids.rs`). -/
def IdGenerator.next_declaration_id (g : IdGenerator) : Int × IdGenerator :=
  (wrap64 (g.declaration_counter + 1),
   { g with declaration_counter := wrap64 (g.declaration_counter + 1) })

/-- `next_child_id` (`db/ids.rs`). -/
def IdGenerator.next_child_id (g : IdGenerator) : Int × IdGenerator :=
  (wrap64 (g.child_counter + 1), { g with child_counter := wrap64 (g.child_counter + 1) })

/-- `reserve_module_ids(count)`: `fetch_add(count)` returns the old value `c`,
the counter becomes `c + count` (wrapped) and the returned first id of the
block `[start_id, start_id + count)` is `c + 1`. -/
def IdGenerator.reserve_module_ids (g : IdGenerator) (count : Int) : Int × IdGenerator :=
  (wrap64 (g.module_counter + 1), { g with module_counter := wrap64 (g.module_counter + count) })

/-- `reserve_declaration_ids` (`db/ids.rs`). -/
def IdGenerator.reserve_declaration_ids (g : IdGenerator) (count : Int) : Int × IdGenerator :=
  (wrap64 (g.declaration_counter + 1),
   { g with declaration_counter := wrap64 (g.declaration_counter + count) })

/-- `reserve_child_ids` (`db/ids.rs`). -/
def IdGenerator.reserve_child_ids (g : IdGenerator) (count : Int) : Int × IdGenerator :=
  (wrap64 (g.child_counter + 1), { g with child_counter := wrap64 (g.child_counter + count) })

/-- The six entity kinds an `IdGenerator` serves (one counter each). -/
inductive IdKind where
  | project | snapshot | package | module | declaration | child
deriving Repr, DecidableEq

/-- The counter of a given kind. -/
def IdGenerator.counter (g : IdGenerator) : IdKind → Int
  | .project => g.project_counter
  | .snapshot => g.snapshot_counter
  | .package => g.package_counter
  | .module => g.module_counter
  | .declaration => g.declaration_counter
  | .child => g.child_counter

/-- Dispatch of the six `next_*_id` functions by kind. -/
def IdGenerator.nextId (g : IdGenerator) : IdKind → Int × IdGenerator
  | .project => g.next_project_id
  | .snapshot => g.next_snapshot_id
  | .package => g.next_package_id
  | .module => g.next_module_id
  | .declaration => g.next_declaration_id
  | .child => g.next_child_id

/-- The three kinds that have a batch `reserve_*_ids` function. -/
inductive ReserveKind where
  | module | declaration | child
deriving Repr, DecidableEq

/-- Dispatch of the three `reserve_*_ids` functions by kind. -/
def IdGenerator.reserveIds (g : IdGenerator) : ReserveKind → Int → Int × IdGenerator
  | .module => g.reserve_module_ids
  | .declaration => g.reserve_declaration_ids
  | .child => g.reserve_child_ids

/-- `init_from_db` with the same maximum for every kind. -/
def IdGenerator.seedAll (g : IdGenerator) (m : Int) : IdGenerator :=
  g.init_from_db m m m m m m

/-- A sequence of `n` successive `next` calls on one kind, collecting the
returned ids in order. -/
def IdGenerator.nextSeq (k : IdKind) : Nat → IdGenerator → List Int × IdGenerator
  | 0, g => ([], g)
  | n + 1, g =>
    let (i, g1) := g.nextId k
    let (rest, g2) := IdGenerator.nextSeq k n g1
    (i :: rest, g2)

/-- One allocator call on a single kind: `next` or `reserve(count)`. -/
inductive IdOp where
  | next
  | reserve (count : Int)
deriving Repr, DecidableEq

/-- How far one call advances the counter (`next` behaves as `reserve 1`). -/
def IdOp.opCount : IdOp → Int
  | .next => 1
  | .reserve c => c

/-- Total counter advance of a call sequence. -/
def totalCount (ops : List IdOp) : Int := (ops.map IdOp.opCount).sum

/-- Run a linearized sequence of `next_module_id` / `reserve_module_ids` calls
(any interleaving of concurrent callers is such a sequence, because each call
is a single `SeqCst` fetch-and-add).  Returns the list of
`(first_id, count)` pairs, one per call, and the final generator. -/
def runModuleOps : List IdOp → IdGenerator → List (Int × Int) × IdGenerator
  | [], g => ([], g)
  | .next :: ops, g =>
    let (i, g1) := g.next_module_id
    let (rest, g2) := runModuleOps ops g1
    ((i, 1) :: rest, g2)
  | .reserve c :: ops, g =>
    let (i, g1) := g.reserve_module_ids c
    let (rest, g2) := runModuleOps ops g1
    ((i, c) :: rest, g2)

/-- Membership of an integer in a half-open id range `[first, first + count)`. -/
def inRange (x : Int) (r : Int × Int) : Prop := r.1 ≤ x ∧ x < r.1 + r.2

/-- A filesystem path, as its list of components (`PathBuf`). -/
abbrev FsPath := List String

/-- `Path::file_name`: the last component. -/
def pathFileName (p : FsPath) : Option String := p.getLast?

/-- `PathBuf`'s `Ord`: lexicographic over components (used by `Vec::sort`). -/
def pathLeB : FsPath → FsPath → Bool
  | [], _ => true
  | _ :: _, [] => false
  | a :: as, b :: bs => if a = b then pathLeB as bs else decide (a < b)

/-- Render a path (`Path::to_str`, always UTF-8 in the model). -/
def pathToString (p : FsPath) : String := String.intercalate "/" p

/-- A node of the on-disk tree under a directory.  `unreadable` stands for a
directory entry whose read fails: `walkdir` yields it as an `Err` item. -/
inductive FsNode where
  | file (name : String)
  | dir (name : String) (children : List FsNode)
  | unreadable (name : String)

/-- Name of a node. -/
def FsNode.name : FsNode → String
  | .file n => n
  | .dir n _ => n
  | .unreadable n => n

/-- The `walkdir` item for one directory entry: `Err` for an unreadable
entry, `Ok` with its path otherwise. -/
def FsNode.entry (c : FsNode) (cp : FsPath) : Except Unit FsPath :=
  match c with
  | .unreadable _ => .error ()
  | _ => .ok cp

/-- An entry that `WalkDir` can yield as `Ok` (readable). -/
def FsNode.readableEntry : FsNode → Bool
  | .unreadable _ => false
  | _ => true

mutual
/-- `WalkDir` over one entry `c` at depth `d + 1` (its parent directory sits
at depth `d`, path `p`): yield the entry when its depth is within
`[minD, maxD]`, and descend into readable directories while below `maxD`. -/
def walkChild (minD maxD d : Nat) (p : FsPath) (c : FsNode) : List (Except Unit FsPath) :=
  (if minD ≤ d + 1 ∧ d + 1 ≤ maxD then [c.entry (p ++ [c.name])] else []) ++
  (match c with
   | .dir _ cs => if d + 1 < maxD then walkChildren minD maxD (d + 1) (p ++ [c.name]) cs else []
   | _ => [])

/-- `WalkDir` over the children of a directory at depth `d`, in order. -/
def walkChildren (minD maxD d : Nat) (p : FsPath) : List FsNode → List (Except Unit FsPath)
  | [] => []
  | c :: cs => walkChild minD maxD d p c ++ walkChildren minD maxD d p cs
end

/-- `find_docs_json_files` (`loader/discovery.rs`): walk the output directory
with `min_depth(2).max_depth(2)`, drop errored entries (`filter_map(e.ok())`),
keep entries named `docs.json`, and sort. -/
def find_docs_json_files (output_dir : FsPath) (t : FsNode) : List FsPath :=
  let walked := match t with
    | .dir _ cs => walkChildren 2 2 0 output_dir cs
    | _ => []
  let files := (walked.filterMap Except.toOption).filter
    (fun p => pathFileName p == some "docs.json")
  files.mergeSort pathLeB

/-- `module_name_from_path` (`loader/discovery.rs`): the parent directory's
name, e.g. `output/Data.Maybe/docs.json ↦ "Data.Maybe"`. -/
def module_name_from_path (docs_path : FsPath) : Option String :=
  docs_path.dropLast.getLast?

/-- Specification-side description of the readable entries sitting exactly
two directory levels below the root (grandchildren of the root reachable
through a readable depth-1 directory). -/
def depth2Entries (output_dir : FsPath) (t : FsNode) : List FsPath :=
  match t with
  | .dir _ cs =>
    cs.flatMap fun c =>
      match c with
      | .dir n1 cs2 =>
        cs2.filterMap fun c2 =>
          if c2.readableEntry then some (output_dir ++ [n1, c2.name]) else none
      | _ => []
  | _ => []

/-- Modelled from the spec: the error taxonomy of `error.rs`, which is not
under `src/`; variants follow spec §7 and the constructors used by
`loader/discovery.rs` (the three distinct not-found conditions), with
`StoreError` for store failures and `ParseError` for a malformed document. -/
inductive LoaderError where
  | ProjectNotFound (path : FsPath)
  | SpagoLockNotFound (path : FsPath)
  | OutputDirNotFound (path : FsPath)
  | StoreError
  | ParseError
deriving Repr, DecidableEq

/-- The filesystem as the discovery phase observes it: an existence test per
path plus the tree rooted at a path (walked only for the output directory). -/
structure Fs where
  exists_ : FsPath → Bool
  tree : FsPath → FsNode

/-- Discovered project structure (`loader/discovery.rs`). -/
structure ProjectDiscovery where
  project_path : FsPath
  spago_lock_path : FsPath
  output_dir : FsPath
  docs_json_files : List FsPath
deriving Repr, DecidableEq

/-- `ProjectDiscovery::module_count`. -/
def ProjectDiscovery.module_count (d : ProjectDiscovery) : Nat :=
  d.docs_json_files.length

/-- `ProjectDiscovery::discover` (`loader/discovery.rs`): the three existence
checks, in order, before any other work (the function has no access to the
store at all), then enumeration of the document files. -/
def ProjectDiscovery.discover (fs : Fs) (project_path : FsPath) :
    Except LoaderError ProjectDiscovery :=
  if fs.exists_ project_path = false then
    .error (.ProjectNotFound project_path)
  else
    let spago_lock_path := project_path ++ ["spago.lock"]
    if fs.exists_ spago_lock_path = false then
      .error (.SpagoLockNotFound spago_lock_path)
    else
      let output_dir := project_path ++ ["output"]
      if fs.exists_ output_dir = false then
        .error (.OutputDirNotFound output_dir)
      else
        .ok ⟨project_path, spago_lock_path, output_dir,
             find_docs_json_files output_dir (fs.tree output_dir)⟩

/-- `serde_json::Value` sub-documents are opaque to the core (spec §6):
modelled as their serialized text. -/
abbrev Json := String

/-- Row of `projects` (`model/entities.rs`, `db/schema.rs`): primary key
`id`, unique `name`. -/
structure ProjectRow where
  id : Int
  name : String
  repo_path : Option String
  description : Option String
deriving Repr, DecidableEq

/-- Row of `snapshots`: primary key `id`, unique `(project_id, git_hash)`
(SQL treats two NULL hashes as distinct). -/
structure SnapshotRow where
  id : Int
  project_id : Int
  git_hash : Option String
  git_ref : Option String
  label : Option String
deriving Repr, DecidableEq

/-- Row of `package_versions`: primary key `id`, unique `(name, version)`. -/
structure PackageVersionRow where
  id : Int
  name : String
  version : String
  description : Option String
  license : Option String
  repository : Option String
  source : String
deriving Repr, DecidableEq

/-- Row of `package_dependencies`: primary key
`(dependent_id, dependency_name)`. -/
structure PackageDependencyRow where
  dependent_id : Int
  dependency_name : String
deriving Repr, DecidableEq

/-- Row of `snapshot_packages`: primary key
`(snapshot_id, package_version_id)`. -/
structure SnapshotPackageRow where
  snapshot_id : Int
  package_version_id : Int
  source : String
  is_direct : Bool
deriving Repr, DecidableEq

/-- Row of `modules`: primary key `id`, unique `(package_version_id, name)`. -/
structure ModuleRow where
  id : Int
  package_version_id : Int
  name : String
  path : Option String
  comments : Option String
deriving Repr, DecidableEq

/-- Row of `declarations`: primary key `id`, unique `(module_id, name)`;
the serialized sub-document columns are opaque `Json`. -/
structure DeclarationRow where
  id : Int
  module_id : Int
  name : String
  kind : String
  type_signature : Option String
  type_ast : Option Json
  data_decl_type : Option String
  type_arguments : Option Json
  roles : Option Json
  superclasses : Option Json
  fundeps : Option Json
  synonym_type : Option Json
  comments : Option String
  source_span : Option Json
deriving Repr, DecidableEq

/-- Row of `child_declarations`: primary key `id` only (append-only). -/
structure ChildDeclarationRow where
  id : Int
  declaration_id : Int
  name : String
  kind : String
  type_signature : Option String
  type_ast : Option Json
  constructor_args : Option Json
  instance_chain : Option Json
  instance_constraints : Option Json
  comments : Option String
  source_span : Option Json
deriving Repr, DecidableEq

/-- The persisted store: the eight entity tables of `db/schema.rs`, each a
list of rows in insertion order.  (The `metadata` table is touched only by
schema initialization and carries no entity data.) -/
structure Db where
  projects : List ProjectRow
  snapshots : List SnapshotRow
  package_versions : List PackageVersionRow
  package_dependencies : List PackageDependencyRow
  snapshot_packages : List SnapshotPackageRow
  modules : List ModuleRow
  declarations : List DeclarationRow
  child_declarations : List ChildDeclarationRow
deriving Repr, DecidableEq

/-- A freshly initialized store (`init_schema`): all tables empty. -/
def Db.empty : Db := ⟨[], [], [], [], [], [], [], []⟩

/-- The row counts of the eight tables, in schema order. -/
def Db.counts (db : Db) : List Nat :=
  [db.projects.length, db.snapshots.length, db.package_versions.length,
   db.package_dependencies.length, db.snapshot_packages.length,
   db.modules.length, db.declarations.length, db.child_declarations.length]

/-- Does row `q`, already in the table, block the insertion of row `r` under
the `projects` constraints (primary key `id`, unique `name`)? -/
def projectCk (q r : ProjectRow) : Bool :=
  q.id == r.id || q.name == r.name

/-- `snapshots` constraints: primary key `id`, unique `(project_id, git_hash)`
with NULL hashes distinct. -/
def snapshotCk (q r : SnapshotRow) : Bool :=
  q.id == r.id || (q.project_id == r.project_id && r.git_hash.isSome && q.git_hash == r.git_hash)

/-- `package_versions` constraints: primary key `id`, unique `(name, version)`. -/
def packageVersionCk (q r : PackageVersionRow) : Bool :=
  q.id == r.id || (q.name == r.name && q.version == r.version)

/-- `package_dependencies` constraint: primary key
`(dependent_id, dependency_name)`. -/
def packageDependencyCk (q r : PackageDependencyRow) : Bool :=
  q.dependent_id == r.dependent_id && q.dependency_name == r.dependency_name

/-- `snapshot_packages` constraint: primary key
`(snapshot_id, package_version_id)`. -/
def snapshotPackageCk (q r : SnapshotPackageRow) : Bool :=
  q.snapshot_id == r.snapshot_id && q.package_version_id == r.package_version_id

/-- `modules` constraints: primary key `id`, unique
`(package_version_id, name)`. -/
def moduleCk (q r : ModuleRow) : Bool :=
  q.id == r.id || (q.package_version_id == r.package_version_id && q.name == r.name)

/-- `declarations` constraints: primary key `id`, unique `(module_id, name)`. -/
def declarationCk (q r : DeclarationRow) : Bool :=
  q.id == r.id || (q.module_id == r.module_id && q.name == r.name)

/-- `child_declarations` constraint: primary key `id`. -/
def childDeclarationCk (q r : ChildDeclarationRow) : Bool :=
  q.id == r.id

/-- Does any persisted row conflict with candidate `r`? -/
def rowConflict (ck : α → α → Bool) (t : List α) (r : α) : Bool :=
  t.any fun q => ck q r

/-- One `INSERT OR IGNORE`: drop the candidate on a constraint conflict,
append it otherwise (spec glossary: insert-or-ignore). -/
def insertOrIgnoreRow (ck : α → α → Bool) (t : List α) (r : α) : List α :=
  if rowConflict ck t r then t else t ++ [r]

/-- A batch of `INSERT OR IGNORE` statements, one per candidate, in order. -/
def insertOrIgnoreAll (ck : α → α → Bool) (t : List α) (rs : List α) : List α :=
  rs.foldl (insertOrIgnoreRow ck) t

/-- A batch of `INSERT OR IGNORE` statements against a table with enforced
foreign keys (the store is DuckDB; `REFERENCES` clauses of `db/schema.rs`
are checked): a candidate that conflicts on a primary/unique key is skipped,
a non-conflicting candidate whose foreign reference dangles raises a
constraint error — aborting the remainder of the batch while keeping the
rows already appended, since the statements run outside any transaction —
and any other candidate is appended.  Returns the resulting table and
whether the whole batch succeeded. -/
def insertFkAll (ck : α → α → Bool) (fk : α → Bool) (t : List α) : List α → List α × Bool
  | [] => (t, true)
  | r :: rs =>
    if rowConflict ck t r then insertFkAll ck fk t rs
    else if fk r then insertFkAll ck fk (t ++ [r]) rs
    else (t, false)

/-- `get_or_create_project` (`db/insert.rs`): look up by name; reuse the
persisted id when found, otherwise run a plain `INSERT` (which fails on a
constraint violation) with the caller's speculative id. -/
def get_or_create_project (db : Db) (id : Int) (name : String) (repo_path : Option String) :
    Except LoaderError (Int × Db) :=
  match db.projects.find? (fun p => p.name == name) with
  | some p => .ok (p.id, db)
  | none =>
    if db.projects.any (fun p => p.id == id || p.name == name) then
      .error .StoreError
    else
      .ok (id, { db with projects := db.projects ++ [⟨id, name, repo_path, none⟩] })

/-- `insert_snapshot` (`db/insert.rs`): `snapshots.project_id` references
`projects(id)`. -/
def insert_snapshot (db : Db) (s : SnapshotRow) : Db × Bool :=
  let r := insertFkAll snapshotCk
    (fun s2 => db.projects.any fun p => p.id == s2.project_id) db.snapshots [s]
  ({ db with snapshots := r.1 }, r.2)

/-- `insert_snapshot_packages` (`db/insert.rs`): `snapshot_id` references
`snapshots(id)` and `package_version_id` references `package_versions(id)`. -/
def insert_snapshot_packages (db : Db) (ps : List SnapshotPackageRow) : Db × Bool :=
  let r := insertFkAll snapshotPackageCk
    (fun sp => (db.snapshots.any fun s => s.id == sp.snapshot_id) &&
               (db.package_versions.any fun p => p.id == sp.package_version_id))
    db.snapshot_packages ps
  ({ db with snapshot_packages := r.1 }, r.2)

/-- `insert_package_versions` (`db/insert.rs`): `package_versions` carries no
foreign key, so the batch never errors. -/
def insert_package_versions (db : Db) (ps : List PackageVersionRow) : Db :=
  { db with package_versions := insertOrIgnoreAll packageVersionCk db.package_versions ps }

/-- `insert_package_dependencies` (`db/insert.rs`): `dependent_id` references
`package_versions(id)`. -/
def insert_package_dependencies (db : Db) (ds : List PackageDependencyRow) : Db × Bool :=
  let r := insertFkAll packageDependencyCk
    (fun d => db.package_versions.any fun p => p.id == d.dependent_id)
    db.package_dependencies ds
  ({ db with package_dependencies := r.1 }, r.2)

/-- `insert_modules` (`db/insert.rs`): `package_version_id` references
`package_versions(id)`. -/
def insert_modules (db : Db) (ms : List ModuleRow) : Db × Bool :=
  let r := insertFkAll moduleCk
    (fun m => db.package_versions.any fun p => p.id == m.package_version_id)
    db.modules ms
  ({ db with modules := r.1 }, r.2)

/-- `insert_declarations` (`db/insert.rs`): `module_id` references
`modules(id)`; serializing the `Json` columns is the identity on the opaque
model. -/
def insert_declarations (db : Db) (ds : List DeclarationRow) : Db × Bool :=
  let r := insertFkAll declarationCk
    (fun d => db.modules.any fun m => m.id == d.module_id)
    db.declarations ds
  ({ db with declarations := r.1 }, r.2)

/-- `insert_child_declarations` (`db/insert.rs`): `declaration_id` references
`declarations(id)`. -/
def insert_child_declarations (db : Db) (cs : List ChildDeclarationRow) : Db × Bool :=
  let r := insertFkAll childDeclarationCk
    (fun c => db.declarations.any fun d => d.id == c.declaration_id)
    db.child_declarations cs
  ({ db with child_declarations := r.1 }, r.2)

/-- The id map returned by `insert_package_versions_with_ids`: a `HashMap`
keyed by `(name, version)`, modelled as its insertion sequence. -/
abbrev PkgIdMap := List ((String × String) × Int)

/-- `HashMap::get`: the most recent binding wins. -/
def alGet [BEq κ] (m : List (κ × β)) (k : κ) : Option β :=
  (m.reverse.find? fun e => e.1 == k).map (·.2)

/-- The re-read loop of `insert_package_versions_with_ids`: for each candidate,
`query_row` the authoritative id by `(name, version)`; no matching row is the
`QueryReturnedNoRows` store error. -/
def queryIdsBack (t : List PackageVersionRow) : List PackageVersionRow → Except LoaderError PkgIdMap
  | [] => .ok []
  | r :: rs =>
    match t.find? (fun q => q.name == r.name && q.version == r.version) with
    | none => .error .StoreError
    | some q =>
      match queryIdsBack t rs with
      | .error e => .error e
      | .ok m => .ok (((r.name, r.version), q.id) :: m)

/-- `insert_package_versions_with_ids` (`db/insert.rs`): speculative batch
insert-or-ignore, then re-read every candidate's authoritative id keyed by
`(name, version)`.  The batch insert persists even when a re-read fails. -/
def insert_package_versions_with_ids (db : Db) (ps : List PackageVersionRow) :
    Db × Except LoaderError PkgIdMap :=
  let db' := insert_package_versions db ps
  (db', queryIdsBack db'.package_versions ps)

/-- Version-control identity (`get_vcs_info` collaborator, spec §6):
`git.rs::GitInfo`. -/
structure GitInfo where
  hash : String
  ref_name : Option String
deriving Repr, DecidableEq

/-- Modelled from the spec: one resolved dependency of the lock manifest
(spec §6: name, version, source classification, dependency names);
`parse/spago_lock.rs` is not under `src/`, so `SpagoLock::all_packages` is
an oracle yielding this list. -/
structure PkgInfo where
  name : String
  version : String
  source : String
  dependencies : List String
deriving Repr, DecidableEq

/-- A child of a parsed declaration, carrying the external parser's and
renderer's outputs for the columns of `child_declarations`
(the collaborators of spec §6 are out of scope). -/
structure DocChildSrc where
  title : String
  kind : String
  type_signature : Option String
  type_ast : Option Json
  constructor_args : Option Json
  instance_constraints : Option Json
  comments : Option String
  source_span : Option Json
deriving Repr, DecidableEq

/-- A parsed top-level declaration, carrying the external parser's and
renderer's outputs for the columns of `declarations`. -/
structure DocDeclSrc where
  title : String
  kind : String
  type_signature : Option String
  type_ast : Option Json
  data_decl_type : Option String
  type_arguments : Option Json
  roles : Option Json
  superclasses : Option Json
  fundeps : Option Json
  synonym_type : Option Json
  comments : Option String
  source_span : Option Json
  children : List DocChildSrc
deriving Repr, DecidableEq

/-- One parsed document (`parse_document` collaborator, spec §6): module
name, comments and the declaration tree. -/
structure DocSrc where
  name : String
  comments : Option String
  declarations : List DocDeclSrc
deriving Repr, DecidableEq

/-- Result of parsing one docs.json file (`model/entities.rs::ParsedModule`). -/
structure ParsedModule where
  module : ModuleRow
  declarations : List DeclarationRow
  child_declarations : List ChildDeclarationRow
deriving Repr, DecidableEq

/-- Statistics from a load (`model/entities.rs::LoadStats`); wall-clock time
is not modelled, `elapsed_ms` stays 0. -/
structure LoadStats where
  project_name : String
  snapshot_label : Option String
  packages_loaded : Nat
  modules_loaded : Nat
  declarations_loaded : Nat
  child_declarations_loaded : Nat
  dependencies_loaded : Nat
  parse_errors : Nat
  elapsed_ms : Nat
deriving Repr, DecidableEq

/-- The external collaborators a load consumes (spec §6): the per-file
document parser, the parsed lock manifest, and the VCS info of the project
path. -/
structure LoadEnv where
  parseDoc : FsPath → Except Unit DocSrc
  spagoLock : Except LoaderError (List PkgInfo)
  gitInfo : Option GitInfo

/-- Phase 4 allocation loop of `LoadPipeline::load`: one speculative
`next_package_id` per manifest entry, building the candidate rows in order. -/
def allocPkgRows : List PkgInfo → IdGenerator → List PackageVersionRow × IdGenerator
  | [], g => ([], g)
  | p :: ps, g =>
    let (pkg_id, g1) := g.next_package_id
    let (rest, g2) := allocPkgRows ps g1
    (⟨pkg_id, p.name, p.version, none, none, none, p.source⟩ :: rest, g2)

/-- The child-declaration loop of `LoadPipeline::parse_docs_json`:
`instance_chain` is always `None` in the source. -/
def buildChildRows (declaration_id : Int) :
    List DocChildSrc → IdGenerator → List ChildDeclarationRow × IdGenerator
  | [], g => ([], g)
  | c :: cs, g =>
    let (child_id, g1) := g.next_child_id
    let row : ChildDeclarationRow :=
      ⟨child_id, declaration_id, c.title, c.kind, c.type_signature, c.type_ast,
       c.constructor_args, none, c.instance_constraints, c.comments, c.source_span⟩
    let (rest, g2) := buildChildRows declaration_id cs g1
    (row :: rest, g2)

/-- The declaration loop of `LoadPipeline::parse_docs_json`: fresh ids for
each declaration and its children, preserving parser order. -/
def buildDeclRows (module_id : Int) :
    List DocDeclSrc → IdGenerator → List DeclarationRow × List ChildDeclarationRow × IdGenerator
  | [], g => ([], [], g)
  | d :: ds, g =>
    let (decl_id, g1) := g.next_declaration_id
    let row : DeclarationRow :=
      ⟨decl_id, module_id, d.title, d.kind, d.type_signature, d.type_ast,
       d.data_decl_type, d.type_arguments, d.roles, d.superclasses, d.fundeps,
       d.synonym_type, d.comments, d.source_span⟩
    let (children, g2) := buildChildRows decl_id d.children g1
    let (restD, restC, g3) := buildDeclRows module_id ds g2
    (row :: restD, children ++ restC, g3)

/-- `LoadPipeline::parse_docs_json`: allocate a fresh module id, build the
module row (its `path` column is the parent directory's name) and the
declaration/child rows. -/
def parse_docs_json (g : IdGenerator) (docs_path : FsPath) (package_id : Int) (doc : DocSrc) :
    ParsedModule × IdGenerator :=
  let (module_id, g1) := g.next_module_id
  let module : ModuleRow :=
    ⟨module_id, package_id, doc.name, module_name_from_path docs_path, doc.comments⟩
  let (decls, children, g2) := buildDeclRows module_id doc.declarations g1
  (⟨module, decls, children⟩, g2)

/-- Phase 5 of `LoadPipeline::load`: the rayon worker pool.  The
order-preserving `par_iter().filter_map().collect()` keeps successes in file
order and counts failures; id allocation is linearized here in file order
(one admissible schedule of the atomic allocator). -/
def parsePhase (parseDoc : FsPath → Except Unit DocSrc) (package_id : Int) :
    List FsPath → IdGenerator → List ParsedModule × IdGenerator × Nat
  | [], g => ([], g, 0)
  | f :: fs, g =>
    match parseDoc f with
    | .error _ =>
      let (ps, g', n) := parsePhase parseDoc package_id fs g
      (ps, g', n + 1)
    | .ok doc =>
      let (pm, g1) := parse_docs_json g f package_id doc
      let (ps, g', n) := parsePhase parseDoc package_id fs g1
      (pm :: ps, g', n)

/-- `LoadPipeline::load` (`loader/pipeline.rs`): the seven phases in source
order — project get-or-create, snapshot insert-or-ignore, manifest parse,
package ingestion with id reconciliation, workspace package, snapshot
associations, parallel parse, ordered batch insertion, stats.  The store and
generator are threaded explicitly; an insert that raises a constraint error
(a dangling foreign reference, or the plain project insert failing) aborts
the load with the store as mutated so far, since no transaction wraps the
statements. -/
def LoadPipeline.load (db : Db) (g : IdGenerator) (env : LoadEnv)
    (discovery : ProjectDiscovery) (project_name : String) (snapshot_label : Option String) :
    Db × IdGenerator × Except LoaderError LoadStats :=
  -- Phase 1: Get or create project
  let spec_project_id := (g.next_project_id).1
  let g1 := (g.next_project_id).2
  match get_or_create_project db spec_project_id project_name
      (some (pathToString discovery.project_path)) with
  | .error e => (db, g1, .error e)
  | .ok (project_id, db1) =>
    -- Phase 2: Get git info and create snapshot
    let snapshot_id := (g1.next_snapshot_id).1
    let g2 := (g1.next_snapshot_id).2
    let label := ((snapshot_label.orElse fun _ => env.gitInfo.bind (·.ref_name)).getD "manual")
    let snap : SnapshotRow :=
      ⟨snapshot_id, project_id, env.gitInfo.map (·.hash), env.gitInfo.bind (·.ref_name),
       some label⟩
    let db2 := (insert_snapshot db1 snap).1
    if (insert_snapshot db1 snap).2 then
      -- Phase 3: Parse spago.lock
      match env.spagoLock with
      | .error e => (db2, g2, .error e)
      | .ok packages =>
        -- Phase 4: Create package versions, reconcile ids, dependencies
        let package_versions := (allocPkgRows packages g2).1
        let g3 := (allocPkgRows packages g2).2
        let db3 := (insert_package_versions_with_ids db2 package_versions).1
        match (insert_package_versions_with_ids db2 package_versions).2 with
        | .error e => (db3, g3, .error e)
        | .ok pkg_id_map =>
          let package_map : List (String × Int) :=
            package_versions.foldl (fun m pkg =>
              match alGet pkg_id_map (pkg.name, pkg.version) with
              | some actual_id => m ++ [(pkg.name, actual_id)]
              | none => m) []
          let package_deps : List PackageDependencyRow :=
            packages.flatMap fun pkg_info =>
              match alGet package_map pkg_info.name with
              | some pkg_id => pkg_info.dependencies.map fun dep_name => ⟨pkg_id, dep_name⟩
              | none => []
          let db4 := (insert_package_dependencies db3 package_deps).1
          if (insert_package_dependencies db3 package_deps).2 then
            -- Workspace package for local modules
            let spec_ws_id := (g3.next_package_id).1
            let g4 := (g3.next_package_id).2
            let workspace_pkg : PackageVersionRow :=
              ⟨spec_ws_id, project_name, "0.0.0",
               some ("Workspace package for " ++ project_name), none, none, "workspace"⟩
            let db5 := (insert_package_versions_with_ids db4 [workspace_pkg]).1
            match (insert_package_versions_with_ids db4 [workspace_pkg]).2 with
            | .error e => (db5, g4, .error e)
            | .ok workspace_id_map =>
              let workspace_pkg_id :=
                (alGet workspace_id_map (project_name, "0.0.0")).getD spec_ws_id
              -- Snapshot packages with actual ids, workspace last and direct
              let snapshot_packages : List SnapshotPackageRow :=
                (package_versions.filterMap fun pkg =>
                  (alGet pkg_id_map (pkg.name, pkg.version)).map fun actual_id =>
                    ⟨snapshot_id, actual_id, pkg.source, false⟩) ++
                [⟨snapshot_id, workspace_pkg_id, "workspace", true⟩]
              let db6 := (insert_snapshot_packages db5 snapshot_packages).1
              if (insert_snapshot_packages db5 snapshot_packages).2 then
                -- Phase 5: Parse docs.json files (worker pool)
                let parsed_modules :=
                  (parsePhase env.parseDoc workspace_pkg_id discovery.docs_json_files g4).1
                let g5 :=
                  (parsePhase env.parseDoc workspace_pkg_id discovery.docs_json_files g4).2.1
                let parse_errors :=
                  (parsePhase env.parseDoc workspace_pkg_id discovery.docs_json_files g4).2.2
                -- Phase 6: Insert into database, parents before children
                let all_modules := parsed_modules.map (·.module)
                let all_declarations := parsed_modules.flatMap (·.declarations)
                let all_children := parsed_modules.flatMap (·.child_declarations)
                let db7 := (insert_modules db6 all_modules).1
                if (insert_modules db6 all_modules).2 then
                  let db8 := (insert_declarations db7 all_declarations).1
                  if (insert_declarations db7 all_declarations).2 then
                    let db9 := (insert_child_declarations db8 all_children).1
                    if (insert_child_declarations db8 all_children).2 then
                      -- Phase 7: Report
                      (db9, g5, .ok
                        { project_name := project_name
                          snapshot_label := some label
                          packages_loaded := package_versions.length + 1
                          modules_loaded := all_modules.length
                          declarations_loaded := all_declarations.length
                          child_declarations_loaded := all_children.length
                          dependencies_loaded := package_deps.length
                          parse_errors := parse_errors
                          elapsed_ms := 0 })
                    else (db9, g5, .error .StoreError)
                  else (db8, g5, .error .StoreError)
                else (db7, g5, .error .StoreError)
              else (db6, g4, .error .StoreError)
          else (db4, g3, .error .StoreError)
    else (db2, g2, .error .StoreError)

/-- Every foreign reference of the persisted store resolves (spec §3/§8):
declarations → modules, child declarations → declarations,
modules → package versions, snapshot associations → snapshots and
package versions. -/
def Db.refIntegrity (db : Db) : Bool :=
  db.declarations.all (fun d => db.modules.any fun m => m.id == d.module_id) &&
  db.child_declarations.all (fun c => db.declarations.any fun d => d.id == c.declaration_id) &&
  db.modules.all (fun m => db.package_versions.any fun p => p.id == m.package_version_id) &&
  db.snapshot_packages.all (fun sp =>
    db.snapshots.any (fun s => s.id == sp.snapshot_id) &&
    db.package_versions.any (fun p => p.id == sp.package_version_id))

/-- The documents the worker pool parses successfully, in file order. -/
def parsedDocs (pd : FsPath → Except Unit DocSrc) (files : List FsPath) : List DocSrc :=
  files.filterMap fun f => (pd f).toOption

/-- Number of top-level declarations of a parsed document. -/
def docDeclCount (d : DocSrc) : Nat := d.declarations.length

/-- Number of child declarations under a list of parsed declarations. -/
def declsChildCount (ds : List DocDeclSrc) : Nat := (ds.map fun dd => dd.children.length).sum

/-- Number of child declarations of a parsed document. -/
def docChildCount (d : DocSrc) : Nat := declsChildCount d.declarations

/-- Hypotheses for a load that completes against a store.  The six counters
are seeded at or above every persisted id of their kind (spec §4.1: `seed`
runs before allocating against an existing store) with headroom for this
load's allocations, keeping `i64` arithmetic exact; the snapshot about to be
created is new (no persisted snapshot of this commit hash — re-loading a
persisted commit violates the `snapshot_id` foreign key and aborts); the
module/declaration/child tables hold no prior content (a deduplicated module
would leave its declarations' `module_id` dangling and abort); manifest
entries are keyed by name (`spago.lock` is name-keyed); and parsed module
names and per-document declaration titles are distinct, as the uniqueness
constraints of `db/schema.rs` require for a clean batch. -/
structure LoadReady (db : Db) (g : IdGenerator) (env : LoadEnv)
    (disc : ProjectDiscovery) (packages : List PkgInfo) : Prop where
  proj_lo : minI64 ≤ g.project_counter
  proj_hi : g.project_counter + 1 ≤ maxI64
  proj_seeded : ∀ r ∈ db.projects, r.id ≤ g.project_counter
  snap_lo : 0 ≤ g.snapshot_counter
  snap_hi : g.snapshot_counter + 1 ≤ maxI64
  snap_seeded : ∀ s ∈ db.snapshots, s.id ≤ g.snapshot_counter
  snap_fresh : ∀ s ∈ db.snapshots, ∀ gi, env.gitInfo = some gi → s.git_hash ≠ some gi.hash
  sp_seeded : ∀ sp ∈ db.snapshot_packages, sp.snapshot_id ≤ g.snapshot_counter
  pkg_lo : minI64 ≤ g.package_counter
  pkg_hi : g.package_counter + packages.length + 1 ≤ maxI64
  pkg_seeded : ∀ r ∈ db.package_versions, r.id ≤ g.package_counter
  pkg_names_nodup : (packages.map fun p => p.name).Nodup
  mods_empty : db.modules = []
  decls_empty : db.declarations = []
  children_empty : db.child_declarations = []
  mod_lo : 0 ≤ g.module_counter
  mod_hi : g.module_counter + (parsedDocs env.parseDoc disc.docs_json_files).length ≤ maxI64
  decl_lo : 0 ≤ g.declaration_counter
  decl_hi : g.declaration_counter +
    ((parsedDocs env.parseDoc disc.docs_json_files).map docDeclCount).sum ≤ maxI64
  child_lo : 0 ≤ g.child_counter
  child_hi : g.child_counter +
    ((parsedDocs env.parseDoc disc.docs_json_files).map docChildCount).sum ≤ maxI64
  mod_names_nodup : ((parsedDocs env.parseDoc disc.docs_json_files).map fun d => d.name).Nodup
  decl_titles_nodup : ∀ d ∈ parsedDocs env.parseDoc disc.docs_json_files,
    (d.declarations.map fun dd => dd.title).Nodup

/-- Uniqueness invariants of the schema on a store state: no two rows of a
table agree on a primary or unique key (NULL snapshot hashes distinct). -/
def DbWF (db : Db) : Prop :=
  db.projects.Pairwise (fun a b => a.id ≠ b.id ∧ a.name ≠ b.name) ∧
  db.snapshots.Pairwise (fun a b => a.id ≠ b.id) ∧
  db.package_versions.Pairwise
    (fun a b => a.id ≠ b.id ∧ ¬(a.name = b.name ∧ a.version = b.version)) ∧
  db.modules.Pairwise
    (fun a b => a.id ≠ b.id ∧ ¬(a.package_version_id = b.package_version_id ∧ a.name = b.name))

/-- Concrete re-load scenario: a project at `root` with a commit hash but no
manifest entries and no document files. -/
def cexDiscovery : ProjectDiscovery :=
  ⟨["root"], ["root", "spago.lock"], ["root", "output"], []⟩

/-- Environment of the re-load scenario: empty manifest, VCS hash `"h"`. -/
def cexEnv : LoadEnv :=
  ⟨fun _ => .error (), .ok [], some ⟨"h", none⟩⟩

/-- The value of the id map that the re-read loop of
`insert_package_versions_with_ids` produces on success: each candidate's key
bound to the id found at that key in the post-insert table. -/
def reconciledIds (t : List PackageVersionRow) (rs : List PackageVersionRow) : PkgIdMap :=
  rs.map fun r =>
    ((r.name, r.version),
     (((t.find? fun q => q.name == r.name && q.version == r.version).map (·.id)).getD 0))

/-- Fixture: a filesystem where no path exists. -/
def fsAllMissing : Fs := ⟨fun _ => false, fun _ => FsNode.file ""⟩

/-- Fixture: a filesystem with every path present and a small output tree —
two module directories with document files (out of input order), one
unreadable entry, one loose file, and a directory whose document entry is
unreadable. -/
def fsFull : Fs :=
  ⟨fun _ => true,
   fun _ => FsNode.dir "output"
     [FsNode.dir "B" [FsNode.file "docs.json", FsNode.file "other"],
      FsNode.dir "A" [FsNode.file "docs.json"],
      FsNode.unreadable "U",
      FsNode.file "loose",
      FsNode.dir "C" [FsNode.unreadable "docs.json"]]⟩

/-- Fixture manifest for an end-to-end load: one dependency with one
dependency name of its own. -/
def wPackages : List PkgInfo := [⟨"foo-lib", "1.2.0", "registry", ["bar-lib"]⟩]

/-- Fixture parse oracle: `Data.Foo` parses to one function declaration,
every other file is malformed. -/
def wParse : FsPath → Except Unit DocSrc := fun p =>
  if p = ["root", "output", "Data.Foo", "docs.json"] then
    .ok ⟨"Data.Foo", none,
         [⟨"foo", "function", some "Int", none, none, none, none, none, none, none,
           none, none, []⟩]⟩
  else .error ()

/-- Fixture load environment: the manifest above, a commit hash and ref. -/
def wEnv : LoadEnv := ⟨wParse, .ok wPackages, some ⟨"h", some "main"⟩⟩

/-- Fixture discovery result: two document files, one of which is malformed. -/
def wDiscovery : ProjectDiscovery :=
  ⟨["root"], ["root", "spago.lock"], ["root", "output"],
   [["root", "output", "Data.Bar", "docs.json"], ["root", "output", "Data.Foo", "docs.json"]]⟩

/-! ### Helper lemmas -/

/-- `wrap64` is the identity on the `i64` range. -/
theorem wrap64_eq_self {n : Int} (h0 : minI64 ≤ n) (h1 : n ≤ maxI64) : wrap64 n = n := by
  have hlo : 0 ≤ n + 2 ^ 63 := by
    simp only [minI64] at h0; omega
  have hhi : n + 2 ^ 63 < 2 ^ 64 := by
    simp only [maxI64] at h1; omega
  simp only [wrap64, Int.emod_eq_of_lt hlo hhi]
  omega

/-- The first component of `nextId` is the wrapped increment of the kind's
counter. -/
theorem nextId_fst (g : IdGenerator) (k : IdKind) :
    (g.nextId k).1 = wrap64 (g.counter k + 1) := by
  cases k <;> rfl

/-- `nextId` stores the same wrapped increment back into the kind's
counter. -/
theorem nextId_counter (g : IdGenerator) (k : IdKind) :
    (g.nextId k).2.counter k = wrap64 (g.counter k + 1) := by
  cases k <;> rfl

/-- All six counters of a seeded generator hold the seed. -/
theorem seedAll_counter (g : IdGenerator) (m : Int) (k : IdKind) :
    (g.seedAll m).counter k = m := by
  cases k <;> rfl

/-- `nextSeq` returns the consecutive integers above the kind's counter, as
long as the counter is nonnegative and `n` more allocations fit in `i64`. -/
theorem nextSeq_spec (k : IdKind) :
    ∀ (n : Nat) (g : IdGenerator), 0 ≤ g.counter k → g.counter k + n ≤ maxI64 →
      (IdGenerator.nextSeq k n g).1 = (List.range n).map (fun i : Nat => g.counter k + (i : Int) + 1) ∧
      ((IdGenerator.nextSeq k n g).2).counter k = g.counter k + n
  | 0, g, _, _ => by simp [IdGenerator.nextSeq]
  | n + 1, g, h0, h1 => by
    have hn1 : ((n : Int) + 1) = ((n + 1 : Nat) : Int) := by push_cast; ring
    have hwrap : wrap64 (g.counter k + 1) = g.counter k + 1 := by
      refine wrap64_eq_self ?_ ?_
      · have : (0 : Int) ≤ 2 ^ 63 := by positivity
        simp only [minI64]; omega
      · have : (0 : Int) ≤ (n : Int) := Int.natCast_nonneg n
        push_cast at h1; omega
    have hc1 : (g.nextId k).2.counter k = g.counter k + 1 := by
      rw [nextId_counter, hwrap]
    have ih := nextSeq_spec k n (g.nextId k).2
      (by rw [hc1]; omega)
      (by rw [hc1]; push_cast at h1 ⊢; omega)
    refine ⟨?_, ?_⟩
    · show ((g.nextId k).1 :: (IdGenerator.nextSeq k n (g.nextId k).2).1) = _
      rw [ih.1, nextId_fst, hwrap, hc1, List.range_succ_eq_map]
      simp only [List.map_cons, List.map_map]
      refine congrArg₂ _ (by push_cast; ring) ?_
      refine List.map_congr_left fun i _ => ?_
      simp only [Function.comp_apply]
      push_cast
      ring
    · show ((IdGenerator.nextSeq k n (g.nextId k).2).2).counter k = _
      rw [ih.2, hc1]
      push_cast
      ring

/-! ### Claim theorems: identifier allocator -/

/-- Claim C9: a freshly constructed `IdGenerator` (`new`, with `Default`
delegating to it) starts all six counters at 0, so for every kind the first
`next` call returns 1 and `n` successive sequential `next` calls on one kind
return the consecutive integers 1, 2, …, n. -/
theorem claim_c9 (k : IdKind) (n : Nat) (h : (n : Int) ≤ maxI64) :
    IdGenerator.defaultValue = IdGenerator.new ∧
    (∀ k2 : IdKind, IdGenerator.new.counter k2 = 0) ∧
    (IdGenerator.nextSeq k n IdGenerator.new).1 =
      (List.range n).map (fun i : Nat => (i : Int) + 1) := by
  have hz : IdGenerator.new.counter k = 0 := by cases k <;> rfl
  have h2 := nextSeq_spec k n IdGenerator.new (by rw [hz]) (by rw [hz]; omega)
  refine ⟨rfl, fun k2 => by cases k2 <;> rfl, ?_⟩
  rw [h2.1, hz]
  refine List.map_congr_left fun i _ => by ring

/-- Witness for C9: three `next` calls on the module kind from a fresh
generator return 1, 2, 3. -/
theorem claim_c9_witness :
    IdGenerator.defaultValue = IdGenerator.new ∧
    (∀ k2 : IdKind, IdGenerator.new.counter k2 = 0) ∧
    (IdGenerator.nextSeq .module 3 IdGenerator.new).1 =
      (List.range 3).map (fun i : Nat => (i : Int) + 1) :=
  claim_c9 .module 3 (by decide)

/-- Claim C7: seeding every counter with `m ≥ 0` makes the following
`next(kind)` return `m + 1` for every kind, and the following
`reserve(kind, count)` return a block whose first id is `m + 1` (the counter
advancing past the `count` reserved ids). -/
theorem claim_c7 (g : IdGenerator) (m : Int) (h0 : 0 ≤ m) (h1 : m + 1 ≤ maxI64) :
    (∀ k : IdKind, ((g.seedAll m).nextId k).1 = m + 1) ∧
    (∀ count : Int,
      ((g.seedAll m).reserve_module_ids count).1 = m + 1 ∧
      ((g.seedAll m).reserve_declaration_ids count).1 = m + 1 ∧
      ((g.seedAll m).reserve_child_ids count).1 = m + 1 ∧
      (∀ rk : ReserveKind, ((g.seedAll m).reserveIds rk count).1 = m + 1)) := by
  have hwrap : wrap64 (m + 1) = m + 1 := by
    refine wrap64_eq_self ?_ h1
    have : (0 : Int) ≤ 2 ^ 63 := by positivity
    simp only [minI64]; omega
  constructor
  · intro k
    rw [nextId_fst, seedAll_counter, hwrap]
  · intro count
    refine ⟨?_, ?_, ?_, ?_⟩
    · show wrap64 ((g.seedAll m).module_counter + 1) = m + 1
      have : (g.seedAll m).module_counter = m := rfl
      rw [this, hwrap]
    · show wrap64 ((g.seedAll m).declaration_counter + 1) = m + 1
      have : (g.seedAll m).declaration_counter = m := rfl
      rw [this, hwrap]
    · show wrap64 ((g.seedAll m).child_counter + 1) = m + 1
      have : (g.seedAll m).child_counter = m := rfl
      rw [this, hwrap]
    · intro rk
      cases rk
      · show wrap64 ((g.seedAll m).module_counter + 1) = m + 1
        have : (g.seedAll m).module_counter = m := rfl
        rw [this, hwrap]
      · show wrap64 ((g.seedAll m).declaration_counter + 1) = m + 1
        have : (g.seedAll m).declaration_counter = m := rfl
        rw [this, hwrap]
      · show wrap64 ((g.seedAll m).child_counter + 1) = m + 1
        have : (g.seedAll m).child_counter = m := rfl
        rw [this, hwrap]

/-- Witness for C7: seeding with 41 makes every kind's `next` return 42 and
every `reserve` block start at 42. -/
theorem claim_c7_witness :
    (∀ k : IdKind, ((IdGenerator.new.seedAll 41).nextId k).1 = 41 + 1) ∧
    (∀ count : Int,
      ((IdGenerator.new.seedAll 41).reserve_module_ids count).1 = 41 + 1 ∧
      ((IdGenerator.new.seedAll 41).reserve_declaration_ids count).1 = 41 + 1 ∧
      ((IdGenerator.new.seedAll 41).reserve_child_ids count).1 = 41 + 1 ∧
      (∀ rk : ReserveKind, ((IdGenerator.new.seedAll 41).reserveIds rk count).1 = 41 + 1)) :=
  claim_c7 IdGenerator.new 41 (by decide) (by decide)

/-- The total advance of a sequence of positive-count calls is nonnegative. -/
theorem totalCount_nonneg (ops : List IdOp) (hc : ∀ op ∈ ops, 0 < op.opCount) :
    0 ≤ totalCount ops := by
  refine List.sum_nonneg fun x hx => ?_
  obtain ⟨op, hop, rfl⟩ := List.mem_map.mp hx
  exact le_of_lt (hc op hop)

/-- Claim C2: for every linearized sequence of `reserve(module, c)` and
`next(module)` calls on the same kind (any interleaving of concurrent
callers, each call one atomic `SeqCst` fetch-and-add), the returned id
ranges `[first_id, first_id + c)` are pairwise disjoint and their union is
contained in the integers strictly greater than the seeded counter value,
provided the counts are positive and the allocations stay within `i64`. -/
theorem claim_c2 (ops : List IdOp) (g : IdGenerator)
    (hlo : minI64 ≤ g.module_counter)
    (hhi : g.module_counter + totalCount ops ≤ maxI64)
    (hc : ∀ op ∈ ops, 0 < op.opCount) :
    ((runModuleOps ops g).1.Pairwise fun r1 r2 => ∀ x : Int, ¬(inRange x r1 ∧ inRange x r2)) ∧
    (∀ r ∈ (runModuleOps ops g).1, ∀ x : Int, inRange x r → g.module_counter < x) := by
  suffices h : ((runModuleOps ops g).2.module_counter = g.module_counter + totalCount ops) ∧
      (∀ r ∈ (runModuleOps ops g).1,
        g.module_counter < r.1 ∧ r.1 + r.2 ≤ g.module_counter + totalCount ops + 1) ∧
      ((runModuleOps ops g).1.Pairwise fun r1 r2 =>
        ∀ x : Int, ¬(inRange x r1 ∧ inRange x r2)) by
    refine ⟨h.2.2, fun r hr x hx => lt_of_lt_of_le (h.2.1 r hr).1 hx.1⟩
  induction ops generalizing g with
  | nil => simp [runModuleOps, totalCount]
  | cons op rest ih =>
    have hopc : 0 < op.opCount := hc op (List.mem_cons_self op rest)
    have hrestc : ∀ o ∈ rest, 0 < o.opCount := fun o ho => hc o (List.mem_cons_of_mem op ho)
    have hrest_nonneg : 0 ≤ totalCount rest := totalCount_nonneg rest hrestc
    have htot : totalCount (op :: rest) = op.opCount + totalCount rest := by
      simp [totalCount]
    rw [htot] at hhi
    -- the state after the head call
    have hw1 : wrap64 (g.module_counter + 1) = g.module_counter + 1 := by
      refine wrap64_eq_self ?_ ?_
      · simp only [minI64] at hlo ⊢
        omega
      · omega
    have hwc : wrap64 (g.module_counter + op.opCount) = g.module_counter + op.opCount := by
      refine wrap64_eq_self ?_ ?_
      · simp only [minI64] at hlo ⊢
        omega
      · omega
    -- both constructors step the counter by `opCount` and return range
    -- `(counter + 1, opCount)`
    obtain ⟨g1, hg1run, hg1c⟩ :
        ∃ g1, runModuleOps (op :: rest) g =
            ((g.module_counter + 1, op.opCount) :: (runModuleOps rest g1).1,
             (runModuleOps rest g1).2) ∧
          g1.module_counter = g.module_counter + op.opCount := by
      cases op with
      | next =>
        simp only [IdOp.opCount] at hwc
        refine ⟨{ g with module_counter := g.module_counter + 1 }, ?_, by simp [IdOp.opCount]⟩
        show ((wrap64 (g.module_counter + 1), 1) ::
              (runModuleOps rest { g with module_counter := wrap64 (g.module_counter + 1) }).1,
              (runModuleOps rest { g with module_counter := wrap64 (g.module_counter + 1) }).2) = _
        rw [hw1]
        simp [IdOp.opCount]
      | reserve c =>
        simp only [IdOp.opCount] at hwc
        refine ⟨{ g with module_counter := g.module_counter + c }, ?_, by simp [IdOp.opCount]⟩
        show ((wrap64 (g.module_counter + 1), c) ::
              (runModuleOps rest { g with module_counter := wrap64 (g.module_counter + c) }).1,
              (runModuleOps rest { g with module_counter := wrap64 (g.module_counter + c) }).2) = _
        rw [hw1, hwc]
        simp [IdOp.opCount]
    have ihr := ih g1 (by rw [hg1c]; simp only [minI64] at hlo ⊢; omega)
      (by rw [hg1c]; omega) hrestc
    rw [hg1run]
    refine ⟨?_, ?_, ?_⟩
    · show (runModuleOps rest g1).2.module_counter = _
      rw [ihr.1, hg1c, htot]
      ring
    · intro r hr
      rcases List.mem_cons.mp hr with rfl | hr2
      · refine ⟨?_, ?_⟩
        · show g.module_counter < g.module_counter + 1
          omega
        · show g.module_counter + 1 + op.opCount ≤ g.module_counter + totalCount (op :: rest) + 1
          rw [htot]
          omega
      · have hb := ihr.2.1 r hr2
        rw [hg1c] at hb
        rw [htot]
        exact ⟨by omega, by omega⟩
    · refine List.pairwise_cons.mpr ⟨?_, ihr.2.2⟩
      intro r hr x hx
      have hb := ihr.2.1 r hr
      rw [hg1c] at hb
      have hx1 : g.module_counter + 1 ≤ x := hx.1.1
      have hx2 : x < g.module_counter + 1 + op.opCount := hx.1.2
      have hx3 : r.1 ≤ x := hx.2.1
      have hb1 : g.module_counter + op.opCount < r.1 := hb.1
      omega

/-- Witness for C2: the calls `next, reserve 3, next` from a fresh generator
yield pairwise disjoint ranges above the seed 0. -/
theorem claim_c2_witness :
    ((runModuleOps [IdOp.next, IdOp.reserve 3, IdOp.next] IdGenerator.new).1.Pairwise
      fun r1 r2 => ∀ x : Int, ¬(inRange x r1 ∧ inRange x r2)) ∧
    (∀ r ∈ (runModuleOps [IdOp.next, IdOp.reserve 3, IdOp.next] IdGenerator.new).1,
      ∀ x : Int, inRange x r → IdGenerator.new.module_counter < x) :=
  claim_c2 [IdOp.next, IdOp.reserve 3, IdOp.next] IdGenerator.new
    (by decide) (by decide) (by decide)

/-! ### Claim theorems: discovery -/

/-- Claim C8: for every filesystem and project root, discovery fails with a
distinct not-found error for whichever of the project root, the dependency
manifest `spago.lock`, or the documentation root `output` is missing, the
three checks running in that order before any other work (`discover` cannot
touch the store: it takes no store argument and the result is built from the
filesystem alone). -/
theorem claim_c8 (fs : Fs) (project_path : FsPath) :
    (fs.exists_ project_path = false →
      ProjectDiscovery.discover fs project_path = .error (.ProjectNotFound project_path)) ∧
    (fs.exists_ project_path = true →
      fs.exists_ (project_path ++ ["spago.lock"]) = false →
      ProjectDiscovery.discover fs project_path =
        .error (.SpagoLockNotFound (project_path ++ ["spago.lock"]))) ∧
    (fs.exists_ project_path = true →
      fs.exists_ (project_path ++ ["spago.lock"]) = true →
      fs.exists_ (project_path ++ ["output"]) = false →
      ProjectDiscovery.discover fs project_path =
        .error (.OutputDirNotFound (project_path ++ ["output"]))) ∧
    (∀ p q : FsPath,
      LoaderError.ProjectNotFound p ≠ LoaderError.SpagoLockNotFound q ∧
      LoaderError.ProjectNotFound p ≠ LoaderError.OutputDirNotFound q ∧
      LoaderError.SpagoLockNotFound p ≠ LoaderError.OutputDirNotFound q) := by
  refine ⟨?_, ?_, ?_, ?_⟩
  · intro h1
    simp [ProjectDiscovery.discover, h1]
  · intro h1 h2
    simp [ProjectDiscovery.discover, h1, h2]
  · intro h1 h2 h3
    simp [ProjectDiscovery.discover, h1, h2, h3]
  · intro p q
    refine ⟨?_, ?_, ?_⟩ <;> intro h <;> cases h

/-- Witness for C8: on a filesystem with nothing present, discovery reports
the missing project root. -/
theorem claim_c8_witness :
    ProjectDiscovery.discover fsAllMissing ["root"] =
      .error (.ProjectNotFound ["root"]) :=
  (claim_c8 fsAllMissing ["root"]).1 rfl

/-- At depth 1 under the `min_depth(2).max_depth(2)` walk, every child is
yielded as its entry and nothing deeper is visited. -/
theorem walkChildren_depth1 (cp : FsPath) (cs2 : List FsNode) :
    walkChildren 2 2 1 cp cs2 = cs2.map fun c2 => c2.entry (cp ++ [c2.name]) := by
  induction cs2 with
  | nil => rfl
  | cons c2 rest ih =>
    rw [walkChildren, ih]
    cases c2 <;> simp [walkChild, FsNode.entry, FsNode.name]

/-- The `Ok` entries of the depth-2 walk are exactly the readable entries
two levels below the root. -/
theorem walk22_filterMap (p : FsPath) (cs : List FsNode) :
    (walkChildren 2 2 0 p cs).filterMap Except.toOption =
      cs.flatMap (fun c =>
        match c with
        | .dir n1 cs2 =>
          cs2.filterMap fun c2 =>
            if c2.readableEntry then some (p ++ [n1, c2.name]) else none
        | _ => []) := by
  induction cs with
  | nil => rfl
  | cons c rest ih =>
    rw [walkChildren, List.filterMap_append, ih, List.flatMap_cons]
    refine congrArg₂ _ ?_ rfl
    cases c with
    | file n => simp [walkChild]
    | unreadable n => simp [walkChild]
    | dir n1 cs2 =>
      simp only [walkChild]
      rw [if_neg (by omega), if_pos (by omega)]
      rw [List.nil_append, walkChildren_depth1, List.filterMap_map]
      refine List.filterMap_congr fun c2 _ => ?_
      cases c2 <;>
        simp [FsNode.entry, FsNode.readableEntry, FsNode.name, Except.toOption,
          Function.comp, List.append_assoc]

/-- `find_docs_json_files` is the sort of the readable depth-2 entries named
`docs.json`. -/
theorem find_docs_eq (p : FsPath) (t : FsNode) :
    find_docs_json_files p t =
      ((depth2Entries p t).filter
        (fun q => pathFileName q == some "docs.json")).mergeSort pathLeB := by
  cases t with
  | dir n cs =>
    simp only [find_docs_json_files, depth2Entries]
    rw [walk22_filterMap]
  | file n => rfl
  | unreadable n => rfl

/-- `pathLeB` is total. -/
theorem pathLeB_total : ∀ a b : FsPath, (pathLeB a b || pathLeB b a) = true
  | [], b => by cases b <;> simp [pathLeB]
  | a :: as, [] => by simp [pathLeB]
  | a :: as, b :: bs => by
    by_cases hab : a = b
    · subst hab
      simp only [pathLeB, if_pos rfl]
      exact pathLeB_total as bs
    · rcases lt_or_gt_of_ne hab with h | h
      · simp [pathLeB, hab, h]
      · simp [pathLeB, hab, Ne.symm hab, h]

/-- `pathLeB` is transitive. -/
theorem pathLeB_trans : ∀ a b c : FsPath,
    pathLeB a b = true → pathLeB b c = true → pathLeB a c = true
  | [], _, _, _, _ => rfl
  | x :: xs, [], _, hab, _ => by simp [pathLeB] at hab
  | x :: xs, y :: ys, [], _, hbc => by simp [pathLeB] at hbc
  | x :: xs, y :: ys, z :: zs, hab, hbc => by
    by_cases hxy : x = y
    · subst hxy
      by_cases hyz : x = z
      · subst hyz
        simp only [pathLeB, if_pos rfl] at hab hbc ⊢
        exact pathLeB_trans xs ys zs hab hbc
      · simp only [pathLeB, if_pos rfl] at hab
        simpa only [pathLeB, if_neg hyz] using hbc
    · by_cases hyz : y = z
      · subst hyz
        simpa only [pathLeB, if_neg hxy] using hab
      · simp only [pathLeB, if_neg hxy, decide_eq_true_eq] at hab
        simp only [pathLeB, if_neg hyz, decide_eq_true_eq] at hbc
        have hxz : x < z := lt_trans hab hbc
        simp only [pathLeB, if_neg (ne_of_lt hxz), decide_eq_true_eq]
        exact hxz

/-- Claim C10: file enumeration under the documentation root is total and
never an error — entries that fail to read are silently discarded — and the
result is exactly the readable entries at directory depth two whose file
name is `docs.json`, sorted; hence once the three existence checks pass,
`ProjectDiscovery.discover` always succeeds. -/
theorem claim_c10 (fs : Fs) (root : FsPath)
    (h1 : fs.exists_ root = true)
    (h2 : fs.exists_ (root ++ ["spago.lock"]) = true)
    (h3 : fs.exists_ (root ++ ["output"]) = true) :
    ∃ d, ProjectDiscovery.discover fs root = .ok d ∧
      d.docs_json_files =
        find_docs_json_files (root ++ ["output"]) (fs.tree (root ++ ["output"])) ∧
      d.docs_json_files.Perm
        ((depth2Entries (root ++ ["output"]) (fs.tree (root ++ ["output"]))).filter
          (fun q => pathFileName q == some "docs.json")) ∧
      d.docs_json_files.Pairwise (fun a b => pathLeB a b = true) := by
  refine ⟨⟨root, root ++ ["spago.lock"], root ++ ["output"],
          find_docs_json_files (root ++ ["output"]) (fs.tree (root ++ ["output"]))⟩,
         ?_, rfl, ?_, ?_⟩
  · simp [ProjectDiscovery.discover, h1, h2, h3]
  · rw [find_docs_eq]
    exact List.mergeSort_perm _ _
  · rw [find_docs_eq]
    exact List.sorted_mergeSort pathLeB_trans (fun a b => pathLeB_total a b) _

/-- Witness for C10: on the concrete output tree, discovery succeeds and the
enumeration is the sorted readable depth-2 `docs.json` entries. -/
theorem claim_c10_witness :
    ∃ d, ProjectDiscovery.discover fsFull ["root"] = .ok d ∧
      d.docs_json_files =
        find_docs_json_files (["root"] ++ ["output"]) (fsFull.tree (["root"] ++ ["output"])) ∧
      d.docs_json_files.Perm
        ((depth2Entries (["root"] ++ ["output"]) (fsFull.tree (["root"] ++ ["output"]))).filter
          (fun q => pathFileName q == some "docs.json")) ∧
      d.docs_json_files.Pairwise (fun a b => pathLeB a b = true) :=
  claim_c10 fsFull ["root"] rfl rfl rfl

/-! ### Insert-or-ignore machinery -/

/-- A batch insert only ever appends, and appends only candidates. -/
theorem insertAll_append (ck : α → α → Bool) (t rs : List α) :
    ∃ rest, insertOrIgnoreAll ck t rs = t ++ rest ∧ ∀ r ∈ rest, r ∈ rs := by
  induction rs generalizing t with
  | nil => exact ⟨[], by simp [insertOrIgnoreAll], by simp⟩
  | cons r rs ih =>
    show ∃ rest, insertOrIgnoreAll ck (insertOrIgnoreRow ck t r) rs = t ++ rest ∧ _
    by_cases hc : rowConflict ck t r = true
    · obtain ⟨rest, h1, h2⟩ := ih t
      rw [insertOrIgnoreRow, if_pos hc]
      exact ⟨rest, h1, fun x hx => List.mem_cons_of_mem r (h2 x hx)⟩
    · obtain ⟨rest, h1, h2⟩ := ih (t ++ [r])
      rw [insertOrIgnoreRow, if_neg hc]
      refine ⟨r :: rest, by simpa using h1, fun x hx => ?_⟩
      rcases List.mem_cons.mp hx with rfl | hx2
      · exact List.mem_cons_self x rs
      · exact List.mem_cons_of_mem r (h2 x hx2)

/-- Rows already persisted survive a batch insert. -/
theorem mem_insertAll_left (ck : α → α → Bool) (t rs : List α) (a : α) (ha : a ∈ t) :
    a ∈ insertOrIgnoreAll ck t rs := by
  obtain ⟨rest, h1, _⟩ := insertAll_append ck t rs
  rw [h1]
  exact List.mem_append_left rest ha

/-- After a batch insert, every candidate is represented: either it was
appended, or some persisted row conflicted with it. -/
theorem insertAll_exists_key (ck : α → α → Bool) (t rs : List α) (r : α) (hr : r ∈ rs) :
    ∃ q ∈ insertOrIgnoreAll ck t rs, q = r ∨ ck q r = true := by
  induction rs generalizing t with
  | nil => cases hr
  | cons r' rs ih =>
    show ∃ q ∈ insertOrIgnoreAll ck (insertOrIgnoreRow ck t r') rs, _
    rcases List.mem_cons.mp hr with rfl | hr2
    · by_cases hc : rowConflict ck t r = true
      · obtain ⟨q, hq, hck⟩ := List.any_eq_true.mp hc
        refine ⟨q, mem_insertAll_left _ _ _ q ?_, Or.inr hck⟩
        rw [insertOrIgnoreRow, if_pos hc]
        exact hq
      · refine ⟨r, mem_insertAll_left _ _ _ r ?_, Or.inl rfl⟩
        rw [insertOrIgnoreRow, if_neg hc]
        exact List.mem_append_right t (List.mem_singleton.mpr rfl)
    · exact ih (insertOrIgnoreRow ck t r') hr2

/-- A batch insert preserves per-key uniqueness whenever the conflict check
detects key equality. -/
theorem insertAll_pairwise (ck : α → α → Bool) (key : α → κ)
    (hck : ∀ q r, key q = key r → ck q r = true) (t rs : List α)
    (h : t.Pairwise fun a b => key a ≠ key b) :
    (insertOrIgnoreAll ck t rs).Pairwise fun a b => key a ≠ key b := by
  induction rs generalizing t with
  | nil => exact h
  | cons r rs ih =>
    show ((insertOrIgnoreAll ck (insertOrIgnoreRow ck t r) rs).Pairwise _)
    by_cases hc : rowConflict ck t r = true
    · rw [insertOrIgnoreRow, if_pos hc]
      exact ih t h
    · rw [insertOrIgnoreRow, if_neg hc]
      refine ih (t ++ [r]) ?_
      rw [List.pairwise_append]
      refine ⟨h, List.pairwise_singleton _ r, fun a ha b hb => ?_⟩
      rw [List.mem_singleton] at hb
      subst hb
      intro hkey
      have : ck a b = true := hck a b hkey
      exact hc (List.any_eq_true.mpr ⟨a, ha, this⟩)

/-- In a list whose rows have pairwise distinct keys, a predicate that pins
one key value selects exactly one row once a matching row is present. -/
theorem filter_length_one (p : α → Bool) (key : α → κ) (k0 : κ)
    (hp : ∀ x, p x = true → key x = k0) :
    ∀ (l : List α), l.Pairwise (fun a b => key a ≠ key b) →
      ∀ q ∈ l, p q = true → (l.filter p).length = 1
  | [], _, q, hq, _ => by cases hq
  | a :: l, hpw, q, hq, hpq => by
    obtain ⟨ha, hl⟩ := List.pairwise_cons.mp hpw
    by_cases hpa : p a = true
    · rw [List.filter_cons_of_pos hpa]
      have hnil : l.filter p = [] := by
        rw [List.filter_eq_nil_iff]
        intro x hx hpx
        exact ha x hx ((hp a hpa).trans (hp x hpx).symm)
      rw [hnil]
      rfl
    · have hqa : q ≠ a := fun h => hpa (h ▸ hpq)
      have hql : q ∈ l := (List.mem_cons.mp hq).resolve_left hqa
      rw [List.filter_cons_of_neg (by simpa using hpa)]
      exact filter_length_one p key k0 hp l hl q hql hpq

/-- `find?` returns the unique satisfying element. -/
theorem find?_eq_some_of_unique (p : α → Bool) :
    ∀ (l : List α) (q0 : α), q0 ∈ l → p q0 = true →
      (∀ x ∈ l, p x = true → x = q0) → l.find? p = some q0
  | [], _, hq, _, _ => by cases hq
  | x :: l, q0, hq, hpq, huniq => by
    by_cases hpx : p x = true
    · rw [List.find?_cons_of_pos _ hpx]
      exact congrArg some (huniq x (List.mem_cons_self x l) hpx).symm ▸ rfl
    · have hqx : q0 ≠ x := fun h => hpx (h ▸ hpq)
      rw [List.find?_cons_of_neg _ (by simpa using hpx)]
      exact find?_eq_some_of_unique p l q0 ((List.mem_cons.mp hq).resolve_left hqx) hpq
        fun y hy hpy => huniq y (List.mem_cons_of_mem x hy) hpy

/-- `HashMap::get` on the model: when every binding at a key carries the
same value and some binding at the key exists, `get` returns that value. -/
theorem alGet_eq_of_forall {κ β : Type} [BEq κ] [LawfulBEq κ]
    {m : List (κ × β)} {k : κ} {v : β}
    (hall : ∀ e ∈ m, e.1 = k → e.2 = v) (hex : ∃ e ∈ m, e.1 = k) :
    alGet m k = some v := by
  rcases hfind : m.reverse.find? (fun e => e.1 == k) with _ | e
  · obtain ⟨e, he, hek⟩ := hex
    have := List.find?_eq_none.mp hfind e (List.mem_reverse.mpr he)
    simp [hek] at this
  · have he : e ∈ m := List.mem_reverse.mp (List.mem_of_find?_eq_some hfind)
    have hek : e.1 = k := by
      have := List.find?_some hfind
      simpa using this
    show (m.reverse.find? (fun e => e.1 == k)).map (·.2) = some v
    rw [hfind]
    exact congrArg some (hall e he hek)

/-! ### Phase lemmas for the load pipeline -/

/-- The phase-4 allocation loop: the generator advances its package counter
by the manifest length, the candidate rows carry the manifest fields in
order with empty optional columns, and their ids are fresh, bounded and
pairwise distinct. -/
theorem allocPkgRows_spec : ∀ (ps : List PkgInfo) (g : IdGenerator),
    minI64 ≤ g.package_counter → g.package_counter + ps.length ≤ maxI64 →
    (allocPkgRows ps g).2 = { g with package_counter := g.package_counter + ps.length } ∧
    ((allocPkgRows ps g).1.map fun r => (r.name, r.version, r.source)) =
      (ps.map fun p => (p.name, p.version, p.source)) ∧
    (∀ r ∈ (allocPkgRows ps g).1,
       g.package_counter < r.id ∧ r.id ≤ g.package_counter + ps.length ∧
       r.description = none ∧ r.license = none ∧ r.repository = none) ∧
    (allocPkgRows ps g).1.Pairwise (fun a b => a.id ≠ b.id)
  | [], g, _, _ => by
    refine ⟨?_, rfl, by simp [allocPkgRows], by simp [allocPkgRows]⟩
    show g = _
    simp
  | p :: ps, g, hlo, hhi => by
    have hcast : ((p :: ps).length : Int) = (ps.length : Int) + 1 := by
      simp
    rw [hcast] at hhi
    have hlen : (0 : Int) ≤ (ps.length : Int) := Int.natCast_nonneg _
    have hw : wrap64 (g.package_counter + 1) = g.package_counter + 1 := by
      refine wrap64_eq_self ?_ ?_
      · simp only [minI64] at hlo ⊢; omega
      · omega
    have hg1 : g.next_package_id = (g.package_counter + 1,
        { g with package_counter := g.package_counter + 1 }) := by
      rw [IdGenerator.next_package_id, hw]
    have ih := allocPkgRows_spec ps { g with package_counter := g.package_counter + 1 }
      (by simp only [minI64] at hlo ⊢; simpa using by omega)
      (by simpa using by omega)
    have hunfold : allocPkgRows (p :: ps) g =
        (⟨g.package_counter + 1, p.name, p.version, none, none, none, p.source⟩ ::
          (allocPkgRows ps { g with package_counter := g.package_counter + 1 }).1,
         (allocPkgRows ps { g with package_counter := g.package_counter + 1 }).2) := by
      rw [allocPkgRows, hg1]
    rw [hunfold]
    refine ⟨?_, ?_, ?_, ?_⟩
    · show (allocPkgRows ps _).2 = _
      rw [ih.1]
      have : g.package_counter + 1 + (ps.length : Int) =
          g.package_counter + ((p :: ps).length : Int) := by
        rw [hcast]; ring
      simp [this]
    · show (_ :: (allocPkgRows ps _).1.map _) = _
      rw [ih.2.1]
      rfl
    · intro r hr
      rcases List.mem_cons.mp hr with rfl | hr2
      · refine ⟨?_, ?_, rfl, rfl, rfl⟩
        · show g.package_counter < g.package_counter + 1
          omega
        · show g.package_counter + 1 ≤ g.package_counter + ((p :: ps).length : Int)
          rw [hcast]
          omega
      · have h1 : g.package_counter + 1 < r.id := (ih.2.2.1 r hr2).1
        have h2 : r.id ≤ g.package_counter + 1 + (ps.length : Int) := (ih.2.2.1 r hr2).2.1
        refine ⟨by omega, by rw [hcast]; omega, (ih.2.2.1 r hr2).2.2⟩
    · refine List.pairwise_cons.mpr ⟨fun r hr => ?_, ih.2.2.2⟩
      have h1 : g.package_counter + 1 < r.id := (ih.2.2.1 r hr).1
      show g.package_counter + 1 ≠ r.id
      omega

/-- The re-read loop succeeds once every candidate's key is represented, and
every returned binding carries the id found at its key. -/
theorem queryIdsBack_ok (t : List PackageVersionRow) :
    ∀ rs : List PackageVersionRow,
      (∀ r ∈ rs, ∃ q ∈ t, q.name = r.name ∧ q.version = r.version) →
      ∃ m, queryIdsBack t rs = .ok m ∧
        (∀ e ∈ m, ∃ q, t.find? (fun q2 => q2.name == e.1.1 && q2.version == e.1.2) = some q ∧
          e.2 = q.id) ∧
        (∀ r ∈ rs, ∃ e ∈ m, e.1 = (r.name, r.version))
  | [], _ => ⟨[], rfl, by simp, by simp⟩
  | r :: rs, h => by
    obtain ⟨q0, hq0, hq0n, hq0v⟩ := h r (List.mem_cons_self r rs)
    rcases hfind : t.find? (fun q2 => q2.name == r.name && q2.version == r.version)
        with _ | q
    · exfalso
      have := List.find?_eq_none.mp hfind q0 hq0
      simp [hq0n, hq0v] at this
    · obtain ⟨m, hm, hme, hmk⟩ := queryIdsBack_ok t rs
        (fun x hx => h x (List.mem_cons_of_mem r hx))
      refine ⟨((r.name, r.version), q.id) :: m, ?_, ?_, ?_⟩
      · rw [queryIdsBack, hfind, hm]
      · intro e he
        rcases List.mem_cons.mp he with rfl | he2
        · exact ⟨q, hfind, rfl⟩
        · exact hme e he2
      · intro x hx
        rcases List.mem_cons.mp hx with rfl | hx2
        · exact ⟨((x.name, x.version), q.id), List.mem_cons_self _ m, rfl⟩
        · obtain ⟨e, he, hek⟩ := hmk x hx2
          exact ⟨e, List.mem_cons_of_mem _ he, hek⟩

/-- Phase 5: the worker pool counts exactly the malformed files and yields
one parsed module per well-formed file. -/
theorem parsePhase_spec (pd : FsPath → Except Unit DocSrc) (pk : Int) :
    ∀ (files : List FsPath) (g : IdGenerator),
      (parsePhase pd pk files g).2.2 =
        files.countP (fun f => !(pd f).toOption.isSome) ∧
      (parsePhase pd pk files g).1.length =
        files.countP (fun f => (pd f).toOption.isSome)
  | [], g => by simp [parsePhase]
  | f :: fs, g => by
    rcases hf : pd f with e | doc
    · have ih := parsePhase_spec pd pk fs g
      rw [parsePhase, hf]
      simp only [List.countP_cons, hf]
      refine ⟨?_, ?_⟩
      · show (parsePhase pd pk fs g).2.2 + 1 = _
        rw [ih.1]
        simp [Except.toOption]
      · show (parsePhase pd pk fs g).1.length = _
        rw [ih.2]
        simp [Except.toOption]
    · have ih := parsePhase_spec pd pk fs (parse_docs_json g f pk doc).2
      rw [parsePhase, hf]
      simp only [List.countP_cons, hf]
      refine ⟨?_, ?_⟩
      · show (parsePhase pd pk fs _).2.2 = _
        rw [ih.1]
        simp [Except.toOption]
      · show (parsePhase pd pk fs _).1.length + 1 = _
        rw [ih.2]
        simp [Except.toOption]

/-- The re-read loop's map is `reconciledIds` whenever it succeeds. -/
theorem queryIdsBack_eq_reconciled (t : List PackageVersionRow) :
    ∀ (rs : List PackageVersionRow) (m : PkgIdMap),
      queryIdsBack t rs = .ok m → m = reconciledIds t rs
  | [], m, h => by
    rw [queryIdsBack] at h
    cases h
    rfl
  | r :: rs, m, h => by
    rw [queryIdsBack] at h
    rcases hfind : t.find? (fun q2 => q2.name == r.name && q2.version == r.version)
        with _ | q
    · rw [hfind] at h
      cases h
    · rw [hfind] at h
      rcases hrest : queryIdsBack t rs with e | m2
      · rw [hrest] at h
        cases h
      · rw [hrest] at h
        cases h
        have htail := queryIdsBack_eq_reconciled t rs m2 hrest
        rw [htail]
        simp only [reconciledIds, List.map_cons, hfind]
        rfl

/-- `find?` is left-biased across an append. -/
theorem find?_append_left {l1 l2 : List α} {p : α → Bool} {a : α}
    (h : l1.find? p = some a) : (l1 ++ l2).find? p = some a := by
  rw [List.find?_append, h]
  rfl

/-- A batch insert whose last candidate is `r` is the batch without `r`
followed by one insert-or-ignore of `r`. -/
theorem insertAll_append_batch (ck : α → α → Bool) (t xs : List α) (r : α) :
    insertOrIgnoreAll ck t (xs ++ [r]) = insertOrIgnoreRow ck (insertOrIgnoreAll ck t xs) r := by
  rw [insertOrIgnoreAll, insertOrIgnoreAll, List.foldl_append, List.foldl_cons, List.foldl_nil]

/-- A `package_dependencies` conflict is row equality: the row is exactly its
primary key. -/
theorem packageDependencyCk_eq {q r : PackageDependencyRow}
    (h : packageDependencyCk q r = true) : q = r := by
  rw [packageDependencyCk, Bool.and_eq_true, beq_iff_eq, beq_iff_eq] at h
  cases q
  cases r
  simp only at h
  rw [h.1, h.2]


/-! ### Foreign-key insert machinery -/

/-- A persisted witness survives appending rows. -/
theorem any_append_left {l e : List α} {p : α → Bool} (h : l.any p = true) :
    (l ++ e).any p = true := by
  rw [List.any_append, h]
  rfl

/-- A foreign-key batch insert only ever appends, and appends only
candidates that passed their foreign-key check. -/
theorem insertFkAll_sub (ck : α → α → Bool) (fk : α → Bool) :
    ∀ (rs t : List α), ∃ extra, (insertFkAll ck fk t rs).1 = t ++ extra ∧
      ∀ r ∈ extra, r ∈ rs ∧ fk r = true
  | [], t => ⟨[], by simp [insertFkAll], by simp⟩
  | r :: rs, t => by
    rw [insertFkAll]
    by_cases hc : rowConflict ck t r = true
    · rw [if_pos hc]
      obtain ⟨extra, h1, h2⟩ := insertFkAll_sub ck fk rs t
      exact ⟨extra, h1, fun x hx => ⟨List.mem_cons_of_mem r (h2 x hx).1, (h2 x hx).2⟩⟩
    · rw [if_neg hc]
      by_cases hf : fk r = true
      · rw [if_pos hf]
        obtain ⟨extra, h1, h2⟩ := insertFkAll_sub ck fk rs (t ++ [r])
        refine ⟨r :: extra, by simpa using h1, fun x hx => ?_⟩
        rcases List.mem_cons.mp hx with rfl | hx2
        · exact ⟨List.mem_cons_self x rs, hf⟩
        · exact ⟨List.mem_cons_of_mem r (h2 x hx2).1, (h2 x hx2).2⟩
      · rw [if_neg hf]
        exact ⟨[], by simp, by simp⟩

/-- When every candidate passes its foreign-key check, the batch succeeds
and coincides with the plain insert-or-ignore batch. -/
theorem insertFkAll_fkTrue (ck : α → α → Bool) (fk : α → Bool) :
    ∀ (rs t : List α), (∀ r ∈ rs, fk r = true) →
      insertFkAll ck fk t rs = (insertOrIgnoreAll ck t rs, true)
  | [], t, _ => rfl
  | r :: rs, t, h => by
    rw [insertFkAll]
    show _ = (insertOrIgnoreAll ck (insertOrIgnoreRow ck t r) rs, true)
    by_cases hc : rowConflict ck t r = true
    · rw [if_pos hc, insertOrIgnoreRow, if_pos hc]
      exact insertFkAll_fkTrue ck fk rs t fun x hx => h x (List.mem_cons_of_mem r hx)
    · rw [if_neg hc, if_pos (h r (List.mem_cons_self r rs)), insertOrIgnoreRow, if_neg hc]
      exact insertFkAll_fkTrue ck fk rs (t ++ [r]) fun x hx => h x (List.mem_cons_of_mem r hx)

/-- A batch whose candidates all conflict succeeds without touching the
table (the foreign keys of skipped rows are never checked). -/
theorem insertFkAll_all_conflict (ck : α → α → Bool) (fk : α → Bool) :
    ∀ (rs t : List α), (∀ r ∈ rs, rowConflict ck t r = true) →
      insertFkAll ck fk t rs = (t, true)
  | [], _, _ => rfl
  | r :: rs, t, h => by
    rw [insertFkAll, if_pos (h r (List.mem_cons_self r rs))]
    exact insertFkAll_all_conflict ck fk rs t fun x hx => h x (List.mem_cons_of_mem r hx)

/-- A plain insert-or-ignore batch whose candidates all conflict leaves the
table unchanged. -/
theorem insertAll_all_conflict (ck : α → α → Bool) :
    ∀ (rs t : List α), (∀ r ∈ rs, rowConflict ck t r = true) →
      insertOrIgnoreAll ck t rs = t
  | [], _, _ => rfl
  | r :: rs, t, h => by
    show insertOrIgnoreAll ck (insertOrIgnoreRow ck t r) rs = t
    rw [insertOrIgnoreRow, if_pos (h r (List.mem_cons_self r rs))]
    exact insertAll_all_conflict ck rs t fun x hx => h x (List.mem_cons_of_mem r hx)

/-- A nonempty batch of non-conflicting rows that all fail their foreign-key
check errors on its first row, leaving the table unchanged. -/
theorem insertFkAll_head_fail (ck : α → α → Bool) (fk : α → Bool) (t : List α) :
    ∀ rows : List α, rows ≠ [] →
      (∀ r ∈ rows, rowConflict ck t r = false) → (∀ r ∈ rows, fk r = false) →
      insertFkAll ck fk t rows = (t, false)
  | [], hne, _, _ => absurd rfl hne
  | r :: rs, _, hc, hf => by
    rw [insertFkAll, if_neg (by simp [hc r (List.mem_cons_self r rs)]),
      if_neg (by simp [hf r (List.mem_cons_self r rs)])]

/-- `insert_package_versions_with_ids` succeeds when every candidate id is
fresh for the table and the candidates' ids are pairwise distinct: the
persisted table is the batch insert-or-ignore, and every candidate's map
entry is the authoritative id found at its `(name, version)` key. -/
theorem with_ids_ok (db : Db) (rs : List PackageVersionRow)
    (hfresh : ∀ r ∈ rs, ∀ q ∈ db.package_versions, q.id ≠ r.id)
    (hdist : rs.Pairwise fun a b => a.id ≠ b.id) :
    ∃ m, insert_package_versions_with_ids db rs =
        ({ db with package_versions :=
            insertOrIgnoreAll packageVersionCk db.package_versions rs }, .ok m) ∧
      ∀ r ∈ rs,
        ∃ q, (insertOrIgnoreAll packageVersionCk db.package_versions rs).find?
            (fun q2 => q2.name == r.name && q2.version == r.version) = some q ∧
          alGet m (r.name, r.version) = some q.id := by
  have hsymm : Symmetric (fun a b : PackageVersionRow => a.id ≠ b.id) :=
    fun a b h heq => h heq.symm
  have hkey : ∀ r ∈ rs, ∃ q ∈ insertOrIgnoreAll packageVersionCk db.package_versions rs,
      q.name = r.name ∧ q.version = r.version := by
    intro r hr
    obtain ⟨q, hq, hcase⟩ := insertAll_exists_key packageVersionCk db.package_versions rs r hr
    rcases hcase with rfl | hck
    · exact ⟨q, hq, rfl, rfl⟩
    · rw [packageVersionCk, Bool.or_eq_true, Bool.and_eq_true] at hck
      rcases hck with hid | hnv
      · rw [beq_iff_eq] at hid
        have hqr : q = r := by
          obtain ⟨rest, hT, hsub⟩ := insertAll_append packageVersionCk db.package_versions rs
          rw [hT] at hq
          rcases List.mem_append.mp hq with hqt | hqr2
          · exact absurd hid (hfresh r hr q hqt)
          · have hqrs : q ∈ rs := hsub q hqr2
            by_contra hne
            exact (List.Pairwise.forall hsymm hdist hqrs hr hne) hid
        exact ⟨q, hq, congrArg (·.name) hqr, congrArg (·.version) hqr⟩
      · exact ⟨q, hq, beq_iff_eq.mp hnv.1, beq_iff_eq.mp hnv.2⟩
  obtain ⟨m, hm, hme, hmk⟩ := queryIdsBack_ok
    (insertOrIgnoreAll packageVersionCk db.package_versions rs) rs hkey
  refine ⟨m, ?_, ?_⟩
  · show (insert_package_versions db rs,
      queryIdsBack (insert_package_versions db rs).package_versions rs) = _
    rw [show (insert_package_versions db rs).package_versions =
        insertOrIgnoreAll packageVersionCk db.package_versions rs from rfl, hm]
    rfl
  · intro r hr
    obtain ⟨q0, hq0, hq0n, hq0v⟩ := hkey r hr
    rcases hfind : (insertOrIgnoreAll packageVersionCk db.package_versions rs).find?
        (fun q2 => q2.name == r.name && q2.version == r.version) with _ | q
    · exfalso
      have := List.find?_eq_none.mp hfind q0 hq0
      simp [hq0n, hq0v] at this
    · refine ⟨q, hfind, ?_⟩
      refine alGet_eq_of_forall (fun e he hek => ?_) ?_
      · obtain ⟨q2, hq2, heq2⟩ := hme e he
        rw [hek] at hq2
        rw [hq2] at hfind
        cases hfind
        exact heq2
      · exact hmk r hr

/-- Deterministic form of `with_ids_ok`: on fresh, pairwise-distinct
candidate ids the operation returns exactly the batch-inserted table and the
`reconciledIds` map, and every candidate's map entry is the authoritative id
found at its key. -/
theorem with_ids_eq (db : Db) (rs : List PackageVersionRow)
    (hfresh : ∀ r ∈ rs, ∀ q ∈ db.package_versions, q.id ≠ r.id)
    (hdist : rs.Pairwise fun a b => a.id ≠ b.id) :
    insert_package_versions_with_ids db rs =
      ({ db with package_versions := insertOrIgnoreAll packageVersionCk db.package_versions rs },
       .ok (reconciledIds (insertOrIgnoreAll packageVersionCk db.package_versions rs) rs)) ∧
    ∀ r ∈ rs,
      ∃ q, (insertOrIgnoreAll packageVersionCk db.package_versions rs).find?
          (fun q2 => q2.name == r.name && q2.version == r.version) = some q ∧
        alGet (reconciledIds (insertOrIgnoreAll packageVersionCk db.package_versions rs) rs)
          (r.name, r.version) = some q.id := by
  obtain ⟨m, hm, hauth⟩ := with_ids_ok db rs hfresh hdist
  have hqm : queryIdsBack (insertOrIgnoreAll packageVersionCk db.package_versions rs) rs
      = .ok m := congrArg Prod.snd hm
  have hmr : m = reconciledIds (insertOrIgnoreAll packageVersionCk db.package_versions rs) rs :=
    queryIdsBack_eq_reconciled _ rs m hqm
  subst hmr
  exact ⟨hm, hauth⟩

/-- When every candidate's key is already persisted and every candidate
conflicts, `insert_package_versions_with_ids` leaves the store unchanged and
returns the re-read map of the existing table. -/
theorem with_ids_conflict (db : Db) (rs : List PackageVersionRow)
    (hconf : ∀ r ∈ rs, rowConflict packageVersionCk db.package_versions r = true)
    (hkeys : ∀ r ∈ rs, ∃ q ∈ db.package_versions, q.name = r.name ∧ q.version = r.version) :
    insert_package_versions_with_ids db rs =
      (db, .ok (reconciledIds db.package_versions rs)) := by
  have hT : insertOrIgnoreAll packageVersionCk db.package_versions rs = db.package_versions :=
    insertAll_all_conflict packageVersionCk rs db.package_versions hconf
  have h1 : insert_package_versions db rs = db := by
    show { db with package_versions :=
      insertOrIgnoreAll packageVersionCk db.package_versions rs } = db
    rw [hT]
  obtain ⟨m, hm, _, _⟩ := queryIdsBack_ok db.package_versions rs hkeys
  have hmr := queryIdsBack_eq_reconciled db.package_versions rs m hm
  show (insert_package_versions db rs,
    queryIdsBack (insert_package_versions db rs).package_versions rs) = _
  rw [h1, hm, hmr]

/-- The candidate rows of the phase-4 allocation loop carry the manifest
fields in order, for any generator state. -/
theorem allocPkgRows_fields : ∀ (ps : List PkgInfo) (g : IdGenerator),
    ((allocPkgRows ps g).1.map fun r => (r.name, r.version, r.source)) =
      (ps.map fun p => (p.name, p.version, p.source))
  | [], _ => rfl
  | p :: ps, g => by
    show ((⟨(g.next_package_id).1, p.name, p.version, none, none, none, p.source⟩ ::
        (allocPkgRows ps (g.next_package_id).2).1).map fun r => (r.name, r.version, r.source)) = _
    rw [List.map_cons, allocPkgRows_fields ps (g.next_package_id).2]
    rfl

/-- The fold building the name-keyed package map appends one binding per
candidate whose key the re-read map resolves. -/
theorem pkgmap_fold (M : PkgIdMap) :
    ∀ (rows : List PackageVersionRow) (m0 : List (String × Int)),
      rows.foldl (fun mm pkg =>
        match alGet M (pkg.name, pkg.version) with
        | some actual_id => mm ++ [(pkg.name, actual_id)]
        | none => mm) m0
      = m0 ++ rows.filterMap (fun pkg =>
          (alGet M (pkg.name, pkg.version)).map fun a => (pkg.name, a))
  | [], m0 => by simp
  | r :: rows, m0 => by
    rcases h : alGet M (r.name, r.version) with _ | a
    · simp only [List.foldl_cons, List.filterMap_cons, h]
      exact pkgmap_fold M rows m0
    · simp only [List.foldl_cons, List.filterMap_cons, h, Option.map_some']
      rw [pkgmap_fold M rows (m0 ++ [(r.name, a)]), List.append_assoc]
      rfl

/-- A value `alGet` returns is the value of some binding at the key. -/
theorem alGet_mem {κ β : Type} [BEq κ] {m : List (κ × β)} {k : κ} {v : β}
    (h : alGet m k = some v) : ∃ e ∈ m, (e.1 == k) = true ∧ e.2 = v := by
  rcases hfind : m.reverse.find? (fun e => e.1 == k) with _ | e
  · rw [alGet, hfind] at h
    cases h
  · rw [alGet, hfind] at h
    refine ⟨e, List.mem_reverse.mp (List.mem_of_find?_eq_some hfind), ?_, ?_⟩
    · have := List.find?_some hfind
      simpa using this
    · exact Option.some.inj h

/-! ### Parse-phase structure -/

/-- The child-row loop: the child counter advances by the child count, rows
carry fresh bounded pairwise-distinct ids and the enclosing declaration id. -/
theorem buildChildRows_spec (did : Int) :
    ∀ (cs : List DocChildSrc) (g : IdGenerator),
      0 ≤ g.child_counter → g.child_counter + cs.length ≤ maxI64 →
      (buildChildRows did cs g).2 = { g with child_counter := g.child_counter + cs.length } ∧
      (∀ r ∈ (buildChildRows did cs g).1,
        g.child_counter < r.id ∧ r.id ≤ g.child_counter + cs.length ∧
        r.declaration_id = did) ∧
      (buildChildRows did cs g).1.Pairwise (fun a b => a.id ≠ b.id)
  | [], g, _, _ => by
    refine ⟨?_, by simp [buildChildRows], by simp [buildChildRows]⟩
    show g = _
    simp
  | c :: cs, g, hlo, hhi => by
    have hcast : ((c :: cs).length : Int) = (cs.length : Int) + 1 := by simp
    rw [hcast] at hhi
    have hlen : (0 : Int) ≤ (cs.length : Int) := Int.natCast_nonneg _
    have hw : wrap64 (g.child_counter + 1) = g.child_counter + 1 := by
      refine wrap64_eq_self ?_ ?_
      · simp only [minI64]; omega
      · omega
    have hg1 : g.next_child_id = (g.child_counter + 1,
        { g with child_counter := g.child_counter + 1 }) := by
      rw [IdGenerator.next_child_id, hw]
    have ih := buildChildRows_spec did cs { g with child_counter := g.child_counter + 1 }
      (by show (0 : Int) ≤ g.child_counter + 1; omega)
      (by show g.child_counter + 1 + (cs.length : Int) ≤ maxI64; omega)
    have hunfold : buildChildRows did (c :: cs) g =
        (⟨g.child_counter + 1, did, c.title, c.kind, c.type_signature, c.type_ast,
          c.constructor_args, none, c.instance_constraints, c.comments, c.source_span⟩ ::
          (buildChildRows did cs { g with child_counter := g.child_counter + 1 }).1,
         (buildChildRows did cs { g with child_counter := g.child_counter + 1 }).2) := by
      rw [buildChildRows, hg1]
    rw [hunfold]
    refine ⟨?_, ?_, ?_⟩
    · show (buildChildRows did cs _).2 = _
      rw [ih.1]
      have heq : g.child_counter + 1 + (cs.length : Int) =
          g.child_counter + ((c :: cs).length : Int) := by
        rw [hcast]; ring
      simp [heq]
    · intro r hr
      rcases List.mem_cons.mp hr with rfl | hr2
      · refine ⟨?_, ?_, rfl⟩
        · show g.child_counter < g.child_counter + 1
          omega
        · show g.child_counter + 1 ≤ g.child_counter + ((c :: cs).length : Int)
          rw [hcast]; omega
      · have h1 : g.child_counter + 1 < r.id := (ih.2.1 r hr2).1
        have h2 : r.id ≤ g.child_counter + 1 + (cs.length : Int) := (ih.2.1 r hr2).2.1
        exact ⟨by omega, by rw [hcast]; omega, (ih.2.1 r hr2).2.2⟩
    · refine List.pairwise_cons.mpr ⟨fun r hr => ?_, ih.2.2⟩
      have h1 : g.child_counter + 1 < r.id := (ih.2.1 r hr).1
      show g.child_counter + 1 ≠ r.id
      omega


/-- The declaration loop: the declaration and child counters advance by the
respective counts; declaration rows carry the module id, the parser titles
in order and fresh pairwise-distinct bounded ids; child rows carry fresh
pairwise-distinct bounded ids, each referencing one of this module's
declarations. -/
theorem buildDeclRows_spec (mid : Int) :
    ∀ (ds : List DocDeclSrc) (g : IdGenerator),
      0 ≤ g.declaration_counter → g.declaration_counter + ds.length ≤ maxI64 →
      0 ≤ g.child_counter → g.child_counter + (declsChildCount ds : Int) ≤ maxI64 →
      (buildDeclRows mid ds g).2.2 =
        { g with declaration_counter := g.declaration_counter + ds.length,
                 child_counter := g.child_counter + (declsChildCount ds : Int) } ∧
      ((buildDeclRows mid ds g).1.map fun r => r.name) = (ds.map fun dd => dd.title) ∧
      (∀ r ∈ (buildDeclRows mid ds g).1,
        g.declaration_counter < r.id ∧ r.id ≤ g.declaration_counter + ds.length ∧
        r.module_id = mid) ∧
      (buildDeclRows mid ds g).1.Pairwise (fun a b => a.id ≠ b.id) ∧
      (∀ c ∈ (buildDeclRows mid ds g).2.1,
        g.child_counter < c.id ∧
        c.id ≤ g.child_counter + (declsChildCount ds : Int) ∧
        c.declaration_id ∈ ((buildDeclRows mid ds g).1.map fun r => r.id)) ∧
      (buildDeclRows mid ds g).2.1.Pairwise (fun a b => a.id ≠ b.id)
  | [], g, _, _, _, _ => by
    refine ⟨?_, rfl, by simp [buildDeclRows], by simp [buildDeclRows],
      by simp [buildDeclRows], by simp [buildDeclRows]⟩
    show g = _
    simp [declsChildCount]
  | d :: ds, g, hdlo, hdhi, hclo, hchi => by
    have hcastd : ((d :: ds).length : Int) = (ds.length : Int) + 1 := by simp
    have hcastc : (declsChildCount (d :: ds) : Int) =
        (d.children.length : Int) + (declsChildCount ds : Int) := by
      simp [declsChildCount]
    rw [hcastd] at hdhi
    rw [hcastc] at hchi
    have hlend : (0 : Int) ≤ (ds.length : Int) := Int.natCast_nonneg _
    have hlenc : (0 : Int) ≤ (declsChildCount ds : Int) := Int.natCast_nonneg _
    have hlenc1 : (0 : Int) ≤ (d.children.length : Int) := Int.natCast_nonneg _
    have hw : wrap64 (g.declaration_counter + 1) = g.declaration_counter + 1 := by
      refine wrap64_eq_self ?_ ?_
      · simp only [minI64]; omega
      · omega
    have hg1 : g.next_declaration_id = (g.declaration_counter + 1,
        { g with declaration_counter := g.declaration_counter + 1 }) := by
      rw [IdGenerator.next_declaration_id, hw]
    have hch := buildChildRows_spec (g.declaration_counter + 1) d.children
      { g with declaration_counter := g.declaration_counter + 1 }
      (by show (0 : Int) ≤ g.child_counter; omega)
      (by show g.child_counter + (d.children.length : Int) ≤ maxI64; omega)
    have hg2 : (buildChildRows (g.declaration_counter + 1) d.children
        { g with declaration_counter := g.declaration_counter + 1 }).2 =
        { g with declaration_counter := g.declaration_counter + 1,
                 child_counter := g.child_counter + (d.children.length : Int) } := hch.1
    have ih := buildDeclRows_spec mid ds
      { g with declaration_counter := g.declaration_counter + 1,
               child_counter := g.child_counter + (d.children.length : Int) }
      (by show (0 : Int) ≤ g.declaration_counter + 1; omega)
      (by show g.declaration_counter + 1 + (ds.length : Int) ≤ maxI64; omega)
      (by show (0 : Int) ≤ g.child_counter + (d.children.length : Int); omega)
      (by show g.child_counter + (d.children.length : Int) +
          (declsChildCount ds : Int) ≤ maxI64; omega)
    have hunfold : buildDeclRows mid (d :: ds) g =
        (⟨g.declaration_counter + 1, mid, d.title, d.kind, d.type_signature, d.type_ast,
          d.data_decl_type, d.type_arguments, d.roles, d.superclasses, d.fundeps,
          d.synonym_type, d.comments, d.source_span⟩ ::
          (buildDeclRows mid ds
            { g with declaration_counter := g.declaration_counter + 1,
                     child_counter := g.child_counter + (d.children.length : Int) }).1,
         (buildChildRows (g.declaration_counter + 1) d.children
            { g with declaration_counter := g.declaration_counter + 1 }).1 ++
          (buildDeclRows mid ds
            { g with declaration_counter := g.declaration_counter + 1,
                     child_counter := g.child_counter + (d.children.length : Int) }).2.1,
         (buildDeclRows mid ds
            { g with declaration_counter := g.declaration_counter + 1,
                     child_counter := g.child_counter + (d.children.length : Int) }).2.2) := by
      have h0 : buildDeclRows mid (d :: ds) g =
          (⟨g.declaration_counter + 1, mid, d.title, d.kind, d.type_signature, d.type_ast,
            d.data_decl_type, d.type_arguments, d.roles, d.superclasses, d.fundeps,
            d.synonym_type, d.comments, d.source_span⟩ ::
            (buildDeclRows mid ds
              (buildChildRows (g.declaration_counter + 1) d.children
                { g with declaration_counter := g.declaration_counter + 1 }).2).1,
           (buildChildRows (g.declaration_counter + 1) d.children
              { g with declaration_counter := g.declaration_counter + 1 }).1 ++
            (buildDeclRows mid ds
              (buildChildRows (g.declaration_counter + 1) d.children
                { g with declaration_counter := g.declaration_counter + 1 }).2).2.1,
           (buildDeclRows mid ds
              (buildChildRows (g.declaration_counter + 1) d.children
                { g with declaration_counter := g.declaration_counter + 1 }).2).2.2) := by
        rw [buildDeclRows, hg1]
      rw [h0, hg2]
    rw [hunfold]
    refine ⟨?_, ?_, ?_, ?_, ?_, ?_⟩
    · show (buildDeclRows mid ds _).2.2 = _
      rw [ih.1]
      have heqd : g.declaration_counter + 1 + (ds.length : Int) =
          g.declaration_counter + ((d :: ds).length : Int) := by
        rw [hcastd]; ring
      have heqc : g.child_counter + (d.children.length : Int) +
          (declsChildCount ds : Int) =
          g.child_counter + (declsChildCount (d :: ds) : Int) := by
        rw [hcastc]; ring
      simp [heqd, heqc]
    · show (_ :: (buildDeclRows mid ds _).1.map _) = _
      rw [ih.2.1]
      rfl
    · intro r hr
      rcases List.mem_cons.mp hr with rfl | hr2
      · refine ⟨?_, ?_, rfl⟩
        · show g.declaration_counter < g.declaration_counter + 1
          omega
        · show g.declaration_counter + 1 ≤ g.declaration_counter + ((d :: ds).length : Int)
          rw [hcastd]; omega
      · have h1 : g.declaration_counter + 1 < r.id := (ih.2.2.1 r hr2).1
        have h2 : r.id ≤ g.declaration_counter + 1 + (ds.length : Int) := (ih.2.2.1 r hr2).2.1
        exact ⟨by omega, by rw [hcastd]; omega, (ih.2.2.1 r hr2).2.2⟩
    · refine List.pairwise_cons.mpr ⟨fun r hr => ?_, ih.2.2.2.1⟩
      have h1 : g.declaration_counter + 1 < r.id := (ih.2.2.1 r hr).1
      show g.declaration_counter + 1 ≠ r.id
      omega
    · intro c hc
      rcases List.mem_append.mp hc with hc1 | hc2
      · have h1 : g.child_counter < c.id := (hch.2.1 c hc1).1
        have h2 : c.id ≤ g.child_counter + (d.children.length : Int) := (hch.2.1 c hc1).2.1
        refine ⟨h1, by rw [hcastc]; omega, ?_⟩
        rw [(hch.2.1 c hc1).2.2, List.map_cons]
        exact List.mem_cons_self _ _
      · have h1 : g.child_counter + (d.children.length : Int) < c.id :=
          (ih.2.2.2.2.1 c hc2).1
        have h2 : c.id ≤ g.child_counter + (d.children.length : Int) +
            (declsChildCount ds : Int) := (ih.2.2.2.2.1 c hc2).2.1
        refine ⟨by omega, by rw [hcastc]; omega, ?_⟩
        rw [List.map_cons]
        exact List.mem_cons_of_mem _ ((ih.2.2.2.2.1 c hc2).2.2)
    · rw [List.pairwise_append]
      refine ⟨hch.2.2, ih.2.2.2.2.2, fun a ha b hb => ?_⟩
      have h2 : a.id ≤ g.child_counter + (d.children.length : Int) := (hch.2.1 a ha).2.1
      have h1 : g.child_counter + (d.children.length : Int) < b.id := (ih.2.2.2.2.1 b hb).1
      omega

/-- `parse_docs_json` on one well-formed document: the generator advances
its module/declaration/child counters by the document's counts, the module
row carries the workspace package id and the parsed name, and the
declaration/child rows are fresh, bounded, pairwise distinct and internally
referenced. -/
theorem parse_docs_json_spec (g : IdGenerator) (f : FsPath) (pk : Int) (doc : DocSrc)
    (hmlo : 0 ≤ g.module_counter) (hmhi : g.module_counter + 1 ≤ maxI64)
    (hdlo : 0 ≤ g.declaration_counter)
    (hdhi : g.declaration_counter + (doc.declarations.length : Int) ≤ maxI64)
    (hclo : 0 ≤ g.child_counter)
    (hchi : g.child_counter + (declsChildCount doc.declarations : Int) ≤ maxI64) :
    (parse_docs_json g f pk doc).2 =
      { g with module_counter := g.module_counter + 1,
               declaration_counter := g.declaration_counter + (doc.declarations.length : Int),
               child_counter := g.child_counter + (declsChildCount doc.declarations : Int) } ∧
    (parse_docs_json g f pk doc).1.module =
      ⟨g.module_counter + 1, pk, doc.name, module_name_from_path f, doc.comments⟩ ∧
    ((parse_docs_json g f pk doc).1.declarations.map fun r => r.name) =
      (doc.declarations.map fun dd => dd.title) ∧
    (∀ r ∈ (parse_docs_json g f pk doc).1.declarations,
      g.declaration_counter < r.id ∧
      r.id ≤ g.declaration_counter + (doc.declarations.length : Int) ∧
      r.module_id = g.module_counter + 1) ∧
    (parse_docs_json g f pk doc).1.declarations.Pairwise (fun a b => a.id ≠ b.id) ∧
    (∀ c ∈ (parse_docs_json g f pk doc).1.child_declarations,
      g.child_counter < c.id ∧
      c.id ≤ g.child_counter + (declsChildCount doc.declarations : Int) ∧
      c.declaration_id ∈ ((parse_docs_json g f pk doc).1.declarations.map fun r => r.id)) ∧
    (parse_docs_json g f pk doc).1.child_declarations.Pairwise (fun a b => a.id ≠ b.id) := by
  have hw : wrap64 (g.module_counter + 1) = g.module_counter + 1 := by
    refine wrap64_eq_self ?_ ?_
    · simp only [minI64]; omega
    · omega
  have hg1 : g.next_module_id = (g.module_counter + 1,
      { g with module_counter := g.module_counter + 1 }) := by
    rw [IdGenerator.next_module_id, hw]
  have hbd := buildDeclRows_spec (g.module_counter + 1) doc.declarations
    { g with module_counter := g.module_counter + 1 }
    (by show (0 : Int) ≤ g.declaration_counter; omega)
    (by show g.declaration_counter + (doc.declarations.length : Int) ≤ maxI64; omega)
    (by show (0 : Int) ≤ g.child_counter; omega)
    (by show g.child_counter + (declsChildCount doc.declarations : Int) ≤ maxI64; omega)
  have h0 : parse_docs_json g f pk doc =
      (⟨⟨g.module_counter + 1, pk, doc.name, module_name_from_path f, doc.comments⟩,
        (buildDeclRows (g.module_counter + 1) doc.declarations
          { g with module_counter := g.module_counter + 1 }).1,
        (buildDeclRows (g.module_counter + 1) doc.declarations
          { g with module_counter := g.module_counter + 1 }).2.1⟩,
       (buildDeclRows (g.module_counter + 1) doc.declarations
          { g with module_counter := g.module_counter + 1 }).2.2) := by
    rw [parse_docs_json, hg1]
  rw [h0]
  refine ⟨?_, rfl, hbd.2.1, ?_, hbd.2.2.2.1, ?_, hbd.2.2.2.2.2⟩
  · show (buildDeclRows _ _ _).2.2 = _
    rw [hbd.1]
  · intro r hr
    have h1 : g.declaration_counter < r.id := (hbd.2.2.1 r hr).1
    have h2 : r.id ≤ g.declaration_counter + (doc.declarations.length : Int) :=
      (hbd.2.2.1 r hr).2.1
    exact ⟨h1, h2, (hbd.2.2.1 r hr).2.2⟩
  · intro c hc
    have h1 : g.child_counter < c.id := (hbd.2.2.2.2.1 c hc).1
    have h2 : c.id ≤ g.child_counter + (declsChildCount doc.declarations : Int) :=
      (hbd.2.2.2.2.1 c hc).2.1
    exact ⟨h1, h2, (hbd.2.2.2.2.1 c hc).2.2⟩

/-- The worker pool over all files: parsed modules carry the workspace
package id and the successfully parsed documents' names in order; module,
declaration and child ids are fresh, bounded and globally pairwise distinct;
declarations reference their own module and children reference a declaration
of their own module; the project/snapshot/package counters are untouched. -/
theorem parsePhase_struct (pd : FsPath → Except Unit DocSrc) (pk : Int) :
    ∀ (files : List FsPath) (g : IdGenerator),
      0 ≤ g.module_counter →
      g.module_counter + ((parsedDocs pd files).length : Int) ≤ maxI64 →
      0 ≤ g.declaration_counter →
      g.declaration_counter + (((parsedDocs pd files).map docDeclCount).sum : Int) ≤ maxI64 →
      0 ≤ g.child_counter →
      g.child_counter + (((parsedDocs pd files).map docChildCount).sum : Int) ≤ maxI64 →
      ((parsePhase pd pk files g).1.map fun pm => pm.module.name) =
        ((parsedDocs pd files).map fun dd => dd.name) ∧
      (∀ pm ∈ (parsePhase pd pk files g).1,
        pm.module.package_version_id = pk ∧
        g.module_counter < pm.module.id ∧
        pm.module.id ≤ g.module_counter + ((parsedDocs pd files).length : Int)) ∧
      (parsePhase pd pk files g).1.Pairwise (fun a b => a.module.id ≠ b.module.id) ∧
      (∀ pm ∈ (parsePhase pd pk files g).1, ∀ d ∈ pm.declarations,
        d.module_id = pm.module.id) ∧
      (∀ pm ∈ (parsePhase pd pk files g).1, ∃ doc ∈ parsedDocs pd files,
        (pm.declarations.map fun r => r.name) = (doc.declarations.map fun dd => dd.title)) ∧
      (∀ pm ∈ (parsePhase pd pk files g).1, ∀ d ∈ pm.declarations,
        g.declaration_counter < d.id ∧
        d.id ≤ g.declaration_counter + (((parsedDocs pd files).map docDeclCount).sum : Int)) ∧
      ((parsePhase pd pk files g).1.flatMap fun pm => pm.declarations).Pairwise
        (fun a b => a.id ≠ b.id) ∧
      (∀ pm ∈ (parsePhase pd pk files g).1, ∀ c ∈ pm.child_declarations,
        c.declaration_id ∈ (pm.declarations.map fun r => r.id)) ∧
      (∀ pm ∈ (parsePhase pd pk files g).1, ∀ c ∈ pm.child_declarations,
        g.child_counter < c.id ∧
        c.id ≤ g.child_counter + (((parsedDocs pd files).map docChildCount).sum : Int)) ∧
      ((parsePhase pd pk files g).1.flatMap fun pm => pm.child_declarations).Pairwise
        (fun a b => a.id ≠ b.id) ∧
      (parsePhase pd pk files g).2.1.project_counter = g.project_counter ∧
      (parsePhase pd pk files g).2.1.snapshot_counter = g.snapshot_counter ∧
      (parsePhase pd pk files g).2.1.package_counter = g.package_counter
  | [], g, _, _, _, _, _, _ => by
    refine ⟨rfl, by simp [parsePhase], by simp [parsePhase], by simp [parsePhase],
      by simp [parsePhase], by simp [parsePhase], by simp [parsePhase],
      by simp [parsePhase], by simp [parsePhase], by simp [parsePhase], rfl, rfl, rfl⟩
  | f :: fs, g, hmlo, hmhi, hdlo, hdhi, hclo, hchi => by
    rcases hf : pd f with e | doc
    · -- the malformed file is skipped; the generator is untouched
      have hpdocs : parsedDocs pd (f :: fs) = parsedDocs pd fs := by
        simp [parsedDocs, hf, Except.toOption]
      rw [hpdocs] at hmhi hdhi hchi
      have hstep : parsePhase pd pk (f :: fs) g =
          ((parsePhase pd pk fs g).1, (parsePhase pd pk fs g).2.1,
           (parsePhase pd pk fs g).2.2 + 1) := by
        rw [parsePhase, hf]
      rw [hstep, hpdocs]
      exact parsePhase_struct pd pk fs g hmlo hmhi hdlo hdhi hclo hchi
    · -- one parsed module, then the remaining files from the advanced state
      have hpdocs : parsedDocs pd (f :: fs) = doc :: parsedDocs pd fs := by
        simp [parsedDocs, hf, Except.toOption]
      have hlen : ((parsedDocs pd (f :: fs)).length : Int) =
          1 + ((parsedDocs pd fs).length : Int) := by
        rw [hpdocs]; simp; omega
      have hsumd : (((parsedDocs pd (f :: fs)).map docDeclCount).sum : Int) =
          (doc.declarations.length : Int) +
            (((parsedDocs pd fs).map docDeclCount).sum : Int) := by
        rw [hpdocs]; simp [docDeclCount]
      have hsumc : (((parsedDocs pd (f :: fs)).map docChildCount).sum : Int) =
          (declsChildCount doc.declarations : Int) +
            (((parsedDocs pd fs).map docChildCount).sum : Int) := by
        rw [hpdocs]; simp [docChildCount]
      rw [hlen] at hmhi
      rw [hsumd] at hdhi
      rw [hsumc] at hchi
      have hnn1 : (0 : Int) ≤ ((parsedDocs pd fs).length : Int) := Int.natCast_nonneg _
      have hnn2 : (0 : Int) ≤ (((parsedDocs pd fs).map docDeclCount).sum : Int) :=
        Int.natCast_nonneg _
      have hnn3 : (0 : Int) ≤ (((parsedDocs pd fs).map docChildCount).sum : Int) :=
        Int.natCast_nonneg _
      have hnn4 : (0 : Int) ≤ (doc.declarations.length : Int) := Int.natCast_nonneg _
      have hnn5 : (0 : Int) ≤ (declsChildCount doc.declarations : Int) := Int.natCast_nonneg _
      have hpj := parse_docs_json_spec g f pk doc hmlo (by omega) hdlo (by omega)
        hclo (by omega)
      have hstep : parsePhase pd pk (f :: fs) g =
          ((parse_docs_json g f pk doc).1 ::
            (parsePhase pd pk fs (parse_docs_json g f pk doc).2).1,
           (parsePhase pd pk fs (parse_docs_json g f pk doc).2).2.1,
           (parsePhase pd pk fs (parse_docs_json g f pk doc).2).2.2) := by
        rw [parsePhase, hf]
      rw [hpj.1] at hstep
      have ih := parsePhase_struct pd pk fs
        { g with module_counter := g.module_counter + 1,
                 declaration_counter := g.declaration_counter + (doc.declarations.length : Int),
                 child_counter := g.child_counter + (declsChildCount doc.declarations : Int) }
        (by show (0 : Int) ≤ g.module_counter + 1; omega)
        (by show g.module_counter + 1 + ((parsedDocs pd fs).length : Int) ≤ maxI64; omega)
        (by show (0 : Int) ≤ g.declaration_counter + (doc.declarations.length : Int); omega)
        (by show g.declaration_counter + (doc.declarations.length : Int) +
            (((parsedDocs pd fs).map docDeclCount).sum : Int) ≤ maxI64; omega)
        (by show (0 : Int) ≤ g.child_counter + (declsChildCount doc.declarations : Int); omega)
        (by show g.child_counter + (declsChildCount doc.declarations : Int) +
            (((parsedDocs pd fs).map docChildCount).sum : Int) ≤ maxI64; omega)
      obtain ⟨ihn, ihm, ihmpw, ihdm, ihtt, ihdb, ihdpw, ihcr, ihcb, ihcpw, ihg1, ihg2, ihg3⟩ := ih
      have hmodname : (parse_docs_json g f pk doc).1.module.name = doc.name := by
        rw [hpj.2.1]
      have hmodid : (parse_docs_json g f pk doc).1.module.id = g.module_counter + 1 := by
        rw [hpj.2.1]
      have hmodpk : (parse_docs_json g f pk doc).1.module.package_version_id = pk := by
        rw [hpj.2.1]
      have ihmlt : ∀ pm ∈ (parsePhase pd pk fs
          { g with module_counter := g.module_counter + 1,
                   declaration_counter := g.declaration_counter + (doc.declarations.length : Int),
                   child_counter := g.child_counter + (declsChildCount doc.declarations : Int) }).1,
          g.module_counter + 1 < pm.module.id ∧
          pm.module.id ≤ g.module_counter + 1 + ((parsedDocs pd fs).length : Int) := by
        intro pm hpm
        have h1 : g.module_counter + 1 < pm.module.id := (ihm pm hpm).2.1
        have h2 : pm.module.id ≤ g.module_counter + 1 + ((parsedDocs pd fs).length : Int) :=
          (ihm pm hpm).2.2
        exact ⟨h1, h2⟩
      have ihdlt : ∀ pm ∈ (parsePhase pd pk fs
          { g with module_counter := g.module_counter + 1,
                   declaration_counter := g.declaration_counter + (doc.declarations.length : Int),
                   child_counter := g.child_counter + (declsChildCount doc.declarations : Int) }).1,
          ∀ d ∈ pm.declarations,
          g.declaration_counter + (doc.declarations.length : Int) < d.id ∧
          d.id ≤ g.declaration_counter + (doc.declarations.length : Int) +
            (((parsedDocs pd fs).map docDeclCount).sum : Int) := by
        intro pm hpm d hd
        have h1 : g.declaration_counter + (doc.declarations.length : Int) < d.id :=
          (ihdb pm hpm d hd).1
        have h2 : d.id ≤ g.declaration_counter + (doc.declarations.length : Int) +
            (((parsedDocs pd fs).map docDeclCount).sum : Int) := (ihdb pm hpm d hd).2
        exact ⟨h1, h2⟩
      have ihclt : ∀ pm ∈ (parsePhase pd pk fs
          { g with module_counter := g.module_counter + 1,
                   declaration_counter := g.declaration_counter + (doc.declarations.length : Int),
                   child_counter := g.child_counter + (declsChildCount doc.declarations : Int) }).1,
          ∀ c ∈ pm.child_declarations,
          g.child_counter + (declsChildCount doc.declarations : Int) < c.id ∧
          c.id ≤ g.child_counter + (declsChildCount doc.declarations : Int) +
            (((parsedDocs pd fs).map docChildCount).sum : Int) := by
        intro pm hpm c hc
        have h1 : g.child_counter + (declsChildCount doc.declarations : Int) < c.id :=
          (ihcb pm hpm c hc).1
        have h2 : c.id ≤ g.child_counter + (declsChildCount doc.declarations : Int) +
            (((parsedDocs pd fs).map docChildCount).sum : Int) := (ihcb pm hpm c hc).2
        exact ⟨h1, h2⟩
      rw [hstep, hpdocs]
      have hlen2 : (((doc :: parsedDocs pd fs).length : Nat) : Int) =
          1 + ((parsedDocs pd fs).length : Int) := by
        simp; omega
      have hsumd2 : ((((doc :: parsedDocs pd fs).map docDeclCount).sum : Nat) : Int) =
          (doc.declarations.length : Int) +
            (((parsedDocs pd fs).map docDeclCount).sum : Int) := by
        simp [docDeclCount]
      have hsumc2 : ((((doc :: parsedDocs pd fs).map docChildCount).sum : Nat) : Int) =
          (declsChildCount doc.declarations : Int) +
            (((parsedDocs pd fs).map docChildCount).sum : Int) := by
        simp [docChildCount]
      refine ⟨?_, ?_, ?_, ?_, ?_, ?_, ?_, ?_, ?_, ?_, ?_, ?_, ?_⟩
      · rw [List.map_cons, List.map_cons, hmodname, ihn]
      · intro pm hpm
        rcases List.mem_cons.mp hpm with rfl | hpm2
        · rw [hlen2]
          refine ⟨hmodpk, ?_, ?_⟩
          · rw [hmodid]; omega
          · rw [hmodid]; omega
        · rw [hlen2]
          refine ⟨(ihm pm hpm2).1, ?_, ?_⟩
          · have := (ihmlt pm hpm2).1; omega
          · have := (ihmlt pm hpm2).2; omega
      · refine List.pairwise_cons.mpr ⟨fun pm hpm => ?_, ihmpw⟩
        have := (ihmlt pm hpm).1
        rw [hmodid]
        omega
      · intro pm hpm d hd
        rcases List.mem_cons.mp hpm with rfl | hpm2
        · rw [hmodid]
          exact (hpj.2.2.2.1 d hd).2.2
        · exact ihdm pm hpm2 d hd
      · intro pm hpm
        rcases List.mem_cons.mp hpm with rfl | hpm2
        · exact ⟨doc, List.mem_cons_self doc _, hpj.2.2.1⟩
        · obtain ⟨doc2, hdoc2, heq2⟩ := ihtt pm hpm2
          exact ⟨doc2, List.mem_cons_of_mem doc hdoc2, heq2⟩
      · intro pm hpm d hd
        rcases List.mem_cons.mp hpm with rfl | hpm2
        · rw [hsumd2]
          have h1 := (hpj.2.2.2.1 d hd).1
          have h2 := (hpj.2.2.2.1 d hd).2.1
          exact ⟨h1, by omega⟩
        · rw [hsumd2]
          have h1 := (ihdlt pm hpm2 d hd).1
          have h2 := (ihdlt pm hpm2 d hd).2
          exact ⟨by omega, by omega⟩
      · rw [List.flatMap_cons, List.pairwise_append]
        refine ⟨hpj.2.2.2.2.1, ihdpw, fun a ha b hb => ?_⟩
        obtain ⟨pm2, hpm2, hb2⟩ := List.mem_flatMap.mp hb
        have h2 := (hpj.2.2.2.1 a ha).2.1
        have h1 := (ihdlt pm2 hpm2 b hb2).1
        omega
      · intro pm hpm c hc
        rcases List.mem_cons.mp hpm with rfl | hpm2
        · exact (hpj.2.2.2.2.2.1 c hc).2.2
        · exact ihcr pm hpm2 c hc
      · intro pm hpm c hc
        rcases List.mem_cons.mp hpm with rfl | hpm2
        · rw [hsumc2]
          have h1 := (hpj.2.2.2.2.2.1 c hc).1
          have h2 := (hpj.2.2.2.2.2.1 c hc).2.1
          exact ⟨h1, by omega⟩
        · rw [hsumc2]
          have h1 := (ihclt pm hpm2 c hc).1
          have h2 := (ihclt pm hpm2 c hc).2
          exact ⟨by omega, by omega⟩
      · rw [List.flatMap_cons, List.pairwise_append]
        refine ⟨hpj.2.2.2.2.2.2, ihcpw, fun a ha b hb => ?_⟩
        obtain ⟨pm2, hpm2, hb2⟩ := List.mem_flatMap.mp hb
        have h2 := (hpj.2.2.2.2.2.1 a ha).2.1
        have h1 := (ihclt pm2 hpm2 b hb2).1
        omega
      · exact ihg1
      · exact ihg2
      · exact ihg3

/-- A batch of fresh non-conflicting rows that all pass their foreign-key
check is appended wholesale. -/
theorem insertFkAll_success (ck : α → α → Bool) (fk : α → Bool) :
    ∀ (rows t : List α), (∀ r ∈ rows, fk r = true) →
      (∀ r ∈ rows, rowConflict ck t r = false) →
      rows.Pairwise (fun a b => ck a b = false) →
      insertFkAll ck fk t rows = (t ++ rows, true)
  | [], t, _, _, _ => by simp [insertFkAll]
  | r :: rs, t, hfk, hnc, hpw => by
    rw [insertFkAll, if_neg (by simp [hnc r (List.mem_cons_self r rs)]),
      if_pos (hfk r (List.mem_cons_self r rs))]
    have hnc2 : ∀ x ∈ rs, rowConflict ck (t ++ [r]) x = false := by
      intro x hx
      rw [rowConflict, List.any_append]
      have h1 : t.any (fun q => ck q x) = false := hnc x (List.mem_cons_of_mem r hx)
      have h2 : [r].any (fun q => ck q x) = false := by
        simp [(List.pairwise_cons.mp hpw).1 x hx]
      rw [h1, h2]
      rfl
    rw [insertFkAll_success ck fk rs (t ++ [r])
      (fun x hx => hfk x (List.mem_cons_of_mem r hx)) hnc2 (List.pairwise_cons.mp hpw).2]
    simp

/-- Pairwise property of a flattened list from per-group and cross-group
pairwise properties. -/
theorem pairwise_flatMap {β : Type} (f : β → List α) (Q : α → α → Prop) :
    ∀ (l : List β), (∀ b ∈ l, (f b).Pairwise Q) →
      l.Pairwise (fun b1 b2 => ∀ a1 ∈ f b1, ∀ a2 ∈ f b2, Q a1 a2) →
      (l.flatMap f).Pairwise Q
  | [], _, _ => List.Pairwise.nil
  | b :: l, hin, hcr => by
    rw [List.flatMap_cons, List.pairwise_append]
    obtain ⟨hb, hl⟩ := List.pairwise_cons.mp hcr
    refine ⟨hin b (List.mem_cons_self b l), pairwise_flatMap f Q l
      (fun x hx => hin x (List.mem_cons_of_mem b hx)) hl, ?_⟩
    intro a1 ha1 a2 ha2
    obtain ⟨b2, hb2, ha2b⟩ := List.mem_flatMap.mp ha2
    exact hb b2 hb2 a1 ha1 a2 ha2b

/-- Symbolic execution of one successful `LoadPipeline::load` under
`LoadReady`: the load returns `Ok`; the candidate package rows carry the
manifest fields with fresh pairwise-distinct ids; every downstream id is the
authoritative one found by re-read; the final package/dependency/association
tables are the corresponding insert-or-ignore batches; the project row is
found by name, the snapshot row is appended fresh, the snapshot counter
advances by one, and the stats count exactly the malformed and well-formed
files. -/
theorem load_run (db : Db) (g : IdGenerator) (env : LoadEnv) (disc : ProjectDiscovery)
    (pn : String) (sl : Option String) (packages : List PkgInfo)
    (hspago : env.spagoLock = .ok packages)
    (hready : LoadReady db g env disc packages) :
    ∃ (pkgRows : List PackageVersionRow) (m1 : PkgIdMap) (qw : PackageVersionRow)
      (pr : ProjectRow) (db' : Db) (g' : IdGenerator) (stats : LoadStats),
      LoadPipeline.load db g env disc pn sl = (db', g', .ok stats) ∧
      (pkgRows.map fun r => (r.name, r.version, r.source)) =
        (packages.map fun p => (p.name, p.version, p.source)) ∧
      (∀ r ∈ pkgRows, g.package_counter < r.id ∧
        r.id ≤ g.package_counter + packages.length) ∧
      pkgRows.Pairwise (fun a b => a.id ≠ b.id) ∧
      (∀ r ∈ pkgRows,
        ∃ q, (insertOrIgnoreAll packageVersionCk db.package_versions pkgRows).find?
            (fun q2 => q2.name == r.name && q2.version == r.version) = some q ∧
          alGet m1 (r.name, r.version) = some q.id) ∧
      (insertOrIgnoreAll packageVersionCk
          (insertOrIgnoreAll packageVersionCk db.package_versions pkgRows)
          [⟨g.package_counter + packages.length + 1, pn, "0.0.0",
            some ("Workspace package for " ++ pn), none, none, "workspace"⟩]).find?
          (fun q2 => q2.name == pn && q2.version == "0.0.0") = some qw ∧
      db'.package_versions =
        insertOrIgnoreAll packageVersionCk
          (insertOrIgnoreAll packageVersionCk db.package_versions pkgRows)
          [⟨g.package_counter + packages.length + 1, pn, "0.0.0",
            some ("Workspace package for " ++ pn), none, none, "workspace"⟩] ∧
      db'.package_dependencies =
        insertOrIgnoreAll packageDependencyCk db.package_dependencies
          (packages.flatMap fun pkg_info =>
            match alGet (pkgRows.foldl (fun mm pkg =>
                match alGet m1 (pkg.name, pkg.version) with
                | some actual_id => mm ++ [(pkg.name, actual_id)]
                | none => mm) []) pkg_info.name with
            | some pkg_id => pkg_info.dependencies.map fun dep_name => ⟨pkg_id, dep_name⟩
            | none => []) ∧
      db'.snapshot_packages =
        insertOrIgnoreAll snapshotPackageCk db.snapshot_packages
          ((pkgRows.filterMap fun pkg =>
              (alGet m1 (pkg.name, pkg.version)).map fun actual_id =>
                ⟨g.snapshot_counter + 1, actual_id, pkg.source, false⟩) ++
           [⟨g.snapshot_counter + 1, qw.id, "workspace", true⟩]) ∧
      db'.projects.find? (fun p => p.name == pn) = some pr ∧
      (∃ lb, db'.snapshots = db.snapshots ++
        [⟨g.snapshot_counter + 1, pr.id, env.gitInfo.map (fun gi => gi.hash),
          env.gitInfo.bind (fun gi => gi.ref_name), lb⟩]) ∧
      g'.snapshot_counter = g.snapshot_counter + 1 ∧
      stats.parse_errors =
        disc.docs_json_files.countP (fun f => !(env.parseDoc f).toOption.isSome) ∧
      stats.modules_loaded =
        disc.docs_json_files.countP (fun f => (env.parseDoc f).toOption.isSome) := by
  have hwp : wrap64 (g.project_counter + 1) = g.project_counter + 1 := by
    refine wrap64_eq_self ?_ hready.proj_hi
    have := hready.proj_lo
    simp only [minI64] at this ⊢
    omega
  -- Phase 1: get-or-create project
  have hgoc : ∃ pid pr1 db1, get_or_create_project db (g.project_counter + 1) pn
      (some (pathToString disc.project_path)) = .ok (pid, db1) ∧
      db1.snapshots = db.snapshots ∧
      db1.package_versions = db.package_versions ∧
      db1.package_dependencies = db.package_dependencies ∧
      db1.snapshot_packages = db.snapshot_packages ∧
      db1.modules = db.modules ∧
      db1.declarations = db.declarations ∧
      db1.child_declarations = db.child_declarations ∧
      db1.projects.find? (fun p => p.name == pn) = some pr1 ∧
      pr1.id = pid := by
    rw [get_or_create_project]
    rcases hf : db.projects.find? (fun p => p.name == pn) with _ | p
    · have hcond : (db.projects.any fun p => p.id == g.project_counter + 1 || p.name == pn)
          = false := by
        rw [Bool.eq_false_iff]
        intro hany
        obtain ⟨p, hp, hor⟩ := List.any_eq_true.mp hany
        rw [Bool.or_eq_true] at hor
        rcases hor with hid | hname
        · have := hready.proj_seeded p hp
          rw [beq_iff_eq] at hid
          omega
        · have := List.find?_eq_none.mp hf p hp
          simp [hname] at this
      refine ⟨g.project_counter + 1,
        ⟨g.project_counter + 1, pn, some (pathToString disc.project_path), none⟩,
        { db with projects := db.projects ++
            [⟨g.project_counter + 1, pn, some (pathToString disc.project_path), none⟩] },
        ?_, rfl, rfl, rfl, rfl, rfl, rfl, rfl, ?_, rfl⟩
      · simp only [hf, hcond]
        rfl
      · show (db.projects ++ [_]).find? _ = _
        rw [List.find?_append, hf]
        simp
    · exact ⟨p.id, p, db, by simp only [hf], rfl, rfl, rfl, rfl, rfl, rfl, rfl, hf, rfl⟩
  obtain ⟨pid, pr1, db1, hgoceq, hsnaps1, hpv1, hpd1, hsp1, hmod1, hdecl1, hchild1,
    hfind1, hpr1id⟩ := hgoc
  -- Phase 2: snapshot insert
  have hwsnap : wrap64 (g.snapshot_counter + 1) = g.snapshot_counter + 1 := by
    refine wrap64_eq_self ?_ hready.snap_hi
    have := hready.snap_lo
    simp only [minI64]
    omega
  have hprmem : pr1 ∈ db1.projects := List.mem_of_find?_eq_some hfind1
  have hsnapmk : ∀ (rn lb : Option String),
      insert_snapshot db1 ⟨g.snapshot_counter + 1, pid,
        env.gitInfo.map (fun gi => gi.hash), rn, lb⟩ =
      ({ db1 with snapshots := db.snapshots ++
          [⟨g.snapshot_counter + 1, pid, env.gitInfo.map (fun gi => gi.hash), rn, lb⟩] },
       true) := by
    intro rn lb
    have hnc : rowConflict snapshotCk db1.snapshots
        ⟨g.snapshot_counter + 1, pid, env.gitInfo.map (fun gi => gi.hash), rn, lb⟩ = false := by
      rw [rowConflict, Bool.eq_false_iff]
      intro hany
      obtain ⟨q, hq, hck⟩ := List.any_eq_true.mp hany
      rw [hsnaps1] at hq
      rw [snapshotCk, Bool.or_eq_true] at hck
      rcases hck with hid | hkey
      · rw [beq_iff_eq] at hid
        have := hready.snap_seeded q hq
        have hq2 : q.id = g.snapshot_counter + 1 := hid
        omega
      · rw [Bool.and_eq_true, Bool.and_eq_true] at hkey
        rcases henv : env.gitInfo with _ | gi
        · rw [henv] at hkey
          simp at hkey
        · have hne := hready.snap_fresh q hq gi henv
          have hh : (q.git_hash == (⟨g.snapshot_counter + 1, pid,
              env.gitInfo.map (fun gi => gi.hash), rn, lb⟩ : SnapshotRow).git_hash)
              = true := hkey.2
          rw [henv] at hh
          simp only [Option.map_some'] at hh
          rw [beq_iff_eq] at hh
          exact hne hh
    have hfk : (fun s2 => db1.projects.any fun p => p.id == s2.project_id)
        (⟨g.snapshot_counter + 1, pid, env.gitInfo.map (fun gi => gi.hash), rn, lb⟩ :
          SnapshotRow) = true := by
      show db1.projects.any (fun p => p.id == pid) = true
      refine List.any_eq_true.mpr ⟨pr1, hprmem, ?_⟩
      rw [beq_iff_eq]
      exact hpr1id
    have hone : insertFkAll snapshotCk
        (fun s2 => db1.projects.any fun p => p.id == s2.project_id) db1.snapshots
        [(⟨g.snapshot_counter + 1, pid, env.gitInfo.map (fun gi => gi.hash), rn, lb⟩ :
          SnapshotRow)] =
        (db1.snapshots ++ [⟨g.snapshot_counter + 1, pid,
          env.gitInfo.map (fun gi => gi.hash), rn, lb⟩], true) := by
      rw [insertFkAll, if_neg (by simp [hnc]), if_pos hfk]
      rfl
    simp only [insert_snapshot]
    rw [hone, hsnaps1]
  -- Phase 4: allocation
  have hnn : (0 : Int) ≤ (packages.length : Int) := Int.natCast_nonneg _
  have halloc := allocPkgRows_spec packages
    (⟨g.project_counter + 1, g.snapshot_counter + 1, g.package_counter,
      g.module_counter, g.declaration_counter, g.child_counter⟩ : IdGenerator)
    hready.pkg_lo
    (by show g.package_counter + (packages.length : Int) ≤ maxI64
        have := hready.pkg_hi; omega)
  dsimp only at halloc
  have hdist := halloc.2.2.2
  set PR := (allocPkgRows packages
    (⟨g.project_counter + 1, g.snapshot_counter + 1, g.package_counter,
      g.module_counter, g.declaration_counter, g.child_counter⟩ : IdGenerator)).1 with hPR
  have hfreshPR : ∀ r ∈ PR, ∀ q ∈ db.package_versions, q.id ≠ r.id := by
    intro r hr q hq
    have h1 := (halloc.2.2.1 r hr).1
    have h2 := hready.pkg_seeded q hq
    omega
  have hwi1 := with_ids_eq db PR hfreshPR hdist
  have hauth1 := hwi1.2
  have hwi1mk : ∀ (aP : List ProjectRow) (bS : List SnapshotRow)
      (cPD : List PackageDependencyRow) (dSP : List SnapshotPackageRow)
      (eM : List ModuleRow) (fD : List DeclarationRow) (gC : List ChildDeclarationRow),
      insert_package_versions_with_ids ⟨aP, bS, db.package_versions, cPD, dSP, eM, fD, gC⟩ PR
        = (⟨aP, bS, insertOrIgnoreAll packageVersionCk db.package_versions PR,
            cPD, dSP, eM, fD, gC⟩,
           .ok (reconciledIds (insertOrIgnoreAll packageVersionCk db.package_versions PR) PR)) :=
    fun aP bS cPD dSP eM fD gC =>
      (with_ids_eq ⟨aP, bS, db.package_versions, cPD, dSP, eM, fD, gC⟩ PR hfreshPR hdist).1
  -- dependency rows pass the foreign-key check against the reconciled table
  have hdepfk : ∀ row ∈ (packages.flatMap fun pkg_info =>
      match alGet (PR.foldl (fun mm pkg =>
          match alGet (reconciledIds
              (insertOrIgnoreAll packageVersionCk db.package_versions PR) PR)
            (pkg.name, pkg.version) with
        | some actual_id => mm ++ [(pkg.name, actual_id)]
        | none => mm) []) pkg_info.name with
      | some pkg_id => pkg_info.dependencies.map fun dep_name =>
          (⟨pkg_id, dep_name⟩ : PackageDependencyRow)
      | none => []),
      (insertOrIgnoreAll packageVersionCk db.package_versions PR).any
        (fun p => p.id == row.dependent_id) = true := by
    intro row hrow
    obtain ⟨p, hp, hrow2⟩ := List.mem_flatMap.mp hrow
    rcases halg : alGet (PR.foldl (fun mm pkg =>
        match alGet (reconciledIds
            (insertOrIgnoreAll packageVersionCk db.package_versions PR) PR)
          (pkg.name, pkg.version) with
      | some actual_id => mm ++ [(pkg.name, actual_id)]
      | none => mm) []) p.name with _ | v
    · rw [halg] at hrow2
      cases hrow2
    · rw [halg] at hrow2
      obtain ⟨dn, _, hdn⟩ := List.mem_map.mp hrow2
      obtain ⟨e, he, hek, hev⟩ := alGet_mem halg
      rw [pkgmap_fold, List.nil_append] at he
      obtain ⟨pkg, hpkg, hmapped⟩ := List.mem_filterMap.mp he
      obtain ⟨q, hfq, halgq⟩ := hauth1 pkg hpkg
      rw [halgq] at hmapped
      simp only [Option.map_some'] at hmapped
      have heq : e = (pkg.name, q.id) := (Option.some.inj hmapped).symm
      have hvq : v = q.id := by rw [heq] at hev; exact hev.symm
      have hqmem : q ∈ insertOrIgnoreAll packageVersionCk db.package_versions PR :=
        List.mem_of_find?_eq_some hfq
      refine List.any_eq_true.mpr ⟨q, hqmem, ?_⟩
      rw [beq_iff_eq]
      have : row.dependent_id = v := by rw [← hdn]
      rw [this, hvq]
  have hdepsmk : ∀ (aP : List ProjectRow) (bS : List SnapshotRow)
      (pdT : List PackageDependencyRow) (dSP : List SnapshotPackageRow)
      (eM : List ModuleRow) (fD : List DeclarationRow) (gC : List ChildDeclarationRow),
      insert_package_dependencies
        ⟨aP, bS, insertOrIgnoreAll packageVersionCk db.package_versions PR,
         pdT, dSP, eM, fD, gC⟩
        (packages.flatMap fun pkg_info =>
          match alGet (PR.foldl (fun mm pkg =>
              match alGet (reconciledIds
                  (insertOrIgnoreAll packageVersionCk db.package_versions PR) PR)
                (pkg.name, pkg.version) with
            | some actual_id => mm ++ [(pkg.name, actual_id)]
            | none => mm) []) pkg_info.name with
          | some pkg_id => pkg_info.dependencies.map fun dep_name =>
              (⟨pkg_id, dep_name⟩ : PackageDependencyRow)
          | none => []) =
      (⟨aP, bS, insertOrIgnoreAll packageVersionCk db.package_versions PR,
        insertOrIgnoreAll packageDependencyCk pdT
          (packages.flatMap fun pkg_info =>
            match alGet (PR.foldl (fun mm pkg =>
                match alGet (reconciledIds
                    (insertOrIgnoreAll packageVersionCk db.package_versions PR) PR)
                  (pkg.name, pkg.version) with
              | some actual_id => mm ++ [(pkg.name, actual_id)]
              | none => mm) []) pkg_info.name with
            | some pkg_id => pkg_info.dependencies.map fun dep_name =>
                (⟨pkg_id, dep_name⟩ : PackageDependencyRow)
            | none => []),
        dSP, eM, fD, gC⟩, true) := by
    intro aP bS pdT dSP eM fD gC
    have h := insertFkAll_fkTrue packageDependencyCk
      (fun d => (insertOrIgnoreAll packageVersionCk db.package_versions PR).any
        (fun p => p.id == d.dependent_id))
      (packages.flatMap fun pkg_info =>
        match alGet (PR.foldl (fun mm pkg =>
            match alGet (reconciledIds
                (insertOrIgnoreAll packageVersionCk db.package_versions PR) PR)
              (pkg.name, pkg.version) with
          | some actual_id => mm ++ [(pkg.name, actual_id)]
          | none => mm) []) pkg_info.name with
        | some pkg_id => pkg_info.dependencies.map fun dep_name =>
            (⟨pkg_id, dep_name⟩ : PackageDependencyRow)
        | none => []) pdT hdepfk
    simp only [insert_package_dependencies]
    rw [h]
  -- workspace package
  have hwpk : wrap64 (g.package_counter + (packages.length : Int) + 1)
      = g.package_counter + (packages.length : Int) + 1 := by
    refine wrap64_eq_self ?_ ?_
    · have := hready.pkg_lo
      simp only [minI64] at this ⊢
      omega
    · have := hready.pkg_hi
      omega
  have hT1sub : ∀ q ∈ insertOrIgnoreAll packageVersionCk db.package_versions PR,
      q.id ≤ g.package_counter + (packages.length : Int) := by
    intro q hq
    obtain ⟨rest, hT, hsub⟩ := insertAll_append packageVersionCk db.package_versions PR
    rw [hT] at hq
    rcases List.mem_append.mp hq with hqt | hqr
    · have := hready.pkg_seeded q hqt
      omega
    · exact (halloc.2.2.1 q (hsub q hqr)).2.1
  have hfreshWS : ∀ r ∈ [(⟨g.package_counter + (packages.length : Int) + 1, pn, "0.0.0",
      some ("Workspace package for " ++ pn), none, none, "workspace"⟩ : PackageVersionRow)],
      ∀ q ∈ insertOrIgnoreAll packageVersionCk db.package_versions PR, q.id ≠ r.id := by
    intro r hr q hq
    rw [List.mem_singleton] at hr
    subst hr
    have := hT1sub q hq
    show q.id ≠ g.package_counter + (packages.length : Int) + 1
    omega
  have hdistWS : List.Pairwise (fun a b : PackageVersionRow => a.id ≠ b.id)
      [⟨g.package_counter + (packages.length : Int) + 1, pn, "0.0.0",
        some ("Workspace package for " ++ pn), none, none, "workspace"⟩] :=
    List.pairwise_singleton _ _
  have hwi2 := with_ids_eq
    { db with package_versions := insertOrIgnoreAll packageVersionCk db.package_versions PR }
    [⟨g.package_counter + (packages.length : Int) + 1, pn, "0.0.0",
      some ("Workspace package for " ++ pn), none, none, "workspace"⟩] hfreshWS hdistWS
  have hwi2mk : ∀ (aP : List ProjectRow) (bS : List SnapshotRow)
      (cPD : List PackageDependencyRow) (dSP : List SnapshotPackageRow)
      (eM : List ModuleRow) (fD : List DeclarationRow) (gC : List ChildDeclarationRow),
      insert_package_versions_with_ids
        ⟨aP, bS, insertOrIgnoreAll packageVersionCk db.package_versions PR,
         cPD, dSP, eM, fD, gC⟩
        [⟨g.package_counter + (packages.length : Int) + 1, pn, "0.0.0",
          some ("Workspace package for " ++ pn), none, none, "workspace"⟩]
        = (⟨aP, bS, insertOrIgnoreAll packageVersionCk
              (insertOrIgnoreAll packageVersionCk db.package_versions PR)
              [⟨g.package_counter + (packages.length : Int) + 1, pn, "0.0.0",
                some ("Workspace package for " ++ pn), none, none, "workspace"⟩],
           cPD, dSP, eM, fD, gC⟩,
          .ok (reconciledIds
            (insertOrIgnoreAll packageVersionCk
              (insertOrIgnoreAll packageVersionCk db.package_versions PR)
              [⟨g.package_counter + (packages.length : Int) + 1, pn, "0.0.0",
                some ("Workspace package for " ++ pn), none, none, "workspace"⟩])
            [⟨g.package_counter + (packages.length : Int) + 1, pn, "0.0.0",
              some ("Workspace package for " ++ pn), none, none, "workspace"⟩])) :=
    fun aP bS cPD dSP eM fD gC =>
      (with_ids_eq ⟨aP, bS, insertOrIgnoreAll packageVersionCk db.package_versions PR,
        cPD, dSP, eM, fD, gC⟩ _ hfreshWS hdistWS).1
  obtain ⟨qw, hfindqw, halget2⟩ := hwi2.2 _ (List.mem_singleton.mpr rfl)
  have hfindqw' : (insertOrIgnoreAll packageVersionCk
      (insertOrIgnoreAll packageVersionCk db.package_versions PR)
      [⟨g.package_counter + (packages.length : Int) + 1, pn, "0.0.0",
        some ("Workspace package for " ++ pn), none, none, "workspace"⟩]).find?
      (fun q2 => q2.name == pn && q2.version == "0.0.0") = some qw := hfindqw
  have halget2' : alGet (reconciledIds
      (insertOrIgnoreAll packageVersionCk
        (insertOrIgnoreAll packageVersionCk db.package_versions PR)
        [⟨g.package_counter + (packages.length : Int) + 1, pn, "0.0.0",
          some ("Workspace package for " ++ pn), none, none, "workspace"⟩])
      [⟨g.package_counter + (packages.length : Int) + 1, pn, "0.0.0",
        some ("Workspace package for " ++ pn), none, none, "workspace"⟩])
      (pn, "0.0.0") = some qw.id := halget2
  have hqwT2 : qw ∈ insertOrIgnoreAll packageVersionCk
      (insertOrIgnoreAll packageVersionCk db.package_versions PR)
      [⟨g.package_counter + (packages.length : Int) + 1, pn, "0.0.0",
        some ("Workspace package for " ++ pn), none, none, "workspace"⟩] :=
    List.mem_of_find?_eq_some hfindqw
  -- snapshot associations pass their foreign-key checks
  have hspfk : ∀ (hv : Option String) (rn : Option String) (lb : Option String),
      ∀ row ∈ ((PR.filterMap fun pkg =>
          (alGet (reconciledIds
              (insertOrIgnoreAll packageVersionCk db.package_versions PR) PR)
            (pkg.name, pkg.version)).map fun actual_id =>
              (⟨g.snapshot_counter + 1, actual_id, pkg.source, false⟩ : SnapshotPackageRow)) ++
        [(⟨g.snapshot_counter + 1, qw.id, "workspace", true⟩ : SnapshotPackageRow)]),
      ((db.snapshots ++ [(⟨g.snapshot_counter + 1, pid, hv, rn, lb⟩ : SnapshotRow)]).any
          (fun s => s.id == row.snapshot_id) &&
        (insertOrIgnoreAll packageVersionCk
            (insertOrIgnoreAll packageVersionCk db.package_versions PR)
            [⟨g.package_counter + (packages.length : Int) + 1, pn, "0.0.0",
              some ("Workspace package for " ++ pn), none, none, "workspace"⟩]).any
          (fun p => p.id == row.package_version_id)) = true := by
    intro hv rn lb row hrow
    have hsid : row.snapshot_id = g.snapshot_counter + 1 ∧
        (insertOrIgnoreAll packageVersionCk
            (insertOrIgnoreAll packageVersionCk db.package_versions PR)
            [⟨g.package_counter + (packages.length : Int) + 1, pn, "0.0.0",
              some ("Workspace package for " ++ pn), none, none, "workspace"⟩]).any
          (fun p => p.id == row.package_version_id) = true := by
      rcases List.mem_append.mp hrow with hA | hW
      · obtain ⟨pkg, hpkg, hmapped⟩ := List.mem_filterMap.mp hA
        obtain ⟨q, hfq, halgq⟩ := hauth1 pkg hpkg
        rw [halgq] at hmapped
        simp only [Option.map_some'] at hmapped
        have hroweq : row = ⟨g.snapshot_counter + 1, q.id, pkg.source, false⟩ :=
          (Option.some.inj hmapped).symm
        subst hroweq
        refine ⟨rfl, List.any_eq_true.mpr ⟨q, ?_, ?_⟩⟩
        · exact mem_insertAll_left _ _ _ _ (List.mem_of_find?_eq_some hfq)
        · rw [beq_iff_eq]
      · rw [List.mem_singleton] at hW
        subst hW
        refine ⟨rfl, List.any_eq_true.mpr ⟨qw, hqwT2, ?_⟩⟩
        rw [beq_iff_eq]
    rw [hsid.2, Bool.and_true]
    refine List.any_eq_true.mpr ⟨⟨g.snapshot_counter + 1, pid, hv, rn, lb⟩,
      List.mem_append_right _ (List.mem_singleton.mpr rfl), ?_⟩
    rw [beq_iff_eq]
    exact hsid.1.symm
  have hspmk : ∀ (aP : List ProjectRow) (cPD : List PackageDependencyRow)
      (spT : List SnapshotPackageRow) (eM : List ModuleRow) (fD : List DeclarationRow)
      (gC : List ChildDeclarationRow) (hv rn lb : Option String),
      insert_snapshot_packages
        ⟨aP, db.snapshots ++ [⟨g.snapshot_counter + 1, pid, hv, rn, lb⟩],
         insertOrIgnoreAll packageVersionCk
           (insertOrIgnoreAll packageVersionCk db.package_versions PR)
           [⟨g.package_counter + (packages.length : Int) + 1, pn, "0.0.0",
             some ("Workspace package for " ++ pn), none, none, "workspace"⟩],
         cPD, spT, eM, fD, gC⟩
        ((PR.filterMap fun pkg =>
            (alGet (reconciledIds
                (insertOrIgnoreAll packageVersionCk db.package_versions PR) PR)
              (pkg.name, pkg.version)).map fun actual_id =>
                (⟨g.snapshot_counter + 1, actual_id, pkg.source, false⟩ : SnapshotPackageRow)) ++
          [(⟨g.snapshot_counter + 1, qw.id, "workspace", true⟩ : SnapshotPackageRow)]) =
      (⟨aP, db.snapshots ++ [⟨g.snapshot_counter + 1, pid, hv, rn, lb⟩],
        insertOrIgnoreAll packageVersionCk
          (insertOrIgnoreAll packageVersionCk db.package_versions PR)
          [⟨g.package_counter + (packages.length : Int) + 1, pn, "0.0.0",
            some ("Workspace package for " ++ pn), none, none, "workspace"⟩],
        cPD,
        insertOrIgnoreAll snapshotPackageCk spT
          ((PR.filterMap fun pkg =>
              (alGet (reconciledIds
                  (insertOrIgnoreAll packageVersionCk db.package_versions PR) PR)
                (pkg.name, pkg.version)).map fun actual_id =>
                  (⟨g.snapshot_counter + 1, actual_id, pkg.source, false⟩ :
                    SnapshotPackageRow)) ++
            [(⟨g.snapshot_counter + 1, qw.id, "workspace", true⟩ : SnapshotPackageRow)]),
        eM, fD, gC⟩, true) := by
    intro aP cPD spT eM fD gC hv rn lb
    have h := insertFkAll_fkTrue snapshotPackageCk
      (fun sp => ((db.snapshots ++ [(⟨g.snapshot_counter + 1, pid, hv, rn, lb⟩ :
          SnapshotRow)]).any (fun s => s.id == sp.snapshot_id) &&
        (insertOrIgnoreAll packageVersionCk
            (insertOrIgnoreAll packageVersionCk db.package_versions PR)
            [⟨g.package_counter + (packages.length : Int) + 1, pn, "0.0.0",
              some ("Workspace package for " ++ pn), none, none, "workspace"⟩]).any
          (fun p => p.id == sp.package_version_id)))
      ((PR.filterMap fun pkg =>
          (alGet (reconciledIds
              (insertOrIgnoreAll packageVersionCk db.package_versions PR) PR)
            (pkg.name, pkg.version)).map fun actual_id =>
              (⟨g.snapshot_counter + 1, actual_id, pkg.source, false⟩ : SnapshotPackageRow)) ++
        [(⟨g.snapshot_counter + 1, qw.id, "workspace", true⟩ : SnapshotPackageRow)])
      spT (hspfk hv rn lb)
    simp only [insert_snapshot_packages]
    rw [h]
  -- Phase 5/6: parse and ordered batch insertion
  have hps := parsePhase_struct env.parseDoc qw.id disc.docs_json_files
    (⟨g.project_counter + 1, g.snapshot_counter + 1,
      g.package_counter + (packages.length : Int) + 1,
      g.module_counter, g.declaration_counter, g.child_counter⟩ : IdGenerator)
    hready.mod_lo hready.mod_hi hready.decl_lo hready.decl_hi
    hready.child_lo hready.child_hi
  obtain ⟨hpsn, hpsm, hpsmpw, hpsdm, hpstt, hpsdb, hpsdpw, hpscr, hpscb, hpscpw,
    hpsg1, hpsg2, hpsg3⟩ := hps
  have hmodfk : ∀ m ∈ ((parsePhase env.parseDoc qw.id disc.docs_json_files
      (⟨g.project_counter + 1, g.snapshot_counter + 1,
        g.package_counter + (packages.length : Int) + 1,
        g.module_counter, g.declaration_counter, g.child_counter⟩ : IdGenerator)).1.map
        fun x => x.module),
      (insertOrIgnoreAll packageVersionCk
        (insertOrIgnoreAll packageVersionCk db.package_versions PR)
        [⟨g.package_counter + (packages.length : Int) + 1, pn, "0.0.0",
          some ("Workspace package for " ++ pn), none, none, "workspace"⟩]).any
        (fun p => p.id == m.package_version_id) = true := by
    intro m hm
    obtain ⟨pm, hpm, hmeq⟩ := List.mem_map.mp hm
    have hpk : pm.module.package_version_id = qw.id := (hpsm pm hpm).1
    refine List.any_eq_true.mpr ⟨qw, hqwT2, ?_⟩
    rw [beq_iff_eq, ← hmeq, hpk]
  have hmodpw : ((parsePhase env.parseDoc qw.id disc.docs_json_files
      (⟨g.project_counter + 1, g.snapshot_counter + 1,
        g.package_counter + (packages.length : Int) + 1,
        g.module_counter, g.declaration_counter, g.child_counter⟩ : IdGenerator)).1.map
        fun x => x.module).Pairwise (fun a b => moduleCk a b = false) := by
    have hids : ((parsePhase env.parseDoc qw.id disc.docs_json_files
        (⟨g.project_counter + 1, g.snapshot_counter + 1,
          g.package_counter + (packages.length : Int) + 1,
          g.module_counter, g.declaration_counter, g.child_counter⟩ : IdGenerator)).1.map
          fun x => x.module).Pairwise (fun a b => a.id ≠ b.id) :=
      List.pairwise_map.mpr hpsmpw
    have hnd : ((parsePhase env.parseDoc qw.id disc.docs_json_files
        (⟨g.project_counter + 1, g.snapshot_counter + 1,
          g.package_counter + (packages.length : Int) + 1,
          g.module_counter, g.declaration_counter, g.child_counter⟩ : IdGenerator)).1.map
          fun pm => pm.module.name).Nodup := by
      rw [hpsn]
      exact hready.mod_names_nodup
    have hnames : ((parsePhase env.parseDoc qw.id disc.docs_json_files
        (⟨g.project_counter + 1, g.snapshot_counter + 1,
          g.package_counter + (packages.length : Int) + 1,
          g.module_counter, g.declaration_counter, g.child_counter⟩ : IdGenerator)).1.map
          fun x => x.module).Pairwise (fun a b => a.name ≠ b.name) :=
      List.pairwise_map.mpr (List.pairwise_map.mp hnd)
    refine (List.Pairwise.and hids hnames).imp ?_
    intro a b h
    rw [moduleCk, beq_eq_false_iff_ne.mpr h.1, beq_eq_false_iff_ne.mpr h.2]
    simp
  have hmodsmk : ∀ (aP : List ProjectRow) (bS : List SnapshotRow)
      (cPD : List PackageDependencyRow) (dSP : List SnapshotPackageRow)
      (fD : List DeclarationRow) (gC : List ChildDeclarationRow),
      insert_modules
        ⟨aP, bS, insertOrIgnoreAll packageVersionCk
          (insertOrIgnoreAll packageVersionCk db.package_versions PR)
          [⟨g.package_counter + (packages.length : Int) + 1, pn, "0.0.0",
            some ("Workspace package for " ++ pn), none, none, "workspace"⟩],
         cPD, dSP, db.modules, fD, gC⟩
        ((parsePhase env.parseDoc qw.id disc.docs_json_files
          (⟨g.project_counter + 1, g.snapshot_counter + 1,
            g.package_counter + (packages.length : Int) + 1,
            g.module_counter, g.declaration_counter, g.child_counter⟩ : IdGenerator)).1.map
          fun x => x.module) =
      (⟨aP, bS, insertOrIgnoreAll packageVersionCk
          (insertOrIgnoreAll packageVersionCk db.package_versions PR)
          [⟨g.package_counter + (packages.length : Int) + 1, pn, "0.0.0",
            some ("Workspace package for " ++ pn), none, none, "workspace"⟩],
        cPD, dSP,
        (parsePhase env.parseDoc qw.id disc.docs_json_files
          (⟨g.project_counter + 1, g.snapshot_counter + 1,
            g.package_counter + (packages.length : Int) + 1,
            g.module_counter, g.declaration_counter, g.child_counter⟩ : IdGenerator)).1.map
          (fun x => x.module),
        fD, gC⟩, true) := by
    intro aP bS cPD dSP fD gC
    have h := insertFkAll_success moduleCk
      (fun m => (insertOrIgnoreAll packageVersionCk
        (insertOrIgnoreAll packageVersionCk db.package_versions PR)
        [⟨g.package_counter + (packages.length : Int) + 1, pn, "0.0.0",
          some ("Workspace package for " ++ pn), none, none, "workspace"⟩]).any
        (fun p => p.id == m.package_version_id))
      ((parsePhase env.parseDoc qw.id disc.docs_json_files
        (⟨g.project_counter + 1, g.snapshot_counter + 1,
          g.package_counter + (packages.length : Int) + 1,
          g.module_counter, g.declaration_counter, g.child_counter⟩ : IdGenerator)).1.map
        fun x => x.module) [] hmodfk (fun _ _ => rfl) hmodpw
    simp only [insert_modules]
    rw [hready.mods_empty, h]
    rfl
  have hdeclfk : ∀ d ∈ ((parsePhase env.parseDoc qw.id disc.docs_json_files
      (⟨g.project_counter + 1, g.snapshot_counter + 1,
        g.package_counter + (packages.length : Int) + 1,
        g.module_counter, g.declaration_counter, g.child_counter⟩ : IdGenerator)).1.flatMap
        fun x => x.declarations),
      ((parsePhase env.parseDoc qw.id disc.docs_json_files
        (⟨g.project_counter + 1, g.snapshot_counter + 1,
          g.package_counter + (packages.length : Int) + 1,
          g.module_counter, g.declaration_counter, g.child_counter⟩ : IdGenerator)).1.map
        fun x => x.module).any (fun m => m.id == d.module_id) = true := by
    intro d hd
    obtain ⟨pm, hpm, hd2⟩ := List.mem_flatMap.mp hd
    have hmid := hpsdm pm hpm d hd2
    refine List.any_eq_true.mpr ⟨pm.module, List.mem_map_of_mem _ hpm, ?_⟩
    rw [beq_iff_eq, hmid]
  have hdeclpw : ((parsePhase env.parseDoc qw.id disc.docs_json_files
      (⟨g.project_counter + 1, g.snapshot_counter + 1,
        g.package_counter + (packages.length : Int) + 1,
        g.module_counter, g.declaration_counter, g.child_counter⟩ : IdGenerator)).1.flatMap
        fun x => x.declarations).Pairwise (fun a b => declarationCk a b = false) := by
    have hQ : ((parsePhase env.parseDoc qw.id disc.docs_json_files
        (⟨g.project_counter + 1, g.snapshot_counter + 1,
          g.package_counter + (packages.length : Int) + 1,
          g.module_counter, g.declaration_counter, g.child_counter⟩ : IdGenerator)).1.flatMap
          fun x => x.declarations).Pairwise
        (fun a b => a.module_id ≠ b.module_id ∨ a.name ≠ b.name) := by
      refine pairwise_flatMap (fun x : ParsedModule => x.declarations) _ _ (fun pm hpm => ?_) ?_
      · obtain ⟨doc, hdoc, htt⟩ := hpstt pm hpm
        have hnd : (pm.declarations.map fun r => r.name).Nodup := by
          rw [htt]
          exact hready.decl_titles_nodup doc hdoc
        exact (List.pairwise_map.mp hnd).imp fun h => Or.inr h
      · refine List.Pairwise.imp_of_mem ?_ hpsmpw
        intro pm1 pm2 h1 h2 hne a1 ha1 a2 ha2
        refine Or.inl ?_
        rw [hpsdm pm1 h1 a1 ha1, hpsdm pm2 h2 a2 ha2]
        exact hne
    refine (List.Pairwise.and hpsdpw hQ).imp ?_
    intro a b h
    rcases h.2 with hm | hn
    · rw [declarationCk, beq_eq_false_iff_ne.mpr h.1, beq_eq_false_iff_ne.mpr hm]
      simp
    · rw [declarationCk, beq_eq_false_iff_ne.mpr h.1, beq_eq_false_iff_ne.mpr hn]
      simp
  have hdeclsmk : ∀ (aP : List ProjectRow) (bS : List SnapshotRow)
      (cPV : List PackageVersionRow) (cPD : List PackageDependencyRow)
      (dSP : List SnapshotPackageRow) (gC : List ChildDeclarationRow),
      insert_declarations
        ⟨aP, bS, cPV, cPD, dSP,
         (parsePhase env.parseDoc qw.id disc.docs_json_files
           (⟨g.project_counter + 1, g.snapshot_counter + 1,
             g.package_counter + (packages.length : Int) + 1,
             g.module_counter, g.declaration_counter, g.child_counter⟩ : IdGenerator)).1.map
           (fun x => x.module),
         db.declarations, gC⟩
        ((parsePhase env.parseDoc qw.id disc.docs_json_files
          (⟨g.project_counter + 1, g.snapshot_counter + 1,
            g.package_counter + (packages.length : Int) + 1,
            g.module_counter, g.declaration_counter, g.child_counter⟩ : IdGenerator)).1.flatMap
          fun x => x.declarations) =
      (⟨aP, bS, cPV, cPD, dSP,
        (parsePhase env.parseDoc qw.id disc.docs_json_files
          (⟨g.project_counter + 1, g.snapshot_counter + 1,
            g.package_counter + (packages.length : Int) + 1,
            g.module_counter, g.declaration_counter, g.child_counter⟩ : IdGenerator)).1.map
          (fun x => x.module),
        (parsePhase env.parseDoc qw.id disc.docs_json_files
          (⟨g.project_counter + 1, g.snapshot_counter + 1,
            g.package_counter + (packages.length : Int) + 1,
            g.module_counter, g.declaration_counter, g.child_counter⟩ : IdGenerator)).1.flatMap
          (fun x => x.declarations),
        gC⟩, true) := by
    intro aP bS cPV cPD dSP gC
    have h := insertFkAll_success declarationCk
      (fun d => ((parsePhase env.parseDoc qw.id disc.docs_json_files
        (⟨g.project_counter + 1, g.snapshot_counter + 1,
          g.package_counter + (packages.length : Int) + 1,
          g.module_counter, g.declaration_counter, g.child_counter⟩ : IdGenerator)).1.map
        fun x => x.module).any (fun m => m.id == d.module_id))
      ((parsePhase env.parseDoc qw.id disc.docs_json_files
        (⟨g.project_counter + 1, g.snapshot_counter + 1,
          g.package_counter + (packages.length : Int) + 1,
          g.module_counter, g.declaration_counter, g.child_counter⟩ : IdGenerator)).1.flatMap
        fun x => x.declarations) [] hdeclfk (fun _ _ => rfl) hdeclpw
    simp only [insert_declarations]
    rw [hready.decls_empty, h]
    rfl
  have hchildfk : ∀ c ∈ ((parsePhase env.parseDoc qw.id disc.docs_json_files
      (⟨g.project_counter + 1, g.snapshot_counter + 1,
        g.package_counter + (packages.length : Int) + 1,
        g.module_counter, g.declaration_counter, g.child_counter⟩ : IdGenerator)).1.flatMap
        fun x => x.child_declarations),
      ((parsePhase env.parseDoc qw.id disc.docs_json_files
        (⟨g.project_counter + 1, g.snapshot_counter + 1,
          g.package_counter + (packages.length : Int) + 1,
          g.module_counter, g.declaration_counter, g.child_counter⟩ : IdGenerator)).1.flatMap
        fun x => x.declarations).any (fun d => d.id == c.declaration_id) = true := by
    intro c hc
    obtain ⟨pm, hpm, hc2⟩ := List.mem_flatMap.mp hc
    have hin := hpscr pm hpm c hc2
    obtain ⟨d, hd, hdid⟩ := List.mem_map.mp hin
    refine List.any_eq_true.mpr ⟨d, List.mem_flatMap.mpr ⟨pm, hpm, hd⟩, ?_⟩
    rw [beq_iff_eq, hdid]
  have hchildpw : ((parsePhase env.parseDoc qw.id disc.docs_json_files
      (⟨g.project_counter + 1, g.snapshot_counter + 1,
        g.package_counter + (packages.length : Int) + 1,
        g.module_counter, g.declaration_counter, g.child_counter⟩ : IdGenerator)).1.flatMap
        fun x => x.child_declarations).Pairwise
      (fun a b => childDeclarationCk a b = false) := by
    refine hpscpw.imp ?_
    intro a b h
    rw [childDeclarationCk]
    exact beq_eq_false_iff_ne.mpr h
  have hchildmk : ∀ (aP : List ProjectRow) (bS : List SnapshotRow)
      (cPV : List PackageVersionRow) (cPD : List PackageDependencyRow)
      (dSP : List SnapshotPackageRow) (eM : List ModuleRow),
      insert_child_declarations
        ⟨aP, bS, cPV, cPD, dSP, eM,
         (parsePhase env.parseDoc qw.id disc.docs_json_files
           (⟨g.project_counter + 1, g.snapshot_counter + 1,
             g.package_counter + (packages.length : Int) + 1,
             g.module_counter, g.declaration_counter, g.child_counter⟩ : IdGenerator)).1.flatMap
           (fun x => x.declarations),
         db.child_declarations⟩
        ((parsePhase env.parseDoc qw.id disc.docs_json_files
          (⟨g.project_counter + 1, g.snapshot_counter + 1,
            g.package_counter + (packages.length : Int) + 1,
            g.module_counter, g.declaration_counter, g.child_counter⟩ : IdGenerator)).1.flatMap
          fun x => x.child_declarations) =
      (⟨aP, bS, cPV, cPD, dSP, eM,
        (parsePhase env.parseDoc qw.id disc.docs_json_files
          (⟨g.project_counter + 1, g.snapshot_counter + 1,
            g.package_counter + (packages.length : Int) + 1,
            g.module_counter, g.declaration_counter, g.child_counter⟩ : IdGenerator)).1.flatMap
          (fun x => x.declarations),
        (parsePhase env.parseDoc qw.id disc.docs_json_files
          (⟨g.project_counter + 1, g.snapshot_counter + 1,
            g.package_counter + (packages.length : Int) + 1,
            g.module_counter, g.declaration_counter, g.child_counter⟩ : IdGenerator)).1.flatMap
          (fun x => x.child_declarations)⟩, true) := by
    intro aP bS cPV cPD dSP eM
    have h := insertFkAll_success childDeclarationCk
      (fun c => ((parsePhase env.parseDoc qw.id disc.docs_json_files
        (⟨g.project_counter + 1, g.snapshot_counter + 1,
          g.package_counter + (packages.length : Int) + 1,
          g.module_counter, g.declaration_counter, g.child_counter⟩ : IdGenerator)).1.flatMap
        fun x => x.declarations).any (fun d => d.id == c.declaration_id))
      ((parsePhase env.parseDoc qw.id disc.docs_json_files
        (⟨g.project_counter + 1, g.snapshot_counter + 1,
          g.package_counter + (packages.length : Int) + 1,
          g.module_counter, g.declaration_counter, g.child_counter⟩ : IdGenerator)).1.flatMap
        fun x => x.child_declarations) [] hchildfk (fun _ _ => rfl) hchildpw
    simp only [insert_child_declarations]
    rw [hready.children_empty, h]
    rfl
  exact ⟨PR, reconciledIds (insertOrIgnoreAll packageVersionCk db.package_versions PR) PR,
    qw, pr1, _, _, _,
    by
      simp only [LoadPipeline.load, IdGenerator.next_project_id, IdGenerator.next_snapshot_id,
        IdGenerator.next_package_id, hwp, hgoceq, hspago]
      simp only [hwsnap, hsnapmk]
      rw [halloc.1]
      simp only [← hPR, hwpk]
      simp only [hpv1, hpd1, hsp1, hmod1, hdecl1, hchild1]
      simp only [hwi1mk]
      simp only [hdepsmk]
      simp only [hwi2mk]
      simp only [halget2', Option.getD_some]
      simp only [hspmk]
      simp only [hmodsmk]
      simp only [hdeclsmk]
      simp only [hchildmk]
      simp only [if_true]
      rfl,
    halloc.2.1,
    (fun r hr => ⟨(halloc.2.2.1 r hr).1, (halloc.2.2.1 r hr).2.1⟩),
    hdist, hwi1.2, hfindqw',
    rfl, rfl, rfl,
    by exact hfind1,
    ⟨_, by rw [hpr1id]⟩,
    by exact hpsg2,
    by exact (parsePhase_spec env.parseDoc qw.id disc.docs_json_files _).1,
    by
      show (List.map (fun x => x.module) (parsePhase env.parseDoc qw.id disc.docs_json_files
        (⟨g.project_counter + 1, g.snapshot_counter + 1,
          g.package_counter + (packages.length : Int) + 1, g.module_counter,
          g.declaration_counter, g.child_counter⟩ : IdGenerator)).1).length = _
      rw [List.length_map]
      exact (parsePhase_spec env.parseDoc qw.id disc.docs_json_files _).2⟩

/-! ### Claim theorems: load pipeline happy path -/

/-- Claim C4: a load over `N` discovered document files of which `K` are
malformed (and the well-formed remainder parses into modules with distinct
names, per `LoadReady`) completes without aborting, and its stats report
`parse_errors = K` and `modules_loaded = N − K`; no parse failure aborts the
load. -/
theorem claim_c4 (db : Db) (g : IdGenerator) (env : LoadEnv) (disc : ProjectDiscovery)
    (pn : String) (sl : Option String) (packages : List PkgInfo)
    (hspago : env.spagoLock = .ok packages)
    (hready : LoadReady db g env disc packages) :
    ∃ db' g' stats, LoadPipeline.load db g env disc pn sl = (db', g', .ok stats) ∧
      stats.parse_errors =
        disc.docs_json_files.countP (fun f => !(env.parseDoc f).toOption.isSome) ∧
      stats.modules_loaded =
        disc.docs_json_files.length -
          disc.docs_json_files.countP (fun f => !(env.parseDoc f).toOption.isSome) := by
  obtain ⟨_, _, _, _, db', g', stats, hload, _, _, _, _, _, _, _, _, _, _, _, hpe, hml⟩ :=
    load_run db g env disc pn sl packages hspago hready
  refine ⟨db', g', stats, hload, hpe, ?_⟩
  rw [hml]
  have hcc : ∀ l : List FsPath,
      l.countP (fun f => (env.parseDoc f).toOption.isSome) +
        l.countP (fun f => !(env.parseDoc f).toOption.isSome) = l.length := by
    intro l
    induction l with
    | nil => rfl
    | cons a l ih =>
      simp only [List.countP_cons, List.length_cons]
      cases h : (env.parseDoc a).toOption.isSome
      · rw [if_neg (by simp), if_pos (by simp)]
        omega
      · rw [if_pos rfl, if_neg (by simp)]
        omega
  have := hcc disc.docs_json_files
  omega

/-- The fixture satisfies every `LoadReady` hypothesis. -/
theorem wReady : LoadReady Db.empty IdGenerator.new wEnv wDiscovery wPackages :=
  ⟨by decide, by decide, by simp [Db.empty],
   by decide, by decide, by simp [Db.empty], by simp [Db.empty], by simp [Db.empty],
   by decide, by decide, by simp [Db.empty], by decide,
   rfl, rfl, rfl,
   by decide, by decide, by decide, by decide, by decide, by decide,
   by decide, by decide⟩

/-- Witness for C4: the end-to-end fixture (one good module `Data.Foo`, one
malformed `Data.Bar`, one manifest dependency) loads from an empty store
with `parse_errors = 1` and `modules_loaded = 2 − 1`. -/
theorem claim_c4_witness :
    ∃ db' g' stats,
      LoadPipeline.load Db.empty IdGenerator.new wEnv wDiscovery "demo" none =
        (db', g', .ok stats) ∧
      stats.parse_errors =
        wDiscovery.docs_json_files.countP (fun f => !(wEnv.parseDoc f).toOption.isSome) ∧
      stats.modules_loaded =
        wDiscovery.docs_json_files.length -
          wDiscovery.docs_json_files.countP (fun f => !(wEnv.parseDoc f).toOption.isSome) :=
  claim_c4 Db.empty IdGenerator.new wEnv wDiscovery "demo" none wPackages rfl wReady

/-- Claim C5: every load creates-or-reuses exactly one package row keyed
`(project name, "0.0.0")` with source tag `"workspace"`, its snapshot
association is marked direct, and every other association this load adds is
marked indirect.  Hypotheses: seeded counters (`LoadReady` plus a seeded
snapshot counter), schema invariants on the pre-state, no manifest entry
shadowing the workspace key, and any pre-existing row at the workspace key
having been created as a workspace row. -/
theorem claim_c5 (db : Db) (g : IdGenerator) (env : LoadEnv) (disc : ProjectDiscovery)
    (pn : String) (sl : Option String) (packages : List PkgInfo)
    (hspago : env.spagoLock = .ok packages)
    (hready : LoadReady db g env disc packages)
    (hwf : DbWF db)
    (hman : ∀ p ∈ packages, ¬(p.name = pn ∧ p.version = "0.0.0"))
    (hprior : ∀ r ∈ db.package_versions,
      r.name = pn → r.version = "0.0.0" → r.source = "workspace") :
    ∃ db' g' stats w, LoadPipeline.load db g env disc pn sl = (db', g', .ok stats) ∧
      w ∈ db'.package_versions ∧ w.name = pn ∧ w.version = "0.0.0" ∧
      w.source = "workspace" ∧
      (db'.package_versions.filter fun r => r.name == pn && r.version == "0.0.0").length = 1 ∧
      (∃ sp ∈ db'.snapshot_packages, sp.package_version_id = w.id ∧
        sp.source = "workspace" ∧ sp.is_direct = true) ∧
      (∀ sp ∈ db'.snapshot_packages, sp ∉ db.snapshot_packages →
        sp.package_version_id ≠ w.id → sp.is_direct = false) := by
  obtain ⟨PRo, m1, qw, prj, db', g', stats, hload, hfields, hbounds, hdistinct, hauth,
    hfind, hpv, hpd, hsp, _, _, _, hpe, hml⟩ :=
    load_run db g env disc pn sl packages hspago hready
  have hPRtoPkg : ∀ r ∈ PRo, ∃ p ∈ packages,
      p.name = r.name ∧ p.version = r.version ∧ p.source = r.source := by
    intro r hr
    have hmem : (r.name, r.version, r.source) ∈
        packages.map (fun p => (p.name, p.version, p.source)) := by
      rw [← hfields]
      exact List.mem_map_of_mem _ hr
    obtain ⟨p, hp, heq⟩ := List.mem_map.mp hmem
    simp only [Prod.mk.injEq] at heq
    exact ⟨p, hp, heq.1, heq.2.1, heq.2.2⟩
  -- the row found at the workspace key
  have hqwT2 : qw ∈ insertOrIgnoreAll packageVersionCk
      (insertOrIgnoreAll packageVersionCk db.package_versions PRo)
      [⟨g.package_counter + packages.length + 1, pn, "0.0.0",
        some ("Workspace package for " ++ pn), none, none, "workspace"⟩] :=
    List.mem_of_find?_eq_some hfind
  have hqwpred := List.find?_some hfind
  rw [Bool.and_eq_true, beq_iff_eq, beq_iff_eq] at hqwpred
  obtain ⟨hqwn, hqwv⟩ := hqwpred
  -- decompose the final package table
  obtain ⟨rest2, hT2, hsub2⟩ := insertAll_append packageVersionCk
    (insertOrIgnoreAll packageVersionCk db.package_versions PRo)
    [⟨g.package_counter + packages.length + 1, pn, "0.0.0",
      some ("Workspace package for " ++ pn), none, none, "workspace"⟩]
  obtain ⟨rest1, hT1, hsub1⟩ := insertAll_append packageVersionCk db.package_versions PRo
  have hnotPR : ∀ r ∈ PRo, ¬(r.name = pn ∧ r.version = "0.0.0") := by
    intro r hr hcontra
    obtain ⟨p, hp, hn, hv, _⟩ := hPRtoPkg r hr
    exact hman p hp ⟨hn.trans hcontra.1, hv.trans hcontra.2⟩
  have hqwsource : qw.source = "workspace" := by
    rw [hT2] at hqwT2
    rcases List.mem_append.mp hqwT2 with hq1 | hq2
    · rw [hT1] at hq1
      rcases List.mem_append.mp hq1 with hq0 | hqr
      · exact hprior qw hq0 hqwn hqwv
      · exact absurd ⟨hqwn, hqwv⟩ (hnotPR qw (hsub1 qw hqr))
    · have := hsub2 qw hq2
      rw [List.mem_singleton] at this
      rw [this]
  -- uniqueness of the workspace key in the final table
  have hkeyck : ∀ q r : PackageVersionRow,
      (q.name, q.version) = (r.name, r.version) → packageVersionCk q r = true := by
    intro q r h
    simp only [Prod.mk.injEq] at h
    simp only [packageVersionCk, Bool.or_eq_true, Bool.and_eq_true, beq_iff_eq]
    exact Or.inr ⟨h.1, h.2⟩
  have hpw0 : db.package_versions.Pairwise
      (fun a b : PackageVersionRow => (a.name, a.version) ≠ (b.name, b.version)) := by
    refine hwf.2.2.1.imp fun h => ?_
    intro hk
    simp only [Prod.mk.injEq] at hk
    exact h.2 ⟨hk.1, hk.2⟩
  have hpwT2 := insertAll_pairwise packageVersionCk
    (fun r : PackageVersionRow => (r.name, r.version)) hkeyck _
    [⟨g.package_counter + packages.length + 1, pn, "0.0.0",
      some ("Workspace package for " ++ pn), none, none, "workspace"⟩]
    (insertAll_pairwise packageVersionCk
      (fun r : PackageVersionRow => (r.name, r.version)) hkeyck
      db.package_versions PRo hpw0)
  have hcount : ((insertOrIgnoreAll packageVersionCk
      (insertOrIgnoreAll packageVersionCk db.package_versions PRo)
      [⟨g.package_counter + packages.length + 1, pn, "0.0.0",
        some ("Workspace package for " ++ pn), none, none, "workspace"⟩]).filter
      (fun r => r.name == pn && r.version == "0.0.0")).length = 1 := by
    refine filter_length_one _ (fun r : PackageVersionRow => (r.name, r.version))
      (pn, "0.0.0") ?_ _ hpwT2 qw hqwT2 ?_
    · intro x hx
      simp only [Bool.and_eq_true, beq_iff_eq] at hx
      show (x.name, x.version) = (pn, "0.0.0")
      rw [hx.1, hx.2]
    · show (qw.name == pn && qw.version == "0.0.0") = true
      simp only [Bool.and_eq_true, beq_iff_eq]
      exact ⟨hqwn, hqwv⟩
  -- id uniqueness in the final table
  have hidck : ∀ q r : PackageVersionRow, q.id = r.id → packageVersionCk q r = true := by
    intro q r h
    rw [packageVersionCk, Bool.or_eq_true, beq_iff_eq]
    exact Or.inl h
  have hpwid : (insertOrIgnoreAll packageVersionCk
      (insertOrIgnoreAll packageVersionCk db.package_versions PRo)
      [⟨g.package_counter + packages.length + 1, pn, "0.0.0",
        some ("Workspace package for " ++ pn), none, none, "workspace"⟩]).Pairwise
      (fun a b : PackageVersionRow => a.id ≠ b.id) := by
    refine insertAll_pairwise packageVersionCk (fun r : PackageVersionRow => r.id) hidck _ _
      (insertAll_pairwise packageVersionCk (fun r : PackageVersionRow => r.id) hidck
        db.package_versions PRo (hwf.2.2.1.imp fun h => h.1))
  -- the workspace association is inserted and direct
  have hconf : rowConflict snapshotPackageCk
      (insertOrIgnoreAll snapshotPackageCk db.snapshot_packages
        (PRo.filterMap fun pkg =>
          (alGet m1 (pkg.name, pkg.version)).map fun actual_id =>
            ⟨g.snapshot_counter + 1, actual_id, pkg.source, false⟩))
      ⟨g.snapshot_counter + 1, qw.id, "workspace", true⟩ = false := by
    rw [rowConflict, Bool.eq_false_iff]
    intro hany
    obtain ⟨q, hq, hck⟩ := List.any_eq_true.mp hany
    rw [snapshotPackageCk, Bool.and_eq_true, beq_iff_eq, beq_iff_eq] at hck
    obtain ⟨restA, hTA, hsubA⟩ := insertAll_append snapshotPackageCk db.snapshot_packages
      (PRo.filterMap fun pkg =>
        (alGet m1 (pkg.name, pkg.version)).map fun actual_id =>
          ⟨g.snapshot_counter + 1, actual_id, pkg.source, false⟩)
    rw [hTA] at hq
    rcases List.mem_append.mp hq with hq0 | hqA
    · have h1 := hready.sp_seeded q hq0
      have h2 : q.snapshot_id = g.snapshot_counter + 1 := hck.1
      omega
    · obtain ⟨pkg, hpkg, hmap⟩ := List.mem_filterMap.mp (hsubA q hqA)
      rcases halg : alGet m1 (pkg.name, pkg.version) with _ | aid0
      · rw [halg] at hmap
        cases hmap
      · rw [halg] at hmap
        simp only [Option.map_some'] at hmap
        obtain ⟨q0, hfind0, halget0⟩ := hauth pkg hpkg
        rw [halg] at halget0
        have haid : aid0 = q0.id := by
          cases halget0
          rfl
        have hq0T2 : q0 ∈ insertOrIgnoreAll packageVersionCk
            (insertOrIgnoreAll packageVersionCk db.package_versions PRo)
            [⟨g.package_counter + packages.length + 1, pn, "0.0.0",
              some ("Workspace package for " ++ pn), none, none, "workspace"⟩] :=
          mem_insertAll_left _ _ _ _ (List.mem_of_find?_eq_some hfind0)
        have hq0eqqw : q0 = qw := by
          by_contra hne
          have hsymm : Symmetric (fun a b : PackageVersionRow => a.id ≠ b.id) :=
            fun a b h heq => h heq.symm
          refine (List.Pairwise.forall hsymm hpwid hq0T2 hqwT2 hne) ?_
          have hqrow : (⟨g.snapshot_counter + 1, aid0, pkg.source, false⟩ :
              SnapshotPackageRow) = q := Option.some.inj hmap
          have h2 : q.package_version_id = qw.id := hck.2
          rw [← hqrow] at h2
          have h3 : aid0 = qw.id := h2
          rw [haid] at h3
          exact h3
        have hq0pred := List.find?_some hfind0
        rw [Bool.and_eq_true, beq_iff_eq, beq_iff_eq] at hq0pred
        refine hnotPR pkg hpkg ⟨?_, ?_⟩
        · rw [← hq0pred.1, hq0eqqw, hqwn]
        · rw [← hq0pred.2, hq0eqqw, hqwv]
  refine ⟨db', g', stats, qw, hload, by rw [hpv]; exact hqwT2, hqwn, hqwv, hqwsource,
    by rw [hpv]; exact hcount, ?_, ?_⟩
  · refine ⟨⟨g.snapshot_counter + 1, qw.id, "workspace", true⟩, ?_, rfl, rfl, rfl⟩
    rw [hsp, insertAll_append_batch, insertOrIgnoreRow, if_neg (by simp [hconf])]
    exact List.mem_append_right _ (List.mem_singleton.mpr rfl)
  · intro sp hsp2 hnot hne
    rw [hsp] at hsp2
    obtain ⟨restS, hTS, hsubS⟩ := insertAll_append snapshotPackageCk db.snapshot_packages
      ((PRo.filterMap fun pkg =>
          (alGet m1 (pkg.name, pkg.version)).map fun actual_id =>
            ⟨g.snapshot_counter + 1, actual_id, pkg.source, false⟩) ++
        [⟨g.snapshot_counter + 1, qw.id, "workspace", true⟩])
    rw [hTS] at hsp2
    rcases List.mem_append.mp hsp2 with hq0 | hqS
    · exact absurd hq0 hnot
    · rcases List.mem_append.mp (hsubS sp hqS) with hqA | hqR
      · obtain ⟨pkg, _, hmap⟩ := List.mem_filterMap.mp hqA
        rcases halg : alGet m1 (pkg.name, pkg.version) with _ | aid0
        · rw [halg] at hmap
          cases hmap
        · rw [halg] at hmap
          simp only [Option.map_some'] at hmap
          have hqrow := Option.some.inj hmap
          rw [← hqrow]
      · rw [List.mem_singleton] at hqR
        rw [hqR] at hne
        exact absurd rfl hne

/-- Witness for C5: loading the fixture project `demo` into an empty store
yields exactly one workspace package row, directly associated. -/
theorem claim_c5_witness :
    ∃ db' g' stats w,
      LoadPipeline.load Db.empty IdGenerator.new wEnv wDiscovery "demo" none =
        (db', g', .ok stats) ∧
      w ∈ db'.package_versions ∧ w.name = "demo" ∧ w.version = "0.0.0" ∧
      w.source = "workspace" ∧
      (db'.package_versions.filter fun r => r.name == "demo" && r.version == "0.0.0").length
        = 1 ∧
      (∃ sp ∈ db'.snapshot_packages, sp.package_version_id = w.id ∧
        sp.source = "workspace" ∧ sp.is_direct = true) ∧
      (∀ sp ∈ db'.snapshot_packages, sp ∉ Db.empty.snapshot_packages →
        sp.package_version_id ≠ w.id → sp.is_direct = false) :=
  claim_c5 Db.empty IdGenerator.new wEnv wDiscovery "demo" none wPackages rfl wReady
    ⟨List.Pairwise.nil, List.Pairwise.nil, List.Pairwise.nil, List.Pairwise.nil⟩
    (by decide) (by simp [Db.empty])




/-- Claim C6: after the speculative batch insert-or-ignore of package
versions, every dependency edge and every snapshot-package association is
written with the authoritative id found by re-reading the store at
`(name, version)` — never the speculatively allocated id — so a candidate
dropped as a duplicate leaves downstream rows referencing the previously
persisted id.  Manifest entries are keyed by name, hence the distinct-names
condition carried by the readiness hypothesis. -/
theorem claim_c6 (db : Db) (g : IdGenerator) (env : LoadEnv) (disc : ProjectDiscovery)
    (pn : String) (sl : Option String) (packages : List PkgInfo)
    (hspago : env.spagoLock = .ok packages)
    (hready : LoadReady db g env disc packages)
    (hwf : DbWF db) :
    ∃ db' g' stats, LoadPipeline.load db g env disc pn sl = (db', g', .ok stats) ∧
      ∀ p ∈ packages, ∃ aid,
        ((db'.package_versions.find? fun q => q.name == p.name && q.version == p.version).map
          (fun q => q.id)) = some aid ∧
        (∀ dn ∈ p.dependencies,
          (⟨aid, dn⟩ : PackageDependencyRow) ∈ db'.package_dependencies) ∧
        (∃ sp ∈ db'.snapshot_packages, sp.snapshot_id = g.snapshot_counter + 1 ∧
          sp.package_version_id = aid) ∧
        (∀ q0 ∈ db.package_versions, q0.name = p.name → q0.version = p.version →
          aid = q0.id) := by
  have hnodup := hready.pkg_names_nodup
  obtain ⟨PRo, m1, qw, prj, db', g', stats, hload, hfields, hbounds, hdistinct, hauth,
    hfind, hpv, hpd, hsp, _, _, _, hpe, hml⟩ :=
    load_run db g env disc pn sl packages hspago hready
  -- names of the candidate rows are the manifest names, pairwise distinct
  have hnamemap : PRo.map (fun r => r.name) = packages.map (fun p => p.name) := by
    have := congrArg (List.map (fun t : String × String × String => t.1)) hfields
    rwa [List.map_map, List.map_map] at this
  have hnamespw : PRo.Pairwise (fun a b => a.name ≠ b.name) := by
    have h1 : (PRo.map fun r => r.name).Pairwise (· ≠ ·) := by
      rw [hnamemap]
      exact hnodup
    exact (List.pairwise_map.mp h1)
  have hnamesymm : Symmetric (fun a b : PackageVersionRow => a.name ≠ b.name) :=
    fun a b h heq => h heq.symm
  -- the fold that builds the name-keyed map
  have hpmap : ∀ (rows : List PackageVersionRow), (∀ x ∈ rows, x ∈ PRo) →
      ∀ m0 : List (String × Int),
      ∃ L, rows.foldl (fun mm pkg =>
          match alGet m1 (pkg.name, pkg.version) with
          | some actual_id => mm ++ [(pkg.name, actual_id)]
          | none => mm) m0 = m0 ++ L ∧
        L.map (fun e => e.1) = rows.map (fun r => r.name) ∧
        ∀ e ∈ L, ∃ x ∈ rows, e.1 = x.name ∧
          alGet m1 (x.name, x.version) = some e.2 := by
    intro rows hsub
    induction rows with
    | nil => exact fun m0 => ⟨[], by simp, rfl, by simp⟩
    | cons x rows ih =>
      intro m0
      obtain ⟨qx, _, halgx⟩ := hauth x (hsub x (List.mem_cons_self x rows))
      obtain ⟨L, hL1, hL2, hL3⟩ := ih (fun y hy => hsub y (List.mem_cons_of_mem x hy))
        (m0 ++ [(x.name, qx.id)])
      refine ⟨(x.name, qx.id) :: L, ?_, ?_, ?_⟩
      · rw [List.foldl_cons]
        rw [show (match alGet m1 (x.name, x.version) with
            | some actual_id => m0 ++ [(x.name, actual_id)]
            | none => m0) = m0 ++ [(x.name, qx.id)] by rw [halgx]]
        rw [hL1, List.append_assoc]
        rfl
      · rw [List.map_cons, List.map_cons, hL2]
      · intro e he
        rcases List.mem_cons.mp he with rfl | he2
        · exact ⟨x, List.mem_cons_self x rows, rfl, halgx⟩
        · obtain ⟨y, hy, hey⟩ := hL3 e he2
          exact ⟨y, List.mem_cons_of_mem x hy, hey⟩
  obtain ⟨L, hL1, hL2, hL3⟩ := hpmap PRo (fun x hx => hx) []
  rw [List.nil_append] at hL1
  refine ⟨db', g', stats, hload, ?_⟩
  intro p hp
  -- the candidate row of this manifest entry
  obtain ⟨r, hr, hfr⟩ : ∃ r ∈ PRo, (r.name, r.version, r.source) =
      (p.name, p.version, p.source) := by
    have hmem : (p.name, p.version, p.source) ∈
        PRo.map (fun r => (r.name, r.version, r.source)) := by
      rw [hfields]
      exact List.mem_map_of_mem _ hp
    obtain ⟨r, hr, heq⟩ := List.mem_map.mp hmem
    exact ⟨r, hr, heq⟩
  simp only [Prod.mk.injEq] at hfr
  obtain ⟨hn, hv, hs⟩ := hfr
  obtain ⟨q0, hfind0, halget0⟩ := hauth r hr
  simp only [hn, hv] at hfind0
  refine ⟨q0.id, ?_, ?_, ?_, ?_⟩
  · rw [hpv]
    obtain ⟨rest2, hT2, _⟩ := insertAll_append packageVersionCk
      (insertOrIgnoreAll packageVersionCk db.package_versions PRo)
      [⟨g.package_counter + packages.length + 1, pn, "0.0.0",
        some ("Workspace package for " ++ pn), none, none, "workspace"⟩]
    rw [hT2, find?_append_left hfind0]
    rfl
  · -- dependency edges use the reconciled id
    have halgL : alGet L p.name = some q0.id := by
      refine alGet_eq_of_forall (fun e he hek => ?_) ?_
      · obtain ⟨x, hx, hex, halgex⟩ := hL3 e he
        have hxr : x = r := by
          by_contra hne
          exact (List.Pairwise.forall hnamesymm hnamespw hx hr hne)
            (by rw [← hex, hek, hn])
        rw [hxr] at halgex
        rw [halget0] at halgex
        exact (Option.some.inj halgex).symm
      · have : p.name ∈ L.map (fun e => e.1) := by
          rw [hL2, ← hn]
          exact List.mem_map_of_mem _ hr
        obtain ⟨e, he, hek⟩ := List.mem_map.mp this
        exact ⟨e, he, hek⟩
    intro dn hdn
    rw [hpd]
    have hrow : (⟨q0.id, dn⟩ : PackageDependencyRow) ∈
        packages.flatMap fun pkg_info =>
          match alGet (PRo.foldl (fun mm pkg =>
              match alGet m1 (pkg.name, pkg.version) with
              | some actual_id => mm ++ [(pkg.name, actual_id)]
              | none => mm) []) pkg_info.name with
          | some pkg_id => pkg_info.dependencies.map fun dep_name => ⟨pkg_id, dep_name⟩
          | none => [] := by
      refine List.mem_flatMap.mpr ⟨p, hp, ?_⟩
      rw [hL1, show alGet L p.name = some q0.id from halgL]
      exact List.mem_map_of_mem _ hdn
    obtain ⟨q, hq, hcase⟩ := insertAll_exists_key packageDependencyCk
      db.package_dependencies _ _ hrow
    rcases hcase with rfl | hck
    · exact hq
    · rw [packageDependencyCk_eq hck] at hq
      exact hq
  · -- the snapshot association uses the reconciled id
    rw [hsp]
    have hrow : (⟨g.snapshot_counter + 1, q0.id, r.source, false⟩ :
        SnapshotPackageRow) ∈
        (PRo.filterMap fun pkg =>
          (alGet m1 (pkg.name, pkg.version)).map fun actual_id =>
            ⟨g.snapshot_counter + 1, actual_id, pkg.source, false⟩) ++
        [⟨g.snapshot_counter + 1, qw.id, "workspace", true⟩] := by
      refine List.mem_append_left _ (List.mem_filterMap.mpr ⟨r, hr, ?_⟩)
      rw [halget0]
      rfl
    obtain ⟨q, hq, hcase⟩ := insertAll_exists_key snapshotPackageCk
      db.snapshot_packages _ _ hrow
    rcases hcase with rfl | hck
    · exact ⟨_, hq, rfl, rfl⟩
    · rw [snapshotPackageCk, Bool.and_eq_true, beq_iff_eq, beq_iff_eq] at hck
      exact ⟨q, hq, hck.1, hck.2⟩
  · -- a previously persisted row at this key keeps its id
    intro q0' hq0' hq0n hq0v
    have hfinddb : db.package_versions.find?
        (fun q2 => q2.name == p.name && q2.version == p.version) = some q0' := by
      refine find?_eq_some_of_unique _ db.package_versions q0' hq0' ?_ ?_
      · rw [Bool.and_eq_true, beq_iff_eq, beq_iff_eq]
        exact ⟨hq0n, hq0v⟩
      · intro x hx hpx
        rw [Bool.and_eq_true, beq_iff_eq, beq_iff_eq] at hpx
        by_contra hne
        have hsymm2 : Symmetric (fun a b : PackageVersionRow =>
            a.id ≠ b.id ∧ ¬(a.name = b.name ∧ a.version = b.version)) :=
          fun a b h => ⟨fun heq => h.1 heq.symm, fun hk => h.2 ⟨hk.1.symm, hk.2.symm⟩⟩
        exact (List.Pairwise.forall hsymm2 hwf.2.2.1 hx hq0' hne).2
          ⟨hpx.1.trans hq0n.symm, hpx.2.trans hq0v.symm⟩
    obtain ⟨rest1, hT1, _⟩ := insertAll_append packageVersionCk db.package_versions PRo
    have : (insertOrIgnoreAll packageVersionCk db.package_versions PRo).find?
        (fun q2 => q2.name == p.name && q2.version == p.version) = some q0' := by
      rw [hT1]
      exact find?_append_left hfinddb
    rw [hfind0] at this
    cases this
    rfl

/-- Witness for C6: the fixture manifest's one dependency is written with the
authoritative reconciled id. -/
theorem claim_c6_witness :
    ∃ db' g' stats,
      LoadPipeline.load Db.empty IdGenerator.new wEnv wDiscovery "demo" none =
        (db', g', .ok stats) ∧
      ∀ p ∈ wPackages, ∃ aid,
        ((db'.package_versions.find? fun q => q.name == p.name && q.version == p.version).map
          (fun q => q.id)) = some aid ∧
        (∀ dn ∈ p.dependencies,
          (⟨aid, dn⟩ : PackageDependencyRow) ∈ db'.package_dependencies) ∧
        (∃ sp ∈ db'.snapshot_packages,
          sp.snapshot_id = IdGenerator.new.snapshot_counter + 1 ∧
          sp.package_version_id = aid) ∧
        (∀ q0 ∈ Db.empty.package_versions, q0.name = p.name → q0.version = p.version →
          aid = q0.id) :=
  claim_c6 Db.empty IdGenerator.new wEnv wDiscovery "demo" none wPackages rfl wReady
    ⟨List.Pairwise.nil, List.Pairwise.nil, List.Pairwise.nil, List.Pairwise.nil⟩

/-- Referential integrity unfolded into its four membership clauses. -/
theorem refIntegrity_eq (db : Db) :
    db.refIntegrity = true ↔
      (∀ d ∈ db.declarations, db.modules.any (fun m => m.id == d.module_id) = true) ∧
      (∀ c ∈ db.child_declarations,
        db.declarations.any (fun d => d.id == c.declaration_id) = true) ∧
      (∀ m ∈ db.modules,
        db.package_versions.any (fun p => p.id == m.package_version_id) = true) ∧
      (∀ sp ∈ db.snapshot_packages,
        db.snapshots.any (fun s => s.id == sp.snapshot_id) = true ∧
        db.package_versions.any (fun p => p.id == sp.package_version_id) = true) := by
  rw [Db.refIntegrity]
  simp only [Bool.and_eq_true, List.all_eq_true]
  simp only [and_assoc]

/-- Referential integrity is preserved by any mutation that only appends
rows, provided every appended referencing row resolves against the new
store. -/
theorem refIntegrity_tables (db db' : Db)
    (hpv : ∃ e, db'.package_versions = db.package_versions ++ e)
    (hsn : ∃ e, db'.snapshots = db.snapshots ++ e)
    (hm : ∃ e, db'.modules = db.modules ++ e ∧ ∀ x ∈ e,
      db'.package_versions.any (fun p => p.id == x.package_version_id) = true)
    (hd : ∃ e, db'.declarations = db.declarations ++ e ∧ ∀ x ∈ e,
      db'.modules.any (fun m => m.id == x.module_id) = true)
    (hc : ∃ e, db'.child_declarations = db.child_declarations ++ e ∧ ∀ x ∈ e,
      db'.declarations.any (fun d => d.id == x.declaration_id) = true)
    (hsp : ∃ e, db'.snapshot_packages = db.snapshot_packages ++ e ∧ ∀ x ∈ e,
      db'.snapshots.any (fun s => s.id == x.snapshot_id) = true ∧
      db'.package_versions.any (fun p => p.id == x.package_version_id) = true)
    (h : db.refIntegrity = true) : db'.refIntegrity = true := by
  rw [refIntegrity_eq] at h
  obtain ⟨h1, h2, h3, h4⟩ := h
  obtain ⟨epv, hepv⟩ := hpv
  obtain ⟨esn, hesn⟩ := hsn
  obtain ⟨em, hem, hem2⟩ := hm
  obtain ⟨ed, hed, hed2⟩ := hd
  obtain ⟨ec, hec, hec2⟩ := hc
  obtain ⟨esp, hesp, hesp2⟩ := hsp
  rw [refIntegrity_eq]
  refine ⟨?_, ?_, ?_, ?_⟩
  · intro d hdmem
    rw [hed] at hdmem
    rcases List.mem_append.mp hdmem with hold | hnew
    · rw [hem]
      exact any_append_left (h1 d hold)
    · exact hed2 d hnew
  · intro c hcmem
    rw [hec] at hcmem
    rcases List.mem_append.mp hcmem with hold | hnew
    · rw [hed]
      exact any_append_left (h2 c hold)
    · exact hec2 c hnew
  · intro m hmmem
    rw [hem] at hmmem
    rcases List.mem_append.mp hmmem with hold | hnew
    · rw [hepv]
      exact any_append_left (h3 m hold)
    · exact hem2 m hnew
  · intro sp hspmem
    rw [hesp] at hspmem
    rcases List.mem_append.mp hspmem with hold | hnew
    · refine ⟨?_, ?_⟩
      · rw [hesn]
        exact any_append_left (h4 sp hold).1
      · rw [hepv]
        exact any_append_left (h4 sp hold).2
    · exact hesp2 sp hnew

/-- `get_or_create_project` preserves referential integrity: only the
projects table — referenced by no tracked clause — can change. -/
theorem refIntegrity_goc {db db' : Db} {i pid : Int} {n : String} {rp : Option String}
    (hg : get_or_create_project db i n rp = .ok (pid, db'))
    (h : db.refIntegrity = true) : db'.refIntegrity = true := by
  rw [get_or_create_project] at hg
  split at hg
  · injection hg with hg2
    injection hg2 with ha hb
    rw [← hb]
    exact h
  · split at hg
    · exact Except.noConfusion hg
    · injection hg with hg2
      injection hg2 with ha hb
      rw [← hb]
      exact refIntegrity_tables db _ ⟨[], by simp⟩ ⟨[], by simp⟩ ⟨[], by simp, by simp⟩
        ⟨[], by simp, by simp⟩ ⟨[], by simp, by simp⟩ ⟨[], by simp, by simp⟩ h

/-- `insert_snapshot` preserves referential integrity: the snapshots table
only grows and no referencing table changes. -/
theorem refIntegrity_snapshot (db : Db) (s : SnapshotRow)
    (h : db.refIntegrity = true) : (insert_snapshot db s).1.refIntegrity = true := by
  obtain ⟨e, he, _⟩ := insertFkAll_sub snapshotCk
    (fun s2 => db.projects.any fun p => p.id == s2.project_id) [s] db.snapshots
  exact refIntegrity_tables db _ ⟨[], by simp [insert_snapshot]⟩
    ⟨e, by simp only [insert_snapshot]; exact he⟩
    ⟨[], by simp [insert_snapshot], by simp⟩ ⟨[], by simp [insert_snapshot], by simp⟩
    ⟨[], by simp [insert_snapshot], by simp⟩ ⟨[], by simp [insert_snapshot], by simp⟩ h

/-- `insert_package_versions_with_ids` preserves referential integrity: the
package-version table — a referenced side only — grows, and the re-read
phase never mutates the store. -/
theorem refIntegrity_pvwi (db : Db) (ps : List PackageVersionRow)
    (h : db.refIntegrity = true) :
    (insert_package_versions_with_ids db ps).1.refIntegrity = true := by
  obtain ⟨rest, hT, _⟩ := insertAll_append packageVersionCk db.package_versions ps
  exact refIntegrity_tables db _
    ⟨rest, by
      simp only [insert_package_versions_with_ids, insert_package_versions]
      exact hT⟩
    ⟨[], by simp [insert_package_versions_with_ids, insert_package_versions]⟩
    ⟨[], by simp [insert_package_versions_with_ids, insert_package_versions], by simp⟩
    ⟨[], by simp [insert_package_versions_with_ids, insert_package_versions], by simp⟩
    ⟨[], by simp [insert_package_versions_with_ids, insert_package_versions], by simp⟩
    ⟨[], by simp [insert_package_versions_with_ids, insert_package_versions], by simp⟩ h

/-- `insert_package_dependencies` preserves referential integrity: the
dependency table carries no tracked reference and nothing else changes. -/
theorem refIntegrity_pd (db : Db) (ds : List PackageDependencyRow)
    (h : db.refIntegrity = true) :
    (insert_package_dependencies db ds).1.refIntegrity = true := by
  exact refIntegrity_tables db _ ⟨[], by simp [insert_package_dependencies]⟩
    ⟨[], by simp [insert_package_dependencies]⟩
    ⟨[], by simp [insert_package_dependencies], by simp⟩
    ⟨[], by simp [insert_package_dependencies], by simp⟩
    ⟨[], by simp [insert_package_dependencies], by simp⟩
    ⟨[], by simp [insert_package_dependencies], by simp⟩ h

/-- `insert_snapshot_packages` preserves referential integrity: every row
the batch appends passed both foreign-key checks. -/
theorem refIntegrity_sp (db : Db) (ps : List SnapshotPackageRow)
    (h : db.refIntegrity = true) :
    (insert_snapshot_packages db ps).1.refIntegrity = true := by
  obtain ⟨e, he, hfk⟩ := insertFkAll_sub snapshotPackageCk
    (fun sp => (db.snapshots.any fun s => s.id == sp.snapshot_id) &&
               (db.package_versions.any fun p => p.id == sp.package_version_id)) ps
    db.snapshot_packages
  refine refIntegrity_tables db _ ⟨[], by simp [insert_snapshot_packages]⟩
    ⟨[], by simp [insert_snapshot_packages]⟩
    ⟨[], by simp [insert_snapshot_packages], by simp⟩
    ⟨[], by simp [insert_snapshot_packages], by simp⟩
    ⟨[], by simp [insert_snapshot_packages], by simp⟩
    ⟨e, by simp only [insert_snapshot_packages]; exact he, fun x hx => ?_⟩ h
  have h2 : ((db.snapshots.any fun s => s.id == x.snapshot_id) &&
      (db.package_versions.any fun p => p.id == x.package_version_id)) = true :=
    (hfk x hx).2
  rw [Bool.and_eq_true] at h2
  exact h2

/-- `insert_modules` preserves referential integrity: appended modules
passed the package-version foreign-key check. -/
theorem refIntegrity_mods (db : Db) (ms : List ModuleRow)
    (h : db.refIntegrity = true) : (insert_modules db ms).1.refIntegrity = true := by
  obtain ⟨e, he, hfk⟩ := insertFkAll_sub moduleCk
    (fun m => db.package_versions.any fun p => p.id == m.package_version_id) ms db.modules
  exact refIntegrity_tables db _ ⟨[], by simp [insert_modules]⟩ ⟨[], by simp [insert_modules]⟩
    ⟨e, by simp only [insert_modules]; exact he, fun x hx => (hfk x hx).2⟩
    ⟨[], by simp [insert_modules], by simp⟩
    ⟨[], by simp [insert_modules], by simp⟩ ⟨[], by simp [insert_modules], by simp⟩ h

/-- `insert_declarations` preserves referential integrity: appended
declarations passed the module foreign-key check. -/
theorem refIntegrity_decls (db : Db) (ds : List DeclarationRow)
    (h : db.refIntegrity = true) : (insert_declarations db ds).1.refIntegrity = true := by
  obtain ⟨e, he, hfk⟩ := insertFkAll_sub declarationCk
    (fun d => db.modules.any fun m => m.id == d.module_id) ds db.declarations
  exact refIntegrity_tables db _ ⟨[], by simp [insert_declarations]⟩
    ⟨[], by simp [insert_declarations]⟩ ⟨[], by simp [insert_declarations], by simp⟩
    ⟨e, by simp only [insert_declarations]; exact he, fun x hx => (hfk x hx).2⟩
    ⟨[], by simp [insert_declarations], by simp⟩ ⟨[], by simp [insert_declarations], by simp⟩ h

/-- `insert_child_declarations` preserves referential integrity: appended
children passed the declaration foreign-key check. -/
theorem refIntegrity_child (db : Db) (cs : List ChildDeclarationRow)
    (h : db.refIntegrity = true) : (insert_child_declarations db cs).1.refIntegrity = true := by
  obtain ⟨e, he, hfk⟩ := insertFkAll_sub childDeclarationCk
    (fun c => db.declarations.any fun d => d.id == c.declaration_id) cs db.child_declarations
  exact refIntegrity_tables db _ ⟨[], by simp [insert_child_declarations]⟩
    ⟨[], by simp [insert_child_declarations]⟩
    ⟨[], by simp [insert_child_declarations], by simp⟩
    ⟨[], by simp [insert_child_declarations], by simp⟩
    ⟨e, by simp only [insert_child_declarations]; exact he, fun x hx => (hfk x hx).2⟩
    ⟨[], by simp [insert_child_declarations], by simp⟩ h

/-- Claim C3: after every load invocation — aborted or not — every foreign
reference of the persisted store resolves: each declaration's `module_id`
names a persisted module, each child declaration's `declaration_id` a
persisted declaration, each module's `package_version_id` a persisted
package version, and both references of each snapshot association resolve.
Each insertion phase runs after its referenced rows are persisted, and a
row whose reference would dangle is rejected by the store, so integrity is
an invariant of the whole pipeline. -/
theorem claim_c3 (db : Db) (g : IdGenerator) (env : LoadEnv) (disc : ProjectDiscovery)
    (pn : String) (sl : Option String)
    (h : db.refIntegrity = true) :
    (LoadPipeline.load db g env disc pn sl).1.refIntegrity = true := by
  simp only [LoadPipeline.load]
  split
  · exact h
  · rename_i project_id db1 hg
    have h1 : db1.refIntegrity = true := refIntegrity_goc hg h
    split
    · split
      · exact refIntegrity_snapshot _ _ h1
      · split
        · exact refIntegrity_pvwi _ _ (refIntegrity_snapshot _ _ h1)
        · split
          · split
            · exact refIntegrity_pvwi _ _ (refIntegrity_pd _ _
                (refIntegrity_pvwi _ _ (refIntegrity_snapshot _ _ h1)))
            · split
              · split
                · split
                  · split
                    · exact refIntegrity_child _ _ (refIntegrity_decls _ _
                        (refIntegrity_mods _ _ (refIntegrity_sp _ _
                        (refIntegrity_pvwi _ _ (refIntegrity_pd _ _
                        (refIntegrity_pvwi _ _ (refIntegrity_snapshot _ _ h1)))))))
                    · exact refIntegrity_child _ _ (refIntegrity_decls _ _
                        (refIntegrity_mods _ _ (refIntegrity_sp _ _
                        (refIntegrity_pvwi _ _ (refIntegrity_pd _ _
                        (refIntegrity_pvwi _ _ (refIntegrity_snapshot _ _ h1)))))))
                  · exact refIntegrity_decls _ _
                      (refIntegrity_mods _ _ (refIntegrity_sp _ _
                      (refIntegrity_pvwi _ _ (refIntegrity_pd _ _
                      (refIntegrity_pvwi _ _ (refIntegrity_snapshot _ _ h1))))))
                · exact refIntegrity_mods _ _ (refIntegrity_sp _ _
                    (refIntegrity_pvwi _ _ (refIntegrity_pd _ _
                    (refIntegrity_pvwi _ _ (refIntegrity_snapshot _ _ h1)))))
              · exact refIntegrity_sp _ _
                  (refIntegrity_pvwi _ _ (refIntegrity_pd _ _
                  (refIntegrity_pvwi _ _ (refIntegrity_snapshot _ _ h1))))
          · exact refIntegrity_pd _ _
              (refIntegrity_pvwi _ _ (refIntegrity_snapshot _ _ h1))
    · exact refIntegrity_snapshot _ _ h1

/-- Witness for C3: the empty store satisfies referential integrity, and so
does the store left by a full load of the fixture project. -/
theorem claim_c3_witness :
    Db.empty.refIntegrity = true ∧
      (LoadPipeline.load Db.empty IdGenerator.new wEnv wDiscovery
        "demo" none).1.refIntegrity = true :=
  ⟨by decide, claim_c3 Db.empty IdGenerator.new wEnv wDiscovery "demo" none (by decide)⟩

/-- Claim C1: loading an unchanged project+commit twice leaves every table
with exactly the row counts of loading once.  The second run reuses the
project row, silently skips the snapshot (UNIQUE `(project_id, git_hash)`),
deduplicates every package version, dependency edge and the workspace
package against the persisted rows, and then raises a constraint error on
its first snapshot association — whose freshly allocated `snapshot_id` was
never persisted — before any row of the run is added, so the store is
exactly the store after one load.  A commit hash must be present: the
uniqueness constraint treats NULL hashes as distinct. -/
theorem claim_c1 (db : Db) (g : IdGenerator) (env : LoadEnv) (disc : ProjectDiscovery)
    (pn : String) (sl : Option String) (packages : List PkgInfo) (gi : GitInfo)
    (hspago : env.spagoLock = .ok packages)
    (hready : LoadReady db g env disc packages)
    (hgit : env.gitInfo = some gi)
    (hc2 : g.snapshot_counter + 2 ≤ maxI64) :
    ∃ db1 g1 stats1,
      LoadPipeline.load db g env disc pn sl = (db1, g1, .ok stats1) ∧
      Db.counts (LoadPipeline.load db1 g1 env disc pn sl).1 = Db.counts db1 ∧
      ∃ g2 e, LoadPipeline.load db1 g1 env disc pn sl = (db1, g2, .error e) := by
  obtain ⟨pkgRows, m1, qw, pr, db', g', stats, hload, hfields, _, _, hauth,
    hfindqw, hpv, hpd, hsp, hfindpr, hsnapeq, hsnapctr, _, _⟩ :=
    load_run db g env disc pn sl packages hspago hready
  obtain ⟨lb1, hsnapeq'⟩ := hsnapeq
  -- Phase 1 of the second run: the project row is found and reused
  have hgoc2 : ∀ (idv : Int) (rp : Option String),
      get_or_create_project db' idv pn rp = .ok (pr.id, db') := by
    intro idv rp
    rw [get_or_create_project]
    simp only [hfindpr]
  -- the second run's speculative snapshot id
  have hsid2 : wrap64 (g'.snapshot_counter + 1) = g.snapshot_counter + 2 := by
    rw [hsnapctr]
    have h0 := hready.snap_lo
    have hw : wrap64 (g.snapshot_counter + 1 + 1) = g.snapshot_counter + 1 + 1 := by
      refine wrap64_eq_self ?_ ?_
      · simp only [minI64]
        omega
      · omega
    rw [hw]
    omega
  -- Phase 2 of the second run: the snapshot of this commit already exists,
  -- so the insert-or-ignore is a silent no-op
  have hrow1mem : (⟨g.snapshot_counter + 1, pr.id, env.gitInfo.map (fun gi => gi.hash),
      env.gitInfo.bind (fun gi => gi.ref_name), lb1⟩ : SnapshotRow) ∈ db'.snapshots := by
    rw [hsnapeq']
    exact List.mem_append_right _ (List.mem_singleton.mpr rfl)
  have hsnapconf : ∀ (rn lb : Option String),
      insert_snapshot db' ⟨g.snapshot_counter + 2, pr.id,
        env.gitInfo.map (fun gi => gi.hash), rn, lb⟩ = (db', true) := by
    intro rn lb
    have hconf : rowConflict snapshotCk db'.snapshots
        ⟨g.snapshot_counter + 2, pr.id, env.gitInfo.map (fun gi => gi.hash), rn, lb⟩
        = true := by
      refine List.any_eq_true.mpr ⟨_, hrow1mem, ?_⟩
      simp [snapshotCk, hgit]
    simp only [insert_snapshot]
    rw [insertFkAll, if_pos hconf]
    rfl
  -- keys of every manifest entry are persisted after run 1
  have hkeys : ∀ p ∈ packages, ∃ q ∈ db'.package_versions,
      q.name = p.name ∧ q.version = p.version := by
    intro p hp
    have hmem : (p.name, p.version, p.source) ∈
        (pkgRows.map fun r => (r.name, r.version, r.source)) := by
      rw [hfields]
      exact List.mem_map_of_mem _ hp
    obtain ⟨r, hr, hfr⟩ := List.mem_map.mp hmem
    simp only [Prod.mk.injEq] at hfr
    obtain ⟨q, hfq, _⟩ := hauth r hr
    have hqmem : q ∈ insertOrIgnoreAll packageVersionCk db.package_versions pkgRows :=
      List.mem_of_find?_eq_some hfq
    have hqT2 : q ∈ db'.package_versions := by
      rw [hpv]
      exact mem_insertAll_left _ _ _ q hqmem
    have hpred := List.find?_some hfq
    rw [Bool.and_eq_true, beq_iff_eq, beq_iff_eq] at hpred
    exact ⟨q, hqT2, by rw [hpred.1, hfr.1], by rw [hpred.2, hfr.2.1]⟩
  -- manifest entries are uniquely identified by name
  have hnamespw : packages.Pairwise (fun a b => a.name ≠ b.name) :=
    List.pairwise_map.mp hready.pkg_names_nodup
  have hnamesymm : Symmetric (fun a b : PkgInfo => a.name ≠ b.name) :=
    fun a b h heq => h heq.symm
  have huniq : ∀ pi ∈ packages, ∀ pj ∈ packages, pj.name = pi.name → pj = pi := by
    intro pi hpi pj hpj hname
    by_contra hne
    exact (List.Pairwise.forall hnamesymm hnamespw hpj hpi hne) hname
  -- every run-2 candidate row's key is persisted and conflicts
  have hkeys2 : ∀ (gX : IdGenerator), ∀ r ∈ (allocPkgRows packages gX).1,
      ∃ q ∈ db'.package_versions, q.name = r.name ∧ q.version = r.version := by
    intro gX r hr
    have hmapped : (r.name, r.version, r.source) ∈
        (packages.map fun p => (p.name, p.version, p.source)) := by
      rw [← allocPkgRows_fields packages gX]
      exact List.mem_map_of_mem _ hr
    obtain ⟨p, hp, heq⟩ := List.mem_map.mp hmapped
    simp only [Prod.mk.injEq] at heq
    obtain ⟨q, hq, hqn, hqv⟩ := hkeys p hp
    exact ⟨q, hq, by rw [hqn, heq.1], by rw [hqv, heq.2.1]⟩
  have hconf2 : ∀ (gX : IdGenerator), ∀ r ∈ (allocPkgRows packages gX).1,
      rowConflict packageVersionCk db'.package_versions r = true := by
    intro gX r hr
    obtain ⟨q, hq, hqn, hqv⟩ := hkeys2 gX r hr
    refine List.any_eq_true.mpr ⟨q, hq, ?_⟩
    simp [packageVersionCk, hqn, hqv]
  -- Phase 4 of the second run: the batch is a silent no-op, the map re-reads
  have hwi2conf : ∀ (gX : IdGenerator),
      insert_package_versions_with_ids db' (allocPkgRows packages gX).1 =
        (db', .ok (reconciledIds db'.package_versions (allocPkgRows packages gX).1)) :=
    fun gX => with_ids_conflict db' _ (hconf2 gX) (hkeys2 gX)
  -- the re-read map of the second run resolves each candidate key to the
  -- persisted id at that key
  have halm2 : ∀ (gX : IdGenerator), ∀ pkg ∈ (allocPkgRows packages gX).1,
      alGet (reconciledIds db'.package_versions (allocPkgRows packages gX).1)
        (pkg.name, pkg.version) =
      some (((db'.package_versions.find? fun q =>
        q.name == pkg.name && q.version == pkg.version).map (fun q => q.id)).getD 0) := by
    intro gX pkg hpkg
    refine alGet_eq_of_forall ?_ ?_
    · intro e he hre
      obtain ⟨r, hr, hrem⟩ := List.mem_map.mp he
      subst hrem
      have hek : (r.name, r.version) = (pkg.name, pkg.version) := hre
      have hn : r.name = pkg.name := congrArg Prod.fst hek
      have hv : r.version = pkg.version := congrArg Prod.snd hek
      show (((db'.package_versions.find? fun q =>
        q.name == r.name && q.version == r.version).map (fun q => q.id)).getD 0) = _
      rw [hn, hv]
    · exact ⟨_, List.mem_map_of_mem _ hpkg, rfl⟩
  -- the name-keyed map of the second run resolves each manifest name to the
  -- persisted id at its key
  have hpm2 : ∀ (gX : IdGenerator), ∀ pi ∈ packages,
      alGet ((allocPkgRows packages gX).1.foldl (fun mm pkg =>
        match alGet (reconciledIds db'.package_versions (allocPkgRows packages gX).1)
            (pkg.name, pkg.version) with
        | some actual_id => mm ++ [(pkg.name, actual_id)]
        | none => mm) []) pi.name =
      some (((db'.package_versions.find? fun q =>
        q.name == pi.name && q.version == pi.version).map (fun q => q.id)).getD 0) := by
    intro gX pi hpi
    rw [pkgmap_fold, List.nil_append]
    refine alGet_eq_of_forall ?_ ?_
    · intro e he hek
      obtain ⟨pkg, hpkg, hm⟩ := List.mem_filterMap.mp he
      rcases halg : alGet (reconciledIds db'.package_versions (allocPkgRows packages gX).1)
          (pkg.name, pkg.version) with _ | a
      · rw [halg] at hm
        cases hm
      · rw [halg] at hm
        simp only [Option.map_some'] at hm
        have ha : a = (((db'.package_versions.find? fun q =>
            q.name == pkg.name && q.version == pkg.version).map (fun q => q.id)).getD 0) := by
          have h2 := halm2 gX pkg hpkg
          rw [halg] at h2
          exact Option.some.inj h2
        have hm2 : (pkg.name, a) = e := Option.some.inj hm
        subst hm2
        have hekn : pkg.name = pi.name := hek
        have hmapped : (pkg.name, pkg.version, pkg.source) ∈
            (packages.map fun p => (p.name, p.version, p.source)) := by
          rw [← allocPkgRows_fields packages gX]
          exact List.mem_map_of_mem _ hpkg
        obtain ⟨pj, hpj, heqj⟩ := List.mem_map.mp hmapped
        simp only [Prod.mk.injEq] at heqj
        have hpjpi : pj = pi := huniq pi hpi pj hpj (by rw [heqj.1, hekn])
        have hver : pkg.version = pi.version := by
          rw [← heqj.2.1, hpjpi]
        show a = _
        rw [ha, hekn, hver]
    · have hmapped : (pi.name, pi.version, pi.source) ∈
          ((allocPkgRows packages gX).1.map fun r => (r.name, r.version, r.source)) := by
        rw [allocPkgRows_fields packages gX]
        exact List.mem_map_of_mem _ hpi
      obtain ⟨r2, hr2, heq2⟩ := List.mem_map.mp hmapped
      simp only [Prod.mk.injEq] at heq2
      refine ⟨(r2.name, (((db'.package_versions.find? fun q =>
        q.name == r2.name && q.version == r2.version).map (fun q => q.id)).getD 0)), ?_, heq2.1⟩
      refine List.mem_filterMap.mpr ⟨r2, hr2, ?_⟩
      rw [halm2 gX r2 hr2]
      rfl
  -- the persisted table of run 1, split below the workspace row
  obtain ⟨rest2, hT2s⟩ : ∃ rest2, db'.package_versions =
      insertOrIgnoreAll packageVersionCk db.package_versions pkgRows ++ rest2 := by
    obtain ⟨rest2, hT2, _⟩ := insertAll_append packageVersionCk
      (insertOrIgnoreAll packageVersionCk db.package_versions pkgRows)
      [⟨g.package_counter + (packages.length : Int) + 1, pn, "0.0.0",
        some ("Workspace package for " ++ pn), none, none, "workspace"⟩]
    exact ⟨rest2, by rw [hpv]; exact hT2⟩
  -- the name-keyed map of the first run agrees with the second run's values
  have halg1 : ∀ pi ∈ packages,
      alGet (pkgRows.foldl (fun mm pkg =>
        match alGet m1 (pkg.name, pkg.version) with
        | some actual_id => mm ++ [(pkg.name, actual_id)]
        | none => mm) []) pi.name =
      some (((db'.package_versions.find? fun q =>
        q.name == pi.name && q.version == pi.version).map (fun q => q.id)).getD 0) := by
    intro pi hpi
    rw [pkgmap_fold, List.nil_append]
    refine alGet_eq_of_forall ?_ ?_
    · intro e he hek
      obtain ⟨pkg, hpkg, hm⟩ := List.mem_filterMap.mp he
      rcases halg : alGet m1 (pkg.name, pkg.version) with _ | a
      · rw [halg] at hm
        cases hm
      · rw [halg] at hm
        simp only [Option.map_some'] at hm
        obtain ⟨q1, hfq1, halgq1⟩ := hauth pkg hpkg
        have ha : a = q1.id := by
          rw [halg] at halgq1
          exact Option.some.inj halgq1
        have hm2 : (pkg.name, a) = e := Option.some.inj hm
        subst hm2
        have hekn : pkg.name = pi.name := hek
        have hmapped : (pkg.name, pkg.version, pkg.source) ∈
            (packages.map fun p => (p.name, p.version, p.source)) := by
          rw [← hfields]
          exact List.mem_map_of_mem _ hpkg
        obtain ⟨pj, hpj, heqj⟩ := List.mem_map.mp hmapped
        simp only [Prod.mk.injEq] at heqj
        have hpjpi : pj = pi := huniq pi hpi pj hpj (by rw [heqj.1, hekn])
        have hver : pkg.version = pi.version := by
          rw [← heqj.2.1, hpjpi]
        have hfq1pi : db'.package_versions.find?
            (fun q => q.name == pi.name && q.version == pi.version) = some q1 := by
          rw [hT2s]
          refine find?_append_left ?_
          rw [← hekn, ← hver]
          exact hfq1
        show a = _
        rw [hfq1pi, ha]
        rfl
    · have hmapped : (pi.name, pi.version, pi.source) ∈
          (pkgRows.map fun r => (r.name, r.version, r.source)) := by
        rw [hfields]
        exact List.mem_map_of_mem _ hpi
      obtain ⟨r2, hr2, heq2⟩ := List.mem_map.mp hmapped
      simp only [Prod.mk.injEq] at heq2
      obtain ⟨q1, hfq1, halgq1⟩ := hauth r2 hr2
      refine ⟨(r2.name, q1.id), ?_, heq2.1⟩
      refine List.mem_filterMap.mpr ⟨r2, hr2, ?_⟩
      rw [halgq1]
      rfl
  -- every dependency row of the second run is already persisted
  have hdepconf : ∀ (gX : IdGenerator), ∀ row ∈ (packages.flatMap fun pkg_info =>
      match alGet ((allocPkgRows packages gX).1.foldl (fun mm pkg =>
          match alGet (reconciledIds db'.package_versions (allocPkgRows packages gX).1)
            (pkg.name, pkg.version) with
        | some actual_id => mm ++ [(pkg.name, actual_id)]
        | none => mm) []) pkg_info.name with
      | some pkg_id => pkg_info.dependencies.map fun dep_name =>
          (⟨pkg_id, dep_name⟩ : PackageDependencyRow)
      | none => []),
      rowConflict packageDependencyCk db'.package_dependencies row = true := by
    intro gX row hrow
    obtain ⟨pi, hpi, hrow2⟩ := List.mem_flatMap.mp hrow
    rw [hpm2 gX pi hpi] at hrow2
    have hrow2' : row ∈ pi.dependencies.map fun dep_name =>
        (⟨(((db'.package_versions.find? fun q =>
          q.name == pi.name && q.version == pi.version).map (fun q => q.id)).getD 0),
          dep_name⟩ : PackageDependencyRow) := hrow2
    obtain ⟨dn, hdn, hdneq⟩ := List.mem_map.mp hrow2'
    have hroweq : row = ⟨(((db'.package_versions.find? fun q =>
        q.name == pi.name && q.version == pi.version).map (fun q => q.id)).getD 0), dn⟩ :=
      hdneq.symm
    subst hroweq
    have hmem1 : (⟨(((db'.package_versions.find? fun q =>
        q.name == pi.name && q.version == pi.version).map (fun q => q.id)).getD 0), dn⟩ :
        PackageDependencyRow) ∈ (packages.flatMap fun pkg_info =>
        match alGet (pkgRows.foldl (fun mm pkg =>
            match alGet m1 (pkg.name, pkg.version) with
          | some actual_id => mm ++ [(pkg.name, actual_id)]
          | none => mm) []) pkg_info.name with
        | some pkg_id => pkg_info.dependencies.map fun dep_name =>
            (⟨pkg_id, dep_name⟩ : PackageDependencyRow)
        | none => []) := by
      refine List.mem_flatMap.mpr ⟨pi, hpi, ?_⟩
      rw [halg1 pi hpi]
      exact List.mem_map_of_mem _ hdn
    obtain ⟨q, hq, hcase⟩ := insertAll_exists_key packageDependencyCk
      db.package_dependencies _ _ hmem1
    refine List.any_eq_true.mpr ⟨q, by rw [hpd]; exact hq, ?_⟩
    rcases hcase with rfl | hck
    · simp [packageDependencyCk]
    · exact hck
  -- Phase 4 of the second run, dependency batch: a silent no-op
  have hdeps2 : ∀ (gX : IdGenerator),
      insert_package_dependencies db' (packages.flatMap fun pkg_info =>
        match alGet ((allocPkgRows packages gX).1.foldl (fun mm pkg =>
            match alGet (reconciledIds db'.package_versions (allocPkgRows packages gX).1)
              (pkg.name, pkg.version) with
          | some actual_id => mm ++ [(pkg.name, actual_id)]
          | none => mm) []) pkg_info.name with
        | some pkg_id => pkg_info.dependencies.map fun dep_name =>
            (⟨pkg_id, dep_name⟩ : PackageDependencyRow)
        | none => []) = (db', true) := by
    intro gX
    have hfail := insertFkAll_all_conflict packageDependencyCk
      (fun d => db'.package_versions.any fun p => p.id == d.dependent_id)
      _ db'.package_dependencies (hdepconf gX)
    simp only [insert_package_dependencies]
    rw [hfail]
  -- the workspace key is persisted after run 1
  have hfindqw2 : db'.package_versions.find?
      (fun q2 => q2.name == pn && q2.version == "0.0.0") = some qw := by
    rw [hpv]
    exact hfindqw
  have hqwmem : qw ∈ db'.package_versions := List.mem_of_find?_eq_some hfindqw2
  have hqwpred := List.find?_some hfindqw2
  rw [Bool.and_eq_true, beq_iff_eq, beq_iff_eq] at hqwpred
  -- workspace batch of the second run: a silent no-op
  have hws2 : ∀ idv : Int, insert_package_versions_with_ids db'
      [⟨idv, pn, "0.0.0", some ("Workspace package for " ++ pn), none, none, "workspace"⟩] =
      (db', .ok (reconciledIds db'.package_versions
        [⟨idv, pn, "0.0.0", some ("Workspace package for " ++ pn), none, none,
          "workspace"⟩])) := by
    intro idv
    refine with_ids_conflict db' _ ?_ ?_
    · intro r hr
      rw [List.mem_singleton] at hr
      subst hr
      refine List.any_eq_true.mpr ⟨qw, hqwmem, ?_⟩
      simp [packageVersionCk, hqwpred.1, hqwpred.2]
    · intro r hr
      rw [List.mem_singleton] at hr
      subst hr
      exact ⟨qw, hqwmem, hqwpred.1, hqwpred.2⟩
  -- the reconciled workspace id of the second run is run 1's authoritative id
  have halget3 : ∀ idv : Int, alGet (reconciledIds db'.package_versions
      [⟨idv, pn, "0.0.0", some ("Workspace package for " ++ pn), none, none, "workspace"⟩])
      (pn, "0.0.0") = some qw.id := by
    intro idv
    have hrec : reconciledIds db'.package_versions
        [⟨idv, pn, "0.0.0", some ("Workspace package for " ++ pn), none, none, "workspace"⟩] =
        [((pn, "0.0.0"), qw.id)] := by
      simp only [reconciledIds, List.map_cons, List.map_nil]
      rw [show (db'.package_versions.find? fun q => q.name == pn && q.version == "0.0.0")
        = some qw from hfindqw2]
      rfl
    rw [hrec]
    simp [alGet]
  -- snapshot ids persisted so far are at most the first run's snapshot id
  have hsnle : ∀ s ∈ db'.snapshots, s.id ≤ g.snapshot_counter + 1 := by
    intro s hs
    rw [hsnapeq'] at hs
    rcases List.mem_append.mp hs with h1 | h2
    · have := hready.snap_seeded s h1
      omega
    · rw [List.mem_singleton] at h2
      subst h2
      show g.snapshot_counter + 1 ≤ g.snapshot_counter + 1
      omega
  -- snapshot associations persisted so far reference at most that id
  have hsple : ∀ q ∈ db'.snapshot_packages, q.snapshot_id ≤ g.snapshot_counter + 1 := by
    intro q hq
    rw [hsp] at hq
    obtain ⟨rest, hT, hsub⟩ := insertAll_append snapshotPackageCk db.snapshot_packages
      ((pkgRows.filterMap fun pkg =>
          (alGet m1 (pkg.name, pkg.version)).map fun actual_id =>
            (⟨g.snapshot_counter + 1, actual_id, pkg.source, false⟩ : SnapshotPackageRow)) ++
       [⟨g.snapshot_counter + 1, qw.id, "workspace", true⟩])
    rw [hT] at hq
    rcases List.mem_append.mp hq with h1 | h2
    · have := hready.sp_seeded q h1
      omega
    · have h3 := hsub q h2
      rcases List.mem_append.mp h3 with h4 | h5
      · obtain ⟨pkg, hpkg, hm⟩ := List.mem_filterMap.mp h4
        rcases halg : alGet m1 (pkg.name, pkg.version) with _ | a
        · rw [halg] at hm
          cases hm
        · rw [halg] at hm
          simp only [Option.map_some'] at hm
          have hm2 : (⟨g.snapshot_counter + 1, a, pkg.source, false⟩ : SnapshotPackageRow)
              = q := Option.some.inj hm
          rw [← hm2]
      · rw [List.mem_singleton] at h5
        subst h5
        show g.snapshot_counter + 1 ≤ g.snapshot_counter + 1
        omega
  -- Phase 4 of the second run, snapshot associations: the fresh snapshot id
  -- was never persisted, so the first row violates its foreign key
  have hsp2 : ∀ (gX : IdGenerator), insert_snapshot_packages db'
      (((allocPkgRows packages gX).1.filterMap fun pkg =>
          (alGet (reconciledIds db'.package_versions (allocPkgRows packages gX).1)
            (pkg.name, pkg.version)).map fun actual_id =>
            (⟨g.snapshot_counter + 2, actual_id, pkg.source, false⟩ : SnapshotPackageRow)) ++
        [⟨g.snapshot_counter + 2, qw.id, "workspace", true⟩]) = (db', false) := by
    intro gX
    have hsidall : ∀ r ∈ (((allocPkgRows packages gX).1.filterMap fun pkg =>
        (alGet (reconciledIds db'.package_versions (allocPkgRows packages gX).1)
          (pkg.name, pkg.version)).map fun actual_id =>
          (⟨g.snapshot_counter + 2, actual_id, pkg.source, false⟩ : SnapshotPackageRow)) ++
      [⟨g.snapshot_counter + 2, qw.id, "workspace", true⟩]),
        r.snapshot_id = g.snapshot_counter + 2 := by
      intro r hr
      rcases List.mem_append.mp hr with h1 | h2
      · obtain ⟨pkg, hpkg, hm⟩ := List.mem_filterMap.mp h1
        rcases halg : alGet (reconciledIds db'.package_versions (allocPkgRows packages gX).1)
            (pkg.name, pkg.version) with _ | a
        · rw [halg] at hm
          cases hm
        · rw [halg] at hm
          simp only [Option.map_some'] at hm
          have hm2 : (⟨g.snapshot_counter + 2, a, pkg.source, false⟩ : SnapshotPackageRow)
              = r := Option.some.inj hm
          rw [← hm2]
      · rw [List.mem_singleton] at h2
        subst h2
        rfl
    have hcf : ∀ r ∈ (((allocPkgRows packages gX).1.filterMap fun pkg =>
        (alGet (reconciledIds db'.package_versions (allocPkgRows packages gX).1)
          (pkg.name, pkg.version)).map fun actual_id =>
          (⟨g.snapshot_counter + 2, actual_id, pkg.source, false⟩ : SnapshotPackageRow)) ++
      [⟨g.snapshot_counter + 2, qw.id, "workspace", true⟩]),
        rowConflict snapshotPackageCk db'.snapshot_packages r = false := by
      intro r hr
      rw [rowConflict, Bool.eq_false_iff]
      intro hany
      obtain ⟨q, hq, hck⟩ := List.any_eq_true.mp hany
      rw [snapshotPackageCk, Bool.and_eq_true, beq_iff_eq, beq_iff_eq] at hck
      have h1 := hsple q hq
      have h2 := hsidall r hr
      have h3 : q.snapshot_id = r.snapshot_id := hck.1
      omega
    have hff : ∀ r ∈ (((allocPkgRows packages gX).1.filterMap fun pkg =>
        (alGet (reconciledIds db'.package_versions (allocPkgRows packages gX).1)
          (pkg.name, pkg.version)).map fun actual_id =>
          (⟨g.snapshot_counter + 2, actual_id, pkg.source, false⟩ : SnapshotPackageRow)) ++
      [⟨g.snapshot_counter + 2, qw.id, "workspace", true⟩]),
        ((db'.snapshots.any fun s => s.id == r.snapshot_id) &&
          (db'.package_versions.any fun p => p.id == r.package_version_id)) = false := by
      intro r hr
      have h2 := hsidall r hr
      have h1 : (db'.snapshots.any fun s => s.id == r.snapshot_id) = false := by
        rw [Bool.eq_false_iff]
        intro hany
        obtain ⟨s, hs, hck⟩ := List.any_eq_true.mp hany
        rw [beq_iff_eq] at hck
        have := hsnle s hs
        omega
      rw [h1]
      rfl
    have hne : (((allocPkgRows packages gX).1.filterMap fun pkg =>
        (alGet (reconciledIds db'.package_versions (allocPkgRows packages gX).1)
          (pkg.name, pkg.version)).map fun actual_id =>
          (⟨g.snapshot_counter + 2, actual_id, pkg.source, false⟩ : SnapshotPackageRow)) ++
      [⟨g.snapshot_counter + 2, qw.id, "workspace", true⟩]) ≠ [] := by
      intro h
      simp at h
    have hfail := insertFkAll_head_fail snapshotPackageCk
      (fun sp => (db'.snapshots.any fun s => s.id == sp.snapshot_id) &&
                 (db'.package_versions.any fun p => p.id == sp.package_version_id))
      db'.snapshot_packages _ hne hcf hff
    simp only [insert_snapshot_packages]
    rw [hfail]
  -- the second run: every batch deduplicates until the snapshot-association
  -- foreign key fails, leaving the store exactly as after the first run
  have hrun2 : LoadPipeline.load db' g' env disc pn sl =
      (db', (LoadPipeline.load db' g' env disc pn sl).2.1, .error .StoreError) := by
    simp only [LoadPipeline.load, IdGenerator.next_project_id, IdGenerator.next_snapshot_id,
      IdGenerator.next_package_id, hgoc2, hsid2, hspago]
    simp only [hsnapconf]
    simp only [hwi2conf]
    simp only [hdeps2]
    simp only [hws2]
    simp only [halget3, Option.getD_some]
    simp only [hsp2]
    simp only [if_true]
    rfl
  refine ⟨db', g', stats, hload, ?_,
    (LoadPipeline.load db' g' env disc pn sl).2.1, .StoreError, hrun2⟩
  rw [hrun2]

/-- The re-load fixture is ready for a first load from the empty store. -/
theorem cexReady : LoadReady Db.empty IdGenerator.new cexEnv cexDiscovery [] :=
  ⟨by decide, by decide, by simp [Db.empty],
   by decide, by decide, by simp [Db.empty], by simp [Db.empty], by simp [Db.empty],
   by decide, by decide, by simp [Db.empty], by decide,
   rfl, rfl, rfl,
   by decide, by decide, by decide, by decide, by decide, by decide,
   by decide, by decide⟩

/-- Witness for C1: re-loading the fixture project at commit `"h"` on the
store its first load produced changes no table, and the second run reports
the constraint error. -/
theorem claim_c1_witness :
    ∃ db1 g1 stats1,
      LoadPipeline.load Db.empty IdGenerator.new cexEnv cexDiscovery "p" none =
        (db1, g1, .ok stats1) ∧
      Db.counts (LoadPipeline.load db1 g1 cexEnv cexDiscovery "p" none).1 = Db.counts db1 ∧
      ∃ g2 e, LoadPipeline.load db1 g1 cexEnv cexDiscovery "p" none = (db1, g2, .error e) :=
  claim_c1 Db.empty IdGenerator.new cexEnv cexDiscovery "p" none [] ⟨"h", none⟩ rfl
    cexReady rfl (by decide)
